import Mathlib

/-!
# Verification of the DarwinCore network core

A shallow embedding, in Lean 4, of the frame codec (`protocol.h` /
`protocol.cpp`), the `SendBuffer`, the `Reactor` send/read paths and the
connection-id generation of the DarwinCore networking runtime, together with
proofs and refutations of the specification's claims about them.

Bytes are modelled as naturals (each `< 256`); machine integers are naturals
with explicit `% 2^w` at the points where the C++ source performs a narrowing
cast.  Fallible operations return `Except`/`Option`.  Reads that the C++
performs through raw pointers are modelled by `List.getD _ _ 0`: a read past
the end of the decoder's rolling buffer (undefined behaviour in the source)
yields the byte `0` in the model, while a read that lands inside the buffer
yields the byte actually stored there, exactly as the pointer arithmetic in
`Decoder::TryDecode` does.
-/

namespace DarwinCore

/-! ## Little-endian byte serialization

`Frame::Serialize` / the `#pragma pack(1)` structs lay multi-byte fields out
in host order, which on the target platform is little-endian. -/

/-- The `k` little-endian bytes of `n` (the layout produced by `memcpy` from a
`uintN_t` on a little-endian host). -/
def leBytes : Nat → Nat → List Nat
  | 0, _ => []
  | k + 1, n => n % 256 :: leBytes k (n / 256)

/-- Read `k` little-endian bytes from `buf` starting at `off` (the effect of
`memcpy` into a `uintN_t` from `buf.data() + off`).  Bytes past the end of the
buffer — undefined behaviour in the C++ — are modelled as `0`. -/
def readLE (buf : List Nat) (off : Nat) : Nat → Nat
  | 0 => 0
  | k + 1 => buf.getD off 0 + 256 * readLE buf (off + 1) k

namespace SendBuffer

/-! ## SendBuffer (`send_buffer.h` / `send_buffer.cpp`)

The linear outbound buffer.  `buffer_` is modelled by `data` (so the capacity
is `data.length`, matching `Capacity() { return buffer_.size(); }`), and the
kernel's response to `send(2)` is an explicit oracle argument. -/
def INITIAL_CAPACITY : Nat := 4096

def HIGH_WATER_MARK : Nat := 8 * 1024 * 1024

def LOW_WATER_MARK : Nat := 4 * 1024 * 1024

def MAX_CAPACITY : Nat := 32 * 1024 * 1024

structure State where
  data : List Nat
  read_pos : Nat
  write_pos : Nat
deriving Repr, DecidableEq

def State.size (sb : State) : Nat := sb.write_pos - sb.read_pos

def State.capacity (sb : State) : Nat := sb.data.length

/-- `SendBuffer::SendBuffer()`: `INITIAL_CAPACITY` zero bytes, positions 0. -/
def init : State := ⟨List.replicate INITIAL_CAPACITY 0, 0, 0⟩

/-- `SendBuffer::Compact()`: `memmove` the readable region `[read_pos,
write_pos)` to offset 0; the bytes at `[readable, capacity)` keep their old
values. -/
def compact (sb : State) : State :=
  if sb.read_pos = 0 then sb
  else
    { data := (sb.data.drop sb.read_pos).take sb.size ++ sb.data.drop sb.size,
      read_pos := 0,
      write_pos := sb.size }

/-- The capacity-doubling loop of `EnsureWritableSpace`:
`while (new_capacity < required_size && new_capacity < MAX_CAPACITY)
   new_capacity *= 2;`.
64 doublings always suffice for a `size_t`; the fuel only rules out the
degenerate `capacity = 0` infinite loop that no reachable buffer has. -/
def growCap : Nat → Nat → Nat → Nat
  | 0, cap, _ => cap
  | fuel + 1, cap, required =>
      if cap < required ∧ cap < MAX_CAPACITY then growCap fuel (cap * 2) required else cap

/-- `new_capacity` after the doubling loop and the final
`if (new_capacity > MAX_CAPACITY) new_capacity = MAX_CAPACITY;` cap. -/
def cappedGrow (cap required : Nat) : Nat :=
  if growCap 64 cap required > MAX_CAPACITY then MAX_CAPACITY else growCap 64 cap required

/-- The tail of `SendBuffer::EnsureWritableSpace` after the optional first
compaction: re-check the writable space, reject a request that would exceed
`MAX_CAPACITY`, otherwise double the capacity until it fits (capped at
`MAX_CAPACITY`) and `resize` (zero-filling) the vector.  The source retries
`Compact()` inside the over-capacity branch only when `read_pos_ > 0`, but at
that point `read_pos_` is always `0`, so the retry is folded away. -/
def ewsGrow (sb : State) (sz : Nat) : State × Bool :=
  if sz ≤ sb.capacity - sb.write_pos then (sb, true)
  else if sb.write_pos + sz > MAX_CAPACITY then (sb, false)
  else
    ({ sb with
        data := sb.data ++
          List.replicate (cappedGrow sb.capacity (sb.write_pos + sz) - sb.capacity) 0 },
      true)

/-- `SendBuffer::EnsureWritableSpace`: if the space after `write_pos` is
already enough, succeed; otherwise compact first (when `read_pos_ > 0`) and
fall through to the growth logic. -/
def ensureWritableSpace (sb : State) (sz : Nat) : State × Bool :=
  if sz ≤ sb.capacity - sb.write_pos then (sb, true)
  else ewsGrow (if sb.read_pos > 0 then compact sb else sb) sz

/-- `SendBuffer::Write`: reject empty writes, ensure space, `memcpy` at
`write_pos`, advance `write_pos`.  (A null `data` pointer is not modelled.) -/
def write (sb : State) (bytes : List Nat) : State × Bool :=
  if bytes.length = 0 then (sb, false)
  else
    match ensureWritableSpace sb bytes.length with
    | (sb', false) => (sb', false)
    | (sb', true) =>
        ({ sb' with
            data := sb'.data.take sb'.write_pos ++ bytes ++
              sb'.data.drop (sb'.write_pos + bytes.length),
            write_pos := sb'.write_pos + bytes.length }, true)

/-- The kernel's answer to the single non-blocking `send(2)` issued by
`SendToSocket`. -/
inductive KernelSend where
  | sent (n : Nat)
  | wouldBlock
  | interrupted
  | fatal
deriving Repr, DecidableEq

/-- `SendBuffer::SendToSocket`.  `r` is the kernel's response; POSIX
guarantees `send` returns at most the requested length, hence the `min` with
the readable count. -/
def sendToSocket (sb : State) (fd : Int) (r : KernelSend) : State × Int :=
  if fd < 0 then (sb, -1)
  else if sb.size = 0 then (sb, 0)
  else
    match r with
    | .sent n =>
        if min n sb.size = 0 then (sb, 0)
        else if sb.read_pos + min n sb.size = sb.write_pos then
          ({ sb with read_pos := 0, write_pos := 0 }, (min n sb.size : Int))
        else if sb.read_pos + min n sb.size > sb.capacity / 2 then
          (compact { sb with read_pos := sb.read_pos + min n sb.size }, (min n sb.size : Int))
        else
          ({ sb with read_pos := sb.read_pos + min n sb.size }, (min n sb.size : Int))
    | .wouldBlock => (sb, 0)
    | .interrupted => (sb, 0)
    | .fatal => (sb, -1)

/-- `SendBuffer::Clear()`. -/
def clear (sb : State) : State := { sb with read_pos := 0, write_pos := 0 }

/-- One public mutating operation on the buffer. -/
inductive SBOp where
  | write (bytes : List Nat)
  | sendToSocket (fd : Int) (r : KernelSend)
  | compact
  | clear
deriving Repr

def applyOp (sb : State) : SBOp → State
  | .write d => (write sb d).1
  | .sendToSocket fd r => (sendToSocket sb fd r).1
  | .compact => compact sb
  | .clear => clear sb

def runOps (sb : State) (ops : List SBOp) : State := ops.foldl applyOp sb

/-- The claimed structural invariant of the buffer. -/
def Inv (sb : State) : Prop :=
  sb.read_pos ≤ sb.write_pos ∧ sb.write_pos ≤ sb.capacity ∧ sb.capacity ≤ MAX_CAPACITY

instance (sb : State) : Decidable (Inv sb) := by unfold Inv; infer_instance

end SendBuffer

namespace Reactor

/-! ## Reactor (`part_026`) and connection-id generation
(`connection_id_generator.cpp`)

The reactor's event loop, worker pool and kqueue monitor are environmental;
what is modelled is the state the claims are about — the connection maps, the
emitted `NetworkEvent` sequence — plus the kernel's responses to `send(2)` /
`recv(2)` as explicit oracle lists. -/

/-- Symbolic `errno` values distinguished by the reactor paths. -/
inductive Errno where
  | eagain
  | ewouldblock
  | eintr
  | econnreset
  | etimedout
  | epipe
  | other (n : Nat)
deriving Repr, DecidableEq

/-- `NetworkError` (spec section 7 / `MapErrnoToNetworkError`). -/
inductive NetworkError where
  | kResetByPeer
  | kTimeout
  | kPeerClosed
  | kSyscallFailure
deriving Repr, DecidableEq

/-- `Reactor::MapErrnoToNetworkError`. -/
def MapErrnoToNetworkError : Errno → NetworkError
  | .econnreset => .kResetByPeer
  | .etimedout => .kTimeout
  | .epipe => .kPeerClosed
  | _ => .kSyscallFailure

inductive NetworkEventType where
  | kConnected
  | kData
  | kDisconnected
  | kError
deriving Repr, DecidableEq

structure NetworkEvent where
  type : NetworkEventType
  connection_id : Nat
  payload : List Nat
  error : Option NetworkError
deriving Repr, DecidableEq

def dataEvent (cid : Nat) (bytes : List Nat) : NetworkEvent := ⟨.kData, cid, bytes, none⟩

def disconnectedEvent (cid : Nat) : NetworkEvent := ⟨.kDisconnected, cid, [], none⟩

def errorEvent (cid : Nat) (e : Errno) : NetworkEvent :=
  ⟨.kError, cid, [], some (MapErrnoToNetworkError e)⟩

def connectedEvent (cid : Nat) : NetworkEvent := ⟨.kConnected, cid, [], none⟩

/-- The reactor state the claims are about: its id, the `next_connection_id_`
counter, the `connections_` and `fd_to_connection_id_` maps (association
lists keyed by `connection_id` / fd) and the ordered list of `NetworkEvent`s
it has submitted (to the worker pool or the direct callback). -/
structure State where
  reactor_id : Nat
  next_connection_id : Nat
  connections : List (Nat × Int)
  fd_to_connection_id : List (Int × Nat)
  events : List NetworkEvent
deriving Repr, DecidableEq

def lookupConn (st : State) (cid : Nat) : Option Int :=
  (st.connections.find? (fun p => p.1 == cid)).map (·.2)

def lookupFd (st : State) (fd : Int) : Option Nat :=
  (st.fd_to_connection_id.find? (fun p => p.1 == fd)).map (·.2)

/-- The id computation in `Reactor::AddConnection`:
`(static_cast<uint64_t>(reactor_id_) << 32) | local_id`. -/
def generateId (reactor_id local_id : Nat) : Nat := (reactor_id <<< 32) ||| local_id

/-- `Reactor::AddConnection` (with the monitor registration, which is
environmental, assumed to succeed; `is_running_` assumed true).  Returns the
new state and the connection id (`0` for a negative fd). -/
def addConnection (st : State) (fd : Int) : State × Nat :=
  if fd < 0 then (st, 0)
  else
    ({ st with
        next_connection_id := st.next_connection_id + 1,
        connections := st.connections ++ [(generateId st.reactor_id st.next_connection_id, fd)],
        fd_to_connection_id :=
          st.fd_to_connection_id ++ [(fd, generateId st.reactor_id st.next_connection_id)],
        events := st.events ++ [connectedEvent (generateId st.reactor_id st.next_connection_id)] },
      generateId st.reactor_id st.next_connection_id)

/-- `Reactor::RemoveConnection`: deregister, close, erase from both maps. -/
def removeConnection (st : State) (cid : Nat) : State × Bool :=
  match lookupConn st cid with
  | none => (st, false)
  | some fd =>
      ({ st with
          connections := st.connections.filter (fun p => p.1 != cid),
          fd_to_connection_id := st.fd_to_connection_id.filter (fun p => p.1 != fd) },
        true)

/-- `Reactor::HandleConnectionError`: emit one `kError` event (errno mapped
by `MapErrnoToNetworkError`), then `RemoveConnection`. -/
def handleConnectionError (st : State) (cid : Nat) (e : Errno) : State :=
  (removeConnection { st with events := st.events ++ [errorEvent cid e] } cid).1

/-- `Reactor::HandleConnectionClose`: emit one `kDisconnected` event, then
`RemoveConnection`. -/
def handleConnectionClose (st : State) (cid : Nat) : State :=
  (removeConnection { st with events := st.events ++ [disconnectedEvent cid] } cid).1

/-- One kernel response to the `send()` call inside `Reactor::SendData`. -/
inductive SendKR where
  | sent (n : Nat)
  | again
  | err (e : Errno)
deriving Repr, DecidableEq

/-- The result of `Reactor::SendData`: the C++ returns `true` for `ok` and
`false` for `unknownId` / `failed`; `spinning` marks the model artefact of
the kernel oracle running out while the busy-wait loop is still going. -/
inductive SendOutcome where
  | ok
  | unknownId
  | failed (e : Errno)
  | spinning
deriving Repr, DecidableEq

/-- The `while (sent < size)` loop of `Reactor::SendData`.  A `sent n`
response advances by at most the remaining byte count (POSIX: `send` returns
at most the requested length); `again` models `EAGAIN`/`EWOULDBLOCK`, on
which the source busy-waits (`continue`); any other errno triggers
`HandleConnectionError` and a `false` return. -/
def sendDataLoop (st : State) (cid : Nat) : Nat → List SendKR → State × SendOutcome
  | 0, _ => (st, .ok)
  | _ + 1, [] => (st, .spinning)
  | remaining + 1, r :: rs =>
      match r with
      | .sent n => sendDataLoop st cid (remaining + 1 - min n (remaining + 1)) rs
      | .again => sendDataLoop st cid (remaining + 1) rs
      | .err e => (handleConnectionError st cid e, .failed e)

/-- `Reactor::SendData`: look the connection up by id and synchronously write
all bytes to its socket. -/
def sendData (st : State) (cid : Nat) (bytes : List Nat) (kernel : List SendKR) :
    State × SendOutcome :=
  match lookupConn st cid with
  | none => (st, .unknownId)
  | some _fd => sendDataLoop st cid bytes.length kernel

/-- One kernel response to the `recv()` call inside
`Reactor::HandleReadEvent`. -/
inductive RecvKR where
  | bytes (data : List Nat)
  | closed
  | err (e : Errno)
deriving Repr, DecidableEq

/-- The `while (true)` recv loop of `Reactor::HandleReadEvent`: data emits a
`kData` event and loops; `ret == 0` emits `kDisconnected` and closes;
`EAGAIN`/`EWOULDBLOCK` returns quietly; **any other errno — including
`EINTR` — emits a `kError` event and closes the connection**. -/
def handleReadEventLoop (st : State) (cid : Nat) : List RecvKR → State
  | [] => st
  | r :: rs =>
      match r with
      | .bytes data =>
          handleReadEventLoop { st with events := st.events ++ [dataEvent cid data] } cid rs
      | .closed => handleConnectionClose st cid
      | .err e =>
          if e = .eagain ∨ e = .ewouldblock then st
          else handleConnectionError st cid e

/-- `Reactor::HandleReadEvent`: resolve the fd to a connection, then drain. -/
def handleReadEvent (st : State) (fd : Int) (kernel : List RecvKR) : State :=
  match lookupFd st fd with
  | none => st
  | some cid =>
      match lookupConn st cid with
      | none => st
      | some _ => handleReadEventLoop st cid kernel

end Reactor

namespace ConnectionIdGenerator

/-- `ConnectionIdGenerator::Generate`:
`[24 bits YYMMDD | 8 bits reactor id | 16 bits fd | 16 bits seq]`. -/
def generate (date reactorId fd seq : Nat) : Nat :=
  ((date &&& 0xFFFFFF) <<< 40) ||| ((reactorId &&& 0xFF) <<< 32) |||
    ((fd &&& 0xFFFF) <<< 16) ||| (seq &&& 0xFFFF)

/-- `ConnectionIdGenerator::GetDate`. -/
def getDate (connId : Nat) : Nat := (connId >>> 40) &&& 0xFFFFFF

/-- `ConnectionIdGenerator::GetReactorId`. -/
def getReactorId (connId : Nat) : Nat := (connId >>> 32) &&& 0xFF

/-- `ConnectionIdGenerator::GetFd`. -/
def getFd (connId : Nat) : Nat := (connId >>> 16) &&& 0xFFFF

/-- `ConnectionIdGenerator::GetSeq`. -/
def getSeq (connId : Nat) : Nat := connId &&& 0xFFFF

/-- `ConnectionIdGenerator::GetCurrentDate`:
`(tm_year % 100) * 10000 + (tm_mon + 1) * 100 + tm_mday`, as a function of
the local-time fields (`mon1 = tm_mon + 1` is the 1-based month). -/
def yymmdd (year mon1 mday : Nat) : Nat := year % 100 * 10000 + mon1 * 100 + mday

end ConnectionIdGenerator

namespace Proto

/-! ## Frame codec (`configuration.h` protocol section / `part_027`)

`proto::Frame`, `Encoder`, `Decoder` and `CalculateCRC32`. -/
def MAGIC1 : Nat := 0x5A

def MAGIC2 : Nat := 0x5C

def VERSION : Nat := 0x01

def MAX_FRAME_PAYLOAD : Nat := 256 * 1024

def MAX_MESSAGE_SLICES : Nat := 65535

def FLAG_CRC32 : Nat := 0x0001

/-- Frame type codes (`enum class FrameType : uint8_t`). -/
def FT_MESSAGE : Nat := 0x01

def FT_STREAM_START : Nat := 0x02

def FT_STREAM_CHUNK : Nat := 0x03

def FT_STREAM_END : Nat := 0x04

/-- The static CRC-32 table of `CalculateCRC32` (polynomial `0xEDB88320`,
copied entry for entry from the source). -/
def CRC_TABLE : List Nat := [
    0x00000000, 0x77073096, 0xee0e612c, 0x990951ba, 0x076dc419, 0x706af48f,
    0xe963a535, 0x9e6495a3, 0x0edb8832, 0x79dcb8a4, 0xe0d5e91e, 0x97d2d988,
    0x09b64c2b, 0x7eb17cbd, 0xe7b82d07, 0x90bf1d91, 0x1db71064, 0x6ab020f2,
    0xf3b97148, 0x84be41de, 0x1adad47d, 0x6ddde4eb, 0xf4d4b551, 0x83d385c7,
    0x136c9856, 0x646ba8c0, 0xfd62f97a, 0x8a65c9ec, 0x14015c4f, 0x63066cd9,
    0xfa0f3d63, 0x8d080df5, 0x3b6e20c8, 0x4c69105e, 0xd56041e4, 0xa2677172,
    0x3c03e4d1, 0x4b04d447, 0xd20d85fd, 0xa50ab56b, 0x35b5a8fa, 0x42b2986c,
    0xdbbbc9d6, 0xacbcf940, 0x32d86ce3, 0x45df5c75, 0xdcd60dcf, 0xabd13d59,
    0x26d930ac, 0x51de003a, 0xc8d75180, 0xbfd06116, 0x21b4f4b5, 0x56b3c423,
    0xcfba9599, 0xb8bda50f, 0x2802b89e, 0x5f058808, 0xc60cd9b2, 0xb10be924,
    0x2f6f7c87, 0x58684c11, 0xc1611dab, 0xb6662d3d, 0x76dc4190, 0x01db7106,
    0x98d220bc, 0xefd5102a, 0x71b18589, 0x06b6b51f, 0x9fbfe4a5, 0xe8b8d433,
    0x7807c9a2, 0x0f00f934, 0x9609a88e, 0xe10e9818, 0x7f6a0dbb, 0x086d3d2d,
    0x91646c97, 0xe6635c01, 0x6b6b51f4, 0x1c6c6162, 0x856530d8, 0xf262004e,
    0x6c0695ed, 0x1b01a57b, 0x8208f4c1, 0xf50fc457, 0x65b0d9c6, 0x12b7e950,
    0x8bbeb8ea, 0xfcb9887c, 0x62dd1ddf, 0x15da2d49, 0x8cd37cf3, 0xfbd44c65,
    0x4db26158, 0x3ab551ce, 0xa3bc0074, 0xd4bb30e2, 0x4adfa541, 0x3dd895d7,
    0xa4d1c46d, 0xd3d6f4fb, 0x4369e96a, 0x346ed9fc, 0xad678846, 0xda60b8d0,
    0x44042d73, 0x33031de5, 0xaa0a4c5f, 0xdd0d7cc9, 0x5005713c, 0x270241aa,
    0xbe0b1010, 0xc90c2086, 0x5768b525, 0x206f85b3, 0xb966d409, 0xce61e49f,
    0x5edef90e, 0x29d9c998, 0xb0d09822, 0xc7d7a8b4, 0x59b33d17, 0x2eb40d81,
    0xb7bd5c3b, 0xc0ba6cad, 0xedb88320, 0x9abfb3b6, 0x03b6e20c, 0x74b1d29a,
    0xead54739, 0x9dd277af, 0x04db2615, 0x73dc1683, 0xe3630b12, 0x94643b84,
    0x0d6d6a3e, 0x7a6a5aa8, 0xe40ecf0b, 0x9309ff9d, 0x0a00ae27, 0x7d079eb1,
    0xf00f9344, 0x8708a3d2, 0x1e01f268, 0x6906c2fe, 0xf762575d, 0x806567cb,
    0x196c3671, 0x6e6b06e7, 0xfed41b76, 0x89d32be0, 0x10da7a5a, 0x67dd4acc,
    0xf9b9df6f, 0x8ebeeff9, 0x17b7be43, 0x60b08ed5, 0xd6d6a3e8, 0xa1d1937e,
    0x38d8c2c4, 0x4fdff252, 0xd1bb67f1, 0xa6bc5767, 0x3fb506dd, 0x48b2364b,
    0xd80d2bda, 0xaf0a1b4c, 0x36034af6, 0x41047a60, 0xdf60efc3, 0xa867df55,
    0x316e8eef, 0x4669be79, 0xcb61b38c, 0xbc66831a, 0x256fd2a0, 0x5268e236,
    0xcc0c7795, 0xbb0b4703, 0x220216b9, 0x5505262f, 0xc5ba3bbe, 0xb2bd0b28,
    0x2bb45a92, 0x5cb36a04, 0xc2d7ffa7, 0xb5d0cf31, 0x2cd99e8b, 0x5bdeae1d,
    0x9b64c2b0, 0xec63f226, 0x756aa39c, 0x026d930a, 0x9c0906a9, 0xeb0e363f,
    0x72076785, 0x05005713, 0x95bf4a82, 0xe2b87a14, 0x7bb12bae, 0x0cb61b38,
    0x92d28e9b, 0xe5d5be0d, 0x7cdcefb7, 0x0bdbdf21, 0x86d3d2d4, 0xf1d4e242,
    0x68ddb3f8, 0x1fda836e, 0x81be16cd, 0xf6b9265b, 0x6fb077e1, 0x18b74777,
    0x88085ae6, 0xff0f6a70, 0x66063bca, 0x11010b5c, 0x8f659eff, 0xf862ae69,
    0x616bffd3, 0x166ccf45, 0xa00ae278, 0xd70dd2ee, 0x4e048354, 0x3903b3c2,
    0xa7672661, 0xd06016f7, 0x4969474d, 0x3e6e77db, 0xaed16a4a, 0xd9d65adc,
    0x40df0b66, 0x37d83bf0, 0xa9bcae53, 0xdebb9ec5, 0x47b2cf7f, 0x30b5ffe9,
    0xbdbdf21c, 0xcabac28a, 0x53b39330, 0x24b4a3a6, 0xbad03605, 0xcdd70693,
    0x54de5729, 0x23d967bf, 0xb3667a2e, 0xc4614ab8, 0x5d681b02, 0x2a6f2b94,
    0xb40bbe37, 0xc30c8ea1, 0x5a05df1b, 0x2d02ef8d]

/-- One step of the CRC loop:
`crc = CRC_TABLE[(crc ^ data[i]) & 0xFF] ^ (crc >> 8)`. -/
def crcStep (crc b : Nat) : Nat :=
  CRC_TABLE.getD ((crc ^^^ b) &&& 0xFF) 0 ^^^ (crc >>> 8)

/-- `CalculateCRC32`: init `0xFFFFFFFF`, one table step per byte, final xor. -/
def CalculateCRC32 (data : List Nat) : Nat :=
  (data.foldl crcStep 0xFFFFFFFF) ^^^ 0xFFFFFFFF

/-- `proto::FrameHeader` (16 bytes, packed). -/
structure FrameHeader where
  magic1 : Nat
  magic2 : Nat
  version : Nat
  type : Nat
  flags : Nat
  payload_len : Nat
  reserved : Nat
  reserved2 : Nat
deriving Repr, DecidableEq

/-- `proto::Frame`. -/
structure Frame where
  header : FrameHeader
  payload : List Nat
deriving Repr, DecidableEq

/-- `memcpy(buffer.data(), &header, 16)` on the packed little-endian
layout. -/
def serializeHeader (h : FrameHeader) : List Nat :=
  h.magic1 % 256 :: h.magic2 % 256 :: h.version % 256 :: h.type % 256 ::
    (leBytes 2 h.flags ++ (leBytes 4 h.payload_len ++ (leBytes 4 h.reserved ++
      leBytes 2 h.reserved2)))

/-- `Frame::Serialize`: header bytes followed by the payload. -/
def Frame.serialize (f : Frame) : List Nat := serializeHeader f.header ++ f.payload

/-- The payload produced by `Encoder::MakeFrame`: the caller bytes, plus the
4 little-endian CRC-32 bytes when `crc` is set. -/
def crcPayload (data : List Nat) (crc : Bool) : List Nat :=
  if crc then data ++ leBytes 4 (CalculateCRC32 data) else data

/-- `Encoder::MakeFrame`.  Note the `payload_len > MAX_FRAME_PAYLOAD` check
runs on the caller length, *before* the 4 CRC bytes are appended. -/
def MakeFrame (ftype : Nat) (data : List Nat) (crc : Bool) : Except String Frame :=
  if data.length > MAX_FRAME_PAYLOAD then Except.error "payload too large"
  else
    Except.ok
      ⟨⟨MAGIC1, MAGIC2, VERSION, ftype, if crc then FLAG_CRC32 else 0,
          (crcPayload data crc).length, 0, 0⟩,
        crcPayload data crc⟩

def sizeofMessageHeader : Nat := 12

/-- The bytes of one `Message`-frame payload:
`MessageHeader{message_id, total_slices, sequence}` followed by the chunk. -/
def messageSlicePayload (message_id total seq : Nat) (chunk : List Nat) : List Nat :=
  leBytes 8 message_id ++ leBytes 2 total ++ leBytes 2 seq ++ chunk

/-- `slice_payload` in `Encoder::EncodeMessage`. -/
def slicePayloadSize (enable_crc : Bool) : Nat :=
  MAX_FRAME_PAYLOAD - sizeofMessageHeader - (if enable_crc then 4 else 0)

/-- `total` in `Encoder::EncodeMessage` — note the `static_cast<uint16_t>`,
which truncates the rounded-up slice count modulo `65536`. -/
def encodeTotal (length : Nat) (enable_crc : Bool) : Nat :=
  ((length + slicePayloadSize enable_crc - 1) / slicePayloadSize enable_crc) % 65536

/-- The chunk of `data` carried by slice `i`:
`chunk = min(slice_payload, length - offset)` bytes at `offset = i *
slice_payload`. -/
def sliceChunk (data : List Nat) (enable_crc : Bool) (i : Nat) : List Nat :=
  (data.drop (i * slicePayloadSize enable_crc)).take
    (min (slicePayloadSize enable_crc) (data.length - i * slicePayloadSize enable_crc))

/-- The encoding loop of `Encoder::EncodeMessage` (an exception thrown by
`MakeFrame` aborts the whole call, as in the source). -/
def encodeSlices (f : Nat → Except String Frame) : List Nat → Except String (List Frame)
  | [] => Except.ok []
  | i :: is =>
      match f i with
      | Except.error e => Except.error e
      | Except.ok fr =>
          match encodeSlices f is with
          | Except.error e => Except.error e
          | Except.ok frs => Except.ok (fr :: frs)

/-- `Encoder::EncodeMessage`. -/
def EncodeMessage (message_id : Nat) (data : List Nat) (enable_crc : Bool) :
    Except String (List Frame) :=
  if encodeTotal data.length enable_crc = 0 ∨
      encodeTotal data.length enable_crc > MAX_MESSAGE_SLICES then
    Except.error "message too large"
  else
    encodeSlices
      (fun i =>
        MakeFrame FT_MESSAGE
          (messageSlicePayload message_id (encodeTotal data.length enable_crc) i
            (sliceChunk data enable_crc i))
          enable_crc)
      (List.range (encodeTotal data.length enable_crc))

/-- `Encoder::SerializeFrames` followed by the concatenation the caller
performs before handing the bytes to a transport. -/
def serializeAll (frames : List Frame) : List Nat :=
  (frames.map Frame.serialize).flatten

/-- A reassembly-table entry (`PendingMessage`); `first_seen` is wall-clock
state used only by the timeout cleanup and is not modelled. -/
structure PendingMessage where
  total : Nat
  slices : List (List Nat)
  received : Nat
deriving Repr, DecidableEq

structure MessageComplete where
  message_id : Nat
  data : List Nat
deriving Repr, DecidableEq

/-- `proto::StreamEvent` (value-initialised; the dispatch then fills the
fields relevant to the frame type). -/
structure StreamEvent where
  type : Nat
  stream_id : Nat
  offset : Nat
  total_size : Nat
  crc32 : Nat
  data : List Nat
deriving Repr, DecidableEq

structure DecoderStats where
  frames_received : Nat
  messages_completed : Nat
  stream_events : Nat
  bytes_received : Nat
  crc_errors : Nat
  timeout_cleanups : Nat
  pending_messages : Nat
  buffer_size : Nat
deriving Repr, DecidableEq

/-- `Decoder` state.  `messages` models the `std::map` as an association
list; `oob_slice_write` is an instrumentation flag that records the
out-of-bounds write `m.slices[mh->sequence]` the source performs when a
later frame's `sequence` is outside the entry's slice vector (undefined
behaviour in the C++). -/
structure DecoderState where
  buffer : List Nat
  messages : List (Nat × PendingMessage)
  completed_messages : List MessageComplete
  stream_events : List StreamEvent
  stats : DecoderStats
  oob_slice_write : Bool
deriving Repr, DecidableEq

def freshDecoder : DecoderState := ⟨[], [], [], [], ⟨0, 0, 0, 0, 0, 0, 0, 0⟩, false⟩

def mfind (m : List (Nat × PendingMessage)) (k : Nat) : Option PendingMessage :=
  (m.find? (fun p => p.1 == k)).map (·.2)

def mset (m : List (Nat × PendingMessage)) (k : Nat) (v : PendingMessage) :
    List (Nat × PendingMessage) :=
  if (m.find? (fun p => p.1 == k)).isSome then
    m.map (fun p => if p.1 == k then (k, v) else p)
  else m ++ [(k, v)]

def merase (m : List (Nat × PendingMessage)) (k : Nat) : List (Nat × PendingMessage) :=
  m.filter (fun p => p.1 != k)

/-- The `ProtocolError`s thrown by `Decoder::TryDecode`. -/
inductive DecodeError where
  | badMagic
  | badVersion
  | payloadTooLarge
  | badSliceIndex
deriving Repr, DecidableEq

/-- `stats_.buffer_size = buffer_.size()` at the top of each loop
iteration. -/
def bumpBufSize (s : DecoderState) : DecoderState :=
  { s with stats := { s.stats with buffer_size := s.buffer.length } }

/-- `stats_.frames_received++`. -/
def bumpFramesReceived (s : DecoderState) : DecoderState :=
  { s with stats := { s.stats with frames_received := s.stats.frames_received + 1 } }

/-- `stats_.crc_errors++`. -/
def bumpCrcError (s : DecoderState) : DecoderState :=
  { s with stats := { s.stats with crc_errors := s.stats.crc_errors + 1 } }

/-- `slot.assign(payload + sizeof(MessageHeader), payload + payload_data_len)`
reading at absolute buffer offsets (payload begins at 16); an inverted range
(`payload_data_len < 12`, UB in the source) yields the empty slice. -/
def sliceData (buf : List Nat) (payload_data_len : Nat) : List Nat :=
  (buf.drop 28).take (payload_data_len - 12)

/-- The `FrameType::Message` dispatch after the bad-slice-index check: locate
or create the reassembly entry, store the slice, and deliver the message when
all slices have arrived. -/
def storeSlice (s : DecoderState) (mid mtotal mseq : Nat) (slice : List Nat) :
    DecoderState :=
  let m0 := (mfind s.messages mid).getD ⟨0, [], 0⟩
  let m1 := if m0.slices = [] then (⟨mtotal, List.replicate mtotal [], m0.received⟩ :
    PendingMessage) else m0
  if mseq < m1.slices.length then
    let slot := m1.slices.getD mseq []
    let m2 := if slot = [] then
        (⟨m1.total, m1.slices.set mseq slice, m1.received + 1⟩ : PendingMessage)
      else m1
    if m2.received = m2.total then
      { s with
          messages := merase s.messages mid,
          completed_messages := s.completed_messages ++ [⟨mid, m2.slices.flatten⟩],
          stats := { s.stats with messages_completed := s.stats.messages_completed + 1 } }
    else { s with messages := mset s.messages mid m2 }
  else
    { s with messages := mset s.messages mid m1, oob_slice_write := true }

/-- The `FrameType::Message` case of the dispatch.  The `MessageHeader` is
read through a raw pointer at payload offset 0, i.e. absolute buffer offsets
16 (id), 24 (total), 26 (sequence), regardless of `payload_len`. -/
def processMessageFrame (s : DecoderState) (payload_data_len : Nat) :
    DecoderState × Option DecodeError :=
  if readLE s.buffer 26 2 ≥ readLE s.buffer 24 2 then (s, some DecodeError.badSliceIndex)
  else
    (storeSlice s (readLE s.buffer 16 8) (readLE s.buffer 24 2) (readLE s.buffer 26 2)
        (sliceData s.buffer payload_data_len),
      none)

/-- The non-`Message` dispatch: build a `StreamEvent` according to the type
byte and queue it. -/
def processStreamFrame (s : DecoderState) (ftype payload_data_len : Nat) : DecoderState :=
  { s with
      stream_events := s.stream_events ++
        [if ftype = FT_STREAM_CHUNK then
            ⟨ftype, readLE s.buffer 16 8, readLE s.buffer 24 8, 0, 0,
              (s.buffer.drop 32).take (payload_data_len - 16)⟩
          else if ftype = FT_STREAM_START then
            ⟨ftype, readLE s.buffer 16 8, 0, readLE s.buffer 24 8, 0, []⟩
          else if ftype = FT_STREAM_END then
            ⟨ftype, readLE s.buffer 16 8, 0, 0, readLE s.buffer 24 4, []⟩
          else ⟨ftype, 0, 0, 0, 0, []⟩],
      stats := { s.stats with stream_events := s.stats.stream_events + 1 } }

/-- Dispatch of one complete frame by type byte. -/
def processFrame (s : DecoderState) (ftype payload_data_len : Nat) :
    DecoderState × Option DecodeError :=
  if ftype = FT_MESSAGE then processMessageFrame s payload_data_len
  else (processStreamFrame s ftype payload_data_len, none)

/-- Everything `Decoder::TryDecode` does with one complete frame sitting at
the front of the buffer: count it, run the optional CRC-32 check (dropping
the frame and counting a CRC error on mismatch), dispatch it, and erase its
bytes — or return with the buffer intact when the dispatch throws. -/
def decodeFrameStep (s : DecoderState) : DecoderState × Option DecodeError :=
  if readLE s.buffer 4 2 &&& FLAG_CRC32 ≠ 0 ∧ 4 ≤ readLE s.buffer 6 4 then
    if readLE s.buffer (16 + (readLE s.buffer 6 4 - 4)) 4 =
        CalculateCRC32 ((s.buffer.drop 16).take (readLE s.buffer 6 4 - 4)) then
      match processFrame (bumpFramesReceived s) (s.buffer.getD 3 0)
          (readLE s.buffer 6 4 - 4) with
      | (s2, some e) => (s2, some e)
      | (s2, none) => ({ s2 with buffer := s2.buffer.drop (16 + readLE s2.buffer 6 4) }, none)
    else
      ({ bumpCrcError (bumpFramesReceived s) with
          buffer := s.buffer.drop (16 + readLE s.buffer 6 4) },
        none)
  else
    match processFrame (bumpFramesReceived s) (s.buffer.getD 3 0) (readLE s.buffer 6 4) with
    | (s2, some e) => (s2, some e)
    | (s2, none) => ({ s2 with buffer := s2.buffer.drop (16 + readLE s2.buffer 6 4) }, none)

/-- The greedy frame loop of `Decoder::TryDecode`, with an explicit bound on
the number of iterations.  Every processed frame removes at least 16 bytes
from the buffer, so `buffer.length + 1` iterations always suffice (see
`tryDecodeF_fuel`); the `0`-fuel branch is unreachable from `tryDecode`. -/
def tryDecodeF : Nat → DecoderState → DecoderState × Option DecodeError
  | 0, s => (s, none)
  | fuel + 1, s =>
    if s.buffer.length < 16 then (bumpBufSize s, none)
    else if ¬ (s.buffer.getD 0 0 = MAGIC1 ∧ s.buffer.getD 1 0 = MAGIC2) then
      (bumpBufSize s, some DecodeError.badMagic)
    else if s.buffer.getD 2 0 ≠ VERSION then (bumpBufSize s, some DecodeError.badVersion)
    else if readLE s.buffer 6 4 > MAX_FRAME_PAYLOAD then
      (bumpBufSize s, some DecodeError.payloadTooLarge)
    else if s.buffer.length < 16 + readLE s.buffer 6 4 then (bumpBufSize s, none)
    else
      match decodeFrameStep (bumpBufSize s) with
      | (s2, some e) => (s2, some e)
      | (s2, none) => tryDecodeF fuel s2

/-- The greedy frame loop of `Decoder::TryDecode` (the `while (true)` loop
that runs until the buffer has no complete frame or a `ProtocolError` is
thrown). -/
def tryDecode (s : DecoderState) : DecoderState × Option DecodeError :=
  tryDecodeF (s.buffer.length + 1) s

/-- `Decoder::Feed`: count the bytes, append to the rolling buffer, decode
greedily.  The returned `Option DecodeError` is the `ProtocolError` the C++
call would throw (the decoder object keeps the returned state either way). -/
def Feed (s : DecoderState) (data : List Nat) : DecoderState × Option DecodeError :=
  tryDecode
    { s with
        buffer := s.buffer ++ data,
        stats := { s.stats with bytes_received := s.stats.bytes_received + data.length } }

/-- `Decoder::GetMessage`: pop the oldest completed message. -/
def GetMessage (s : DecoderState) : DecoderState × Option MessageComplete :=
  match s.completed_messages with
  | [] => (s, none)
  | m :: rest => ({ s with completed_messages := rest }, some m)

/-- `Decoder::GetStreamEvent`: pop the oldest stream event. -/
def GetStreamEvent (s : DecoderState) : DecoderState × Option StreamEvent :=
  match s.stream_events with
  | [] => (s, none)
  | ev :: rest => ({ s with stream_events := rest }, some ev)

/-- `Decoder::Reset`. -/
def Reset (_s : DecoderState) : DecoderState := freshDecoder

/-! ### Parsing a serialized frame -/

/-- Well-formedness of a frame as produced by `Encoder::MakeFrame`: valid
magic/version, in-range field values, `payload_len` consistent with the
payload. -/
def WFFrame (f : Frame) : Prop :=
  f.header.magic1 = MAGIC1 ∧ f.header.magic2 = MAGIC2 ∧ f.header.version = VERSION ∧
    f.header.type < 256 ∧ f.header.flags < 65536 ∧
    f.header.payload_len = f.payload.length ∧ f.payload.length ≤ MAX_FRAME_PAYLOAD ∧
    (∀ b ∈ f.payload, b < 256)

/-! ### Message frames -/

/-- The frame built by `MakeFrame(FrameType::Message, payload, len, crc)` for
one message slice. -/
def msgFrame (id total seq : Nat) (chunk : List Nat) (crc : Bool) : Frame :=
  ⟨⟨MAGIC1, MAGIC2, VERSION, FT_MESSAGE, if crc then FLAG_CRC32 else 0,
      (crcPayload (messageSlicePayload id total seq chunk) crc).length, 0, 0⟩,
    crcPayload (messageSlicePayload id total seq chunk) crc⟩

/-- The slice vector of a reassembly entry after the first `k` of `t` slices
(with contents given by `c`) have been stored in order. -/
def slicesAt (c : Nat → List Nat) (t k : Nat) : List (List Nat) :=
  (List.range k).map c ++ List.replicate (t - k) []

/-- Flip bit `j` of byte `i` of a byte string (the corruption operator of the
claim). -/
def flipBit (l : List Nat) (i j : Nat) : List Nat :=
  l.set i (l.getD i 0 ^^^ (1 <<< j))

/-! ### Chunk-independence of `Feed` (claim C5)

The source dispatch reads the `MessageHeader` / stream headers through raw
pointers at fixed payload offsets without checking them against
`payload_len`, so a frame whose `payload_len` is smaller than the headers it
is dispatched as reads bytes *after* the frame — bytes that depend on what
else has already arrived.  `frameSafe` states the per-frame condition under
which one complete frame is processed using only its own bytes, and
`chunkSafe` extends it along a whole byte stream. -/

/-- `payload_data_len` as computed by `Decoder::TryDecode` for the frame at
the head of `buf` (the payload length minus the CRC trailer when the CRC
check ran). -/
def frameDataLen (buf : List Nat) : Nat :=
  if readLE buf 4 2 &&& FLAG_CRC32 ≠ 0 ∧ 4 ≤ readLE buf 6 4 then readLE buf 6 4 - 4
  else readLE buf 6 4

/-- The complete frame at the head of `buf` is dispatched reading only its
own bytes, and its dispatch throws no error: a `Message` frame carries a
full 12-byte `MessageHeader` and an in-range sequence number, stream frames
carry the header bytes their dispatch reads. -/
def frameSafe (buf : List Nat) : Bool :=
  if buf.getD 3 0 = FT_MESSAGE then
    if 12 ≤ frameDataLen buf ∧ readLE buf 26 2 < readLE buf 24 2 then true else false
  else if buf.getD 3 0 = FT_STREAM_START then
    if 16 ≤ frameDataLen buf then true else false
  else if buf.getD 3 0 = FT_STREAM_CHUNK then
    if 16 ≤ frameDataLen buf then true else false
  else if buf.getD 3 0 = FT_STREAM_END then
    if 12 ≤ frameDataLen buf then true else false
  else true

/-- Walk the frames of a byte stream as `TryDecode` would: every complete
frame must parse (magic, version, length) and be `frameSafe`; a trailing
incomplete frame is fine. -/
def chunkSafeF : Nat → List Nat → Bool
  | 0, _ => false
  | fuel + 1, buf =>
    if buf.length < 16 then true
    else if ¬ (buf.getD 0 0 = MAGIC1 ∧ buf.getD 1 0 = MAGIC2) then false
    else if buf.getD 2 0 ≠ VERSION then false
    else if readLE buf 6 4 > MAX_FRAME_PAYLOAD then false
    else if buf.length < 16 + readLE buf 6 4 then true
    else if frameSafe buf then chunkSafeF fuel (buf.drop (16 + readLE buf 6 4))
    else false

def chunkSafe (l : List Nat) : Bool := chunkSafeF (l.length + 1) l

/-- One step of feeding a decoder a single byte, collecting the error. -/
def feedStep (p : DecoderState × List (Option DecodeError)) (b : Nat) :
    DecoderState × List (Option DecodeError) :=
  ((Feed p.1 [b]).1, p.2 ++ [(Feed p.1 [b]).2])

/-- Feed a byte stream one byte per `Feed` call, collecting every error. -/
def feedBytewise (s : DecoderState) (l : List Nat) :
    DecoderState × List (Option DecodeError) :=
  l.foldl feedStep (s, [])

/-- Replace the rolling buffer. -/
def setBuf (s : DecoderState) (b : List Nat) : DecoderState := { s with buffer := b }

/-- Replace the `bytes_received` statistic. -/
def setBR (s : DecoderState) (y : Nat) : DecoderState :=
  { s with stats := { s.stats with bytes_received := y } }

/-- Replace the `buffer_size` statistic. -/
def setBS (s : DecoderState) (y : Nat) : DecoderState :=
  { s with stats := { s.stats with buffer_size := y } }

end Proto

end DarwinCore

namespace DarwinCore

@[simp] theorem leBytes_length (k n : Nat) : (leBytes k n).length = k := by
  induction k generalizing n with
  | zero => rfl
  | succ k ih => simp [leBytes, ih]

theorem leBytes_lt (k n : Nat) : ∀ b ∈ leBytes k n, b < 256 := by
  induction k generalizing n with
  | zero => simp [leBytes]
  | succ k ih =>
    intro b hb
    simp only [leBytes, List.mem_cons] at hb
    rcases hb with h | h
    · subst h; exact Nat.mod_lt _ (by norm_num)
    · exact ih _ _ h

/-- Shifting a `readLE` past a cons cell. -/
theorem readLE_cons_succ (x : Nat) (l : List Nat) (off k : Nat) :
    readLE (x :: l) (off + 1) k = readLE l off k := by
  induction k generalizing off with
  | zero => rfl
  | succ k ih => simp only [readLE, List.getD_cons_succ, ih]

theorem readLE_nil (off k : Nat) : readLE [] off k = 0 := by
  induction k generalizing off with
  | zero => rfl
  | succ k ih => simp [readLE, ih]

/-- Reading entirely inside the left part of an append. -/
theorem readLE_append_left {buf : List Nat} (rest : List Nat) {off k : Nat}
    (h : off + k ≤ buf.length) : readLE (buf ++ rest) off k = readLE buf off k := by
  induction k generalizing off with
  | zero => rfl
  | succ k ih =>
    simp only [readLE]
    rw [List.getD_append _ _ _ _ (by omega), ih (by omega)]

/-- Reading entirely inside the right part of an append. -/
theorem readLE_append_right {buf : List Nat} (rest : List Nat) {off k : Nat}
    (h : buf.length ≤ off) :
    readLE (buf ++ rest) off k = readLE rest (off - buf.length) k := by
  induction k generalizing off with
  | zero => rfl
  | succ k ih =>
    simp only [readLE]
    rw [List.getD_append_right _ _ _ _ (by omega), ih (by omega)]
    have hx : off + 1 - buf.length = off - buf.length + 1 := by omega
    rw [hx]

/-- Round trip: the little-endian decoder recovers the encoded value modulo
`2^(8k)`. -/
theorem readLE_leBytes (k n : Nat) (rest : List Nat) :
    readLE (leBytes k n ++ rest) 0 k = n % 256 ^ k := by
  induction k generalizing n rest with
  | zero => simp [readLE, leBytes, Nat.mod_one]
  | succ k ih =>
    simp only [leBytes, readLE, List.cons_append, List.getD_cons_zero]
    have h1 : readLE (n % 256 :: (leBytes k (n / 256) ++ rest)) (0 + 1) k =
        readLE (leBytes k (n / 256) ++ rest) 0 k := readLE_cons_succ _ _ 0 k
    rw [show (1 : Nat) = 0 + 1 from rfl, h1, ih]
    have h2 : (256 : Nat) ^ (k + 1) = 256 * 256 ^ k := by ring
    rw [h2, Nat.mod_mul]

theorem readLE_leBytes_of_lt (k n : Nat) (rest : List Nat) (h : n < 256 ^ k) :
    readLE (leBytes k n ++ rest) 0 k = n := by
  rw [readLE_leBytes, Nat.mod_eq_of_lt h]

theorem readLE_lt (buf : List Nat) (off k : Nat) (hb : ∀ b ∈ buf, b < 256) :
    readLE buf off k < 256 ^ k := by
  induction k generalizing off with
  | zero => simp [readLE]
  | succ k ih =>
    simp only [readLE]
    have hd : buf.getD off 0 < 256 := by
      by_cases h : off < buf.length
      · rw [List.getD_eq_getElem _ _ h]
        exact hb _ (List.getElem_mem h)
      · rw [List.getD_eq_default _ _ (by omega)]; omega
    have := ih (off + 1)
    calc buf.getD off 0 + 256 * readLE buf (off + 1) k
        ≤ 255 + 256 * (256 ^ k - 1) := by
          have : readLE buf (off + 1) k ≤ 256 ^ k - 1 := by omega
          omega
      _ < 256 ^ (k + 1) := by
          have h1 : (1 : Nat) ≤ 256 ^ k := Nat.one_le_pow _ _ (by norm_num)
          have : (256 : Nat) ^ (k + 1) = 256 * 256 ^ k := by ring
          omega

/-- `readLE` only looks at the bytes `[off, off+k)` of the buffer: shifting
past a prefix. -/
theorem readLE_shift (pre buf : List Nat) (k : Nat) :
    readLE (pre ++ buf) pre.length k = readLE buf 0 k := by
  rw [readLE_append_right _ (Nat.le_refl _), Nat.sub_self]

namespace SendBuffer

theorem compact_capacity (sb : State) (h2 : sb.write_pos ≤ sb.capacity) :
    (compact sb).capacity = sb.capacity := by
  unfold compact
  split
  · rfl
  · simp only [State.capacity, State.size, List.length_append, List.length_take,
      List.length_drop] at h2 ⊢
    omega

theorem compact_inv (sb : State) (h : Inv sb) : Inv (compact sb) := by
  obtain ⟨h1, h2, h3⟩ := h
  have hc := compact_capacity sb h2
  unfold Inv
  by_cases h0 : sb.read_pos = 0
  · unfold compact at hc ⊢
    rw [if_pos h0] at hc ⊢
    exact ⟨h1, h2, h3⟩
  · unfold compact at hc ⊢
    rw [if_neg h0] at hc ⊢
    rw [hc]
    refine ⟨Nat.zero_le _, ?_, h3⟩
    show sb.size ≤ sb.capacity
    unfold State.size
    omega

theorem growCap_ge_self (fuel cap req : Nat) : cap ≤ growCap fuel cap req := by
  induction fuel generalizing cap with
  | zero => exact Nat.le_refl _
  | succ fuel ih =>
    unfold growCap
    split
    · exact Nat.le_trans (by omega) (ih (cap * 2))
    · exact Nat.le_refl _

theorem growCap_reaches (fuel cap req : Nat) (h : req ≤ 2 ^ fuel * cap) :
    req ≤ growCap fuel cap req ∨ MAX_CAPACITY ≤ growCap fuel cap req := by
  induction fuel generalizing cap with
  | zero => left; simpa using h
  | succ fuel ih =>
    unfold growCap
    split
    · refine ih (cap * 2) ?_
      have heq : 2 ^ (fuel + 1) * cap = 2 ^ fuel * (cap * 2) := by ring
      omega
    · rename_i hcond
      rw [not_and_or] at hcond
      rcases hcond with hc | hc
      · left; omega
      · right; omega

theorem ewsGrow_spec (sb : State) (sz : Nat) (h : Inv sb) (hpos : 1 ≤ sb.capacity) :
    Inv (ewsGrow sb sz).1 ∧ 1 ≤ (ewsGrow sb sz).1.capacity ∧
      sb.read_pos = (ewsGrow sb sz).1.read_pos ∧ sb.write_pos = (ewsGrow sb sz).1.write_pos ∧
      ((ewsGrow sb sz).2 = true →
        (ewsGrow sb sz).1.write_pos + sz ≤ (ewsGrow sb sz).1.capacity) := by
  obtain ⟨h1, h2, h3⟩ := h
  unfold ewsGrow
  by_cases hw : sz ≤ sb.capacity - sb.write_pos
  · rw [if_pos hw]
    refine ⟨⟨h1, h2, h3⟩, hpos, rfl, rfl, fun _ => ?_⟩
    show sb.write_pos + sz ≤ sb.capacity
    omega
  · rw [if_neg hw]
    by_cases hmax : sb.write_pos + sz > MAX_CAPACITY
    · rw [if_pos hmax]
      refine ⟨⟨h1, h2, h3⟩, hpos, rfl, rfl, fun hfalse => ?_⟩
      exact absurd hfalse (by simp)
    · rw [if_neg hmax]
      have hge : sb.capacity ≤ growCap 64 sb.capacity (sb.write_pos + sz) :=
        growCap_ge_self _ _ _
      have hreach : sb.write_pos + sz ≤ growCap 64 sb.capacity (sb.write_pos + sz) ∨
          MAX_CAPACITY ≤ growCap 64 sb.capacity (sb.write_pos + sz) := by
        apply growCap_reaches
        have hm : MAX_CAPACITY ≤ 2 ^ 64 * 1 := by norm_num [MAX_CAPACITY]
        have h64 : (2 : Nat) ^ 64 * 1 ≤ 2 ^ 64 * sb.capacity :=
          Nat.mul_le_mul_left _ hpos
        omega
      have hkey : sb.capacity ≤ cappedGrow sb.capacity (sb.write_pos + sz) ∧
          cappedGrow sb.capacity (sb.write_pos + sz) ≤ MAX_CAPACITY ∧
          sb.write_pos + sz ≤ cappedGrow sb.capacity (sb.write_pos + sz) := by
        unfold cappedGrow
        split
        · omega
        · omega
      refine ⟨⟨h1, ?_, ?_⟩, ?_, rfl, rfl, fun _ => ?_⟩ <;>
        simp only [State.capacity, List.length_append, List.length_replicate] <;>
        simp only [State.capacity] at hkey h2 hpos <;>
        omega

theorem ensureWritableSpace_spec (sb : State) (sz : Nat)
    (h : Inv sb) (hpos : 1 ≤ sb.capacity) :
    Inv (ensureWritableSpace sb sz).1 ∧ 1 ≤ (ensureWritableSpace sb sz).1.capacity ∧
      ((ensureWritableSpace sb sz).2 = true →
        (ensureWritableSpace sb sz).1.write_pos + sz ≤
          (ensureWritableSpace sb sz).1.capacity) := by
  unfold ensureWritableSpace
  by_cases hw : sz ≤ sb.capacity - sb.write_pos
  · rw [if_pos hw]
    obtain ⟨h1, h2, h3⟩ := h
    refine ⟨⟨h1, h2, h3⟩, hpos, fun _ => ?_⟩
    show sb.write_pos + sz ≤ sb.capacity
    omega
  · rw [if_neg hw]
    by_cases h0 : sb.read_pos > 0
    · rw [if_pos h0]
      have hctmp := compact_inv sb h
      have hcap := compact_capacity sb h.2.1
      have := ewsGrow_spec (compact sb) sz hctmp (by omega)
      exact ⟨this.1, this.2.1, this.2.2.2.2⟩
    · rw [if_neg h0]
      have := ewsGrow_spec sb sz h hpos
      exact ⟨this.1, this.2.1, this.2.2.2.2⟩

theorem write_inv (sb : State) (bytes : List Nat) (h : Inv sb) (hpos : 1 ≤ sb.capacity) :
    Inv (write sb bytes).1 ∧ 1 ≤ (write sb bytes).1.capacity := by
  unfold write
  by_cases hz : bytes.length = 0
  · rw [if_pos hz]; exact ⟨h, hpos⟩
  · rw [if_neg hz]
    have hs := ensureWritableSpace_spec sb bytes.length h hpos
    rcases hok : ensureWritableSpace sb bytes.length with ⟨sb', ok⟩
    rw [hok] at hs
    dsimp only at hs
    obtain ⟨⟨g1, g2, g3⟩, gpos, gfit⟩ := hs
    cases ok with
    | false => exact ⟨⟨g1, g2, g3⟩, gpos⟩
    | true =>
      have hfit : sb'.write_pos + bytes.length ≤ sb'.capacity := gfit rfl
      unfold Inv State.capacity at *
      dsimp only
      refine ⟨⟨?_, ?_, ?_⟩, ?_⟩ <;>
        (try simp only [List.length_append, List.length_take, List.length_drop]) <;> omega

theorem sendToSocket_inv (sb : State) (fd : Int) (r : KernelSend) (h : Inv sb)
    (hpos : 1 ≤ sb.capacity) :
    Inv (sendToSocket sb fd r).1 ∧ 1 ≤ (sendToSocket sb fd r).1.capacity := by
  obtain ⟨h1, h2, h3⟩ := h
  unfold sendToSocket
  by_cases hfd : fd < 0
  · rw [if_pos hfd]; exact ⟨⟨h1, h2, h3⟩, hpos⟩
  · rw [if_neg hfd]
    by_cases hempty : sb.size = 0
    · rw [if_pos hempty]; exact ⟨⟨h1, h2, h3⟩, hpos⟩
    · rw [if_neg hempty]
      cases r with
      | wouldBlock => exact ⟨⟨h1, h2, h3⟩, hpos⟩
      | interrupted => exact ⟨⟨h1, h2, h3⟩, hpos⟩
      | fatal => exact ⟨⟨h1, h2, h3⟩, hpos⟩
      | sent n =>
        simp only
        by_cases hs0 : min n sb.size = 0
        · rw [if_pos hs0]; exact ⟨⟨h1, h2, h3⟩, hpos⟩
        · rw [if_neg hs0]
          have hmin : min n sb.size ≤ sb.size := Nat.min_le_right _ _
          by_cases hdone : sb.read_pos + min n sb.size = sb.write_pos
          · rw [if_pos hdone]
            exact ⟨⟨Nat.le_refl _, Nat.zero_le _, h3⟩, hpos⟩
          · rw [if_neg hdone]
            have hinv' : Inv { sb with read_pos := sb.read_pos + min n sb.size } := by
              unfold Inv
              refine ⟨?_, h2, h3⟩
              show sb.read_pos + min n sb.size ≤ sb.write_pos
              unfold State.size at hmin hempty ⊢
              omega
            by_cases hhalf : sb.read_pos + min n sb.size > sb.capacity / 2
            · rw [if_pos hhalf]
              refine ⟨compact_inv _ hinv', ?_⟩
              have hcc := compact_capacity { sb with read_pos := sb.read_pos + min n sb.size }
                hinv'.2.1
              rw [hcc]
              exact hpos
            · rw [if_neg hhalf]
              exact ⟨hinv', hpos⟩

theorem applyOp_inv (sb : State) (op : SBOp) (h : Inv sb) (hpos : 1 ≤ sb.capacity) :
    Inv (applyOp sb op) ∧ 1 ≤ (applyOp sb op).capacity := by
  cases op with
  | write d => exact write_inv sb d h hpos
  | sendToSocket fd r => exact sendToSocket_inv sb fd r h hpos
  | compact =>
    refine ⟨compact_inv sb h, ?_⟩
    show 1 ≤ (compact sb).capacity
    rw [compact_capacity sb h.2.1]
    exact hpos
  | clear => exact ⟨⟨Nat.le_refl _, Nat.zero_le _, h.2.2⟩, hpos⟩

theorem runOps_inv (ops : List SBOp) (sb : State) (h : Inv sb) (hpos : 1 ≤ sb.capacity) :
    Inv (runOps sb ops) ∧ 1 ≤ (runOps sb ops).capacity := by
  induction ops generalizing sb with
  | nil => exact ⟨h, hpos⟩
  | cons op ops ih =>
    have := applyOp_inv sb op h hpos
    exact ih (applyOp sb op) this.1 this.2

theorem init_inv : Inv init ∧ 1 ≤ init.capacity := by
  unfold Inv init State.capacity
  dsimp only
  simp only [List.length_replicate]
  unfold INITIAL_CAPACITY MAX_CAPACITY
  omega

end SendBuffer

/-- **C6.**  SendBuffer invariant: after every sequence of `Write`,
`SendToSocket`, `Compact` and `Clear` operations starting from a fresh
buffer, `read_pos ≤ write_pos ≤ capacity` holds and the capacity never
exceeds 32 MiB; and whenever a `SendToSocket` call drains the buffer
completely (its return value equals the readable size), the resulting buffer
has `Size() = 0` and both positions reset to `0`. -/
theorem C6_sendbuffer_invariant :
    (∀ ops : List SendBuffer.SBOp, SendBuffer.Inv (SendBuffer.runOps SendBuffer.init ops)) ∧
    (∀ (sb : SendBuffer.State) (fd : Int) (r : SendBuffer.KernelSend),
      SendBuffer.Inv sb → 0 < sb.size →
      (SendBuffer.sendToSocket sb fd r).2 = (sb.size : Int) →
      (SendBuffer.sendToSocket sb fd r).1.read_pos = 0 ∧
        (SendBuffer.sendToSocket sb fd r).1.write_pos = 0 ∧
        (SendBuffer.sendToSocket sb fd r).1.size = 0) := by
  constructor
  · intro ops
    exact (SendBuffer.runOps_inv ops SendBuffer.init SendBuffer.init_inv.1
      SendBuffer.init_inv.2).1
  · intro sb fd r hinv hsz hret
    obtain ⟨h1, h2, h3⟩ := hinv
    unfold SendBuffer.sendToSocket at hret ⊢
    by_cases hfd : fd < 0
    · rw [if_pos hfd] at hret
      dsimp only at hret
      exfalso
      have : (0 : Int) < (sb.size : Int) := by exact_mod_cast hsz
      omega
    · rw [if_neg hfd] at hret ⊢
      rw [if_neg (by omega : ¬ sb.size = 0)] at hret ⊢
      cases r with
      | wouldBlock => exfalso; dsimp only at hret; omega
      | interrupted => exfalso; dsimp only at hret; omega
      | fatal =>
        exfalso; dsimp only at hret
        have : (0 : Int) < (sb.size : Int) := by exact_mod_cast hsz
        omega
      | sent n =>
        dsimp only at hret ⊢
        by_cases hs0 : min n sb.size = 0
        · rw [if_pos hs0] at hret
          exfalso; dsimp only at hret; omega
        · rw [if_neg hs0] at hret ⊢
          have hmineq : min n sb.size = sb.size := by
            by_cases hd : sb.read_pos + min n sb.size = sb.write_pos
            · unfold SendBuffer.State.size at *
              omega
            · rw [if_neg hd] at hret
              by_cases hh : sb.read_pos + min n sb.size > sb.capacity / 2
              · rw [if_pos hh] at hret
                dsimp only at hret
                exact_mod_cast hret
              · rw [if_neg hh] at hret
                dsimp only at hret
                exact_mod_cast hret
          have hd : sb.read_pos + min n sb.size = sb.write_pos := by
            rw [hmineq]
            unfold SendBuffer.State.size at *
            omega
          rw [if_pos hd]
          exact ⟨rfl, rfl, rfl⟩

/-- C6 witness: a 2-byte buffer drained by one `send` that accepts all bytes
resets both positions. -/
theorem C6_sendbuffer_invariant_witness :
    SendBuffer.Inv ⟨[7, 8], 0, 2⟩ ∧
    0 < (⟨[7, 8], 0, 2⟩ : SendBuffer.State).size ∧
    (SendBuffer.sendToSocket ⟨[7, 8], 0, 2⟩ 1 (SendBuffer.KernelSend.sent 5)).2 =
      ((⟨[7, 8], 0, 2⟩ : SendBuffer.State).size : Int) ∧
    ((SendBuffer.sendToSocket ⟨[7, 8], 0, 2⟩ 1
        (SendBuffer.KernelSend.sent 5)).1.read_pos = 0 ∧
      (SendBuffer.sendToSocket ⟨[7, 8], 0, 2⟩ 1
        (SendBuffer.KernelSend.sent 5)).1.write_pos = 0 ∧
      (SendBuffer.sendToSocket ⟨[7, 8], 0, 2⟩ 1
        (SendBuffer.KernelSend.sent 5)).1.size = 0) :=
  ⟨by decide, by decide, by decide,
    C6_sendbuffer_invariant.2 ⟨[7, 8], 0, 2⟩ 1 (SendBuffer.KernelSend.sent 5)
      (by decide) (by decide) (by decide)⟩

/-! ## Claims C7, C8, C9: the reactor send/read paths and id generation -/
theorem sendDataLoop_spec (st : Reactor.State) (cid : Nat) :
    ∀ (kernel : List Reactor.SendKR) (remaining : Nat),
      (((Reactor.sendDataLoop st cid remaining kernel).2 = .ok ∨
          (Reactor.sendDataLoop st cid remaining kernel).2 = .spinning) ∧
        (Reactor.sendDataLoop st cid remaining kernel).1 = st) ∨
      (∃ e, (Reactor.sendDataLoop st cid remaining kernel).2 = .failed e ∧
        (Reactor.sendDataLoop st cid remaining kernel).1 =
          Reactor.handleConnectionError st cid e) := by
  intro kernel
  induction kernel with
  | nil =>
    intro remaining
    match remaining with
    | 0 => exact Or.inl ⟨Or.inl rfl, rfl⟩
    | _ + 1 => exact Or.inl ⟨Or.inr rfl, rfl⟩
  | cons r rs ih =>
    intro remaining
    match remaining with
    | 0 => exact Or.inl ⟨Or.inl rfl, rfl⟩
    | rem + 1 =>
      match r with
      | .sent n => exact ih _
      | .again => exact ih _
      | .err e => exact Or.inr ⟨e, rfl, rfl⟩

/-- **C7 (amended).**  `Reactor::SendData` does not enqueue anything: it
writes synchronously to the socket, busy-waiting on `EAGAIN`/`EWOULDBLOCK`.
It returns false exactly when the connection id is unknown or the kernel
reports a non-retriable error; in the latter case the connection IS closed
(one `kError` event is emitted and the connection is removed), and on success
the reactor state is completely unchanged (nothing was buffered, no
write-interest armed). -/
theorem C7_amended_sendData (st : Reactor.State) (cid : Nat) (bytes : List Nat)
    (kernel : List Reactor.SendKR) :
    ((Reactor.sendData st cid bytes kernel).2 = .unknownId ↔
      Reactor.lookupConn st cid = none) ∧
    (Reactor.lookupConn st cid = none → (Reactor.sendData st cid bytes kernel).1 = st) ∧
    (∀ e, (Reactor.sendData st cid bytes kernel).2 = .failed e →
      (Reactor.sendData st cid bytes kernel).1 = Reactor.handleConnectionError st cid e) ∧
    ((Reactor.sendData st cid bytes kernel).2 = .ok →
      (Reactor.sendData st cid bytes kernel).1 = st) := by
  unfold Reactor.sendData
  rcases hl : Reactor.lookupConn st cid with _ | fd
  all_goals dsimp only
  · refine ⟨⟨fun _ => rfl, fun _ => rfl⟩, fun _ => rfl, fun e he => ?_, fun he => ?_⟩
    · exact Reactor.SendOutcome.noConfusion he
    · exact Reactor.SendOutcome.noConfusion he
  · have hspec := sendDataLoop_spec st cid kernel bytes.length
    refine ⟨⟨fun hu => ?_, fun hn => ?_⟩, fun hn => ?_, fun e he => ?_, fun hok => ?_⟩
    · rcases hspec with ⟨ho, _⟩ | ⟨e, he, _⟩
      · rcases ho with ho | ho <;> rw [hu] at ho <;> exact absurd ho (by simp)
      · rw [hu] at he; exact absurd he (by simp)
    · simp [hl] at hn
    · simp [hl] at hn
    · rcases hspec with ⟨ho, hst⟩ | ⟨e2, he2, hst⟩
      · rcases ho with ho | ho <;> rw [he] at ho <;> exact absurd ho (by simp)
      · rw [he] at he2
        injection he2 with h
        rw [h]
        exact hst
    · rcases hspec with ⟨_, hst⟩ | ⟨e2, he2, _⟩
      · exact hst
      · rw [hok] at he2; exact absurd he2 (by simp)

/-- **C7 (counterexample).**  A `SendData` on a *known* connection id where
the kernel reports `EPIPE`: the call returns false (`failed`), and — contrary
to the claim that a false return happens exactly for unknown ids or a 32 MiB
buffer overflow, with the connection left open — the connection is closed
(removed from the maps) after a `kError` event. -/
theorem C7_counterexample :
    Reactor.lookupConn (⟨0, 2, [(7, 4)], [(4, 7)], []⟩ : Reactor.State) 7 = some 4 ∧
    (Reactor.sendData (⟨0, 2, [(7, 4)], [(4, 7)], []⟩ : Reactor.State) 7 [1, 2, 3]
        [.err .epipe]).2 = .failed .epipe ∧
    (Reactor.sendData (⟨0, 2, [(7, 4)], [(4, 7)], []⟩ : Reactor.State) 7 [1, 2, 3]
        [.err .epipe]).1.connections = [] ∧
    (Reactor.sendData (⟨0, 2, [(7, 4)], [(4, 7)], []⟩ : Reactor.State) 7 [1, 2, 3]
        [.err .epipe]).1.events = [Reactor.errorEvent 7 .epipe] := by
  refine ⟨rfl, rfl, rfl, rfl⟩

/-- Witness for `C7_amended_sendData` at a concrete failing send. -/
theorem C7_amended_sendData_witness :
    (Reactor.sendData (⟨0, 2, [(9, 4)], [(4, 9)], []⟩ : Reactor.State) 9 [1, 2]
        [.again, .err .econnreset]).2 = .failed .econnreset ∧
    (Reactor.sendData (⟨0, 2, [(9, 4)], [(4, 9)], []⟩ : Reactor.State) 9 [1, 2]
        [.again, .err .econnreset]).1 =
      Reactor.handleConnectionError (⟨0, 2, [(9, 4)], [(4, 9)], []⟩ : Reactor.State) 9
        .econnreset :=
  ⟨by decide,
    (C7_amended_sendData (⟨0, 2, [(9, 4)], [(4, 9)], []⟩ : Reactor.State) 9 [1, 2]
        [.again, .err .econnreset]).2.2.1 .econnreset (by decide)⟩

/-- **C8.**  On the reactor's read path the source treats `EINTR` as fatal:
`recv` failing with `EINTR` emits one `kError` event and removes the
connection, exactly like any non-`EAGAIN`/`EWOULDBLOCK` error — the claimed
"EINTR is never fatal and never surfaced" does not hold.  For comparison,
`EAGAIN` and `EWOULDBLOCK` leave the state untouched as claimed. -/
theorem C8_eintr_is_fatal_on_read_path :
    (Reactor.handleReadEvent (⟨0, 2, [(7, 4)], [(4, 7)], []⟩ : Reactor.State) 4
        [.err .eintr]).events = [Reactor.errorEvent 7 .eintr] ∧
    (Reactor.handleReadEvent (⟨0, 2, [(7, 4)], [(4, 7)], []⟩ : Reactor.State) 4
        [.err .eintr]).connections = [] ∧
    Reactor.errorEvent 7 .eintr =
      ⟨.kError, 7, [], some .kSyscallFailure⟩ ∧
    Reactor.handleReadEvent (⟨0, 2, [(7, 4)], [(4, 7)], []⟩ : Reactor.State) 4
        [.err .eagain] = ⟨0, 2, [(7, 4)], [(4, 7)], []⟩ ∧
    Reactor.handleReadEvent (⟨0, 2, [(7, 4)], [(4, 7)], []⟩ : Reactor.State) 4
        [.err .ewouldblock] = ⟨0, 2, [(7, 4)], [(4, 7)], []⟩ := by
  refine ⟨rfl, rfl, rfl, rfl, rfl⟩

/-- `(rid << 32) | seq` is plain positional arithmetic when `seq` fits in 32
bits. -/
theorem generateId_eq (rid seq : Nat) (h : seq < 2 ^ 32) :
    Reactor.generateId rid seq = rid * 2 ^ 32 + seq := by
  unfold Reactor.generateId
  rw [Nat.shiftLeft_eq, Nat.mul_comm rid (2 ^ 32), ← Nat.mul_add_lt_is_or h, Nat.mul_comm]

/-- `ConnectionIdGenerator::Generate` as positional arithmetic. -/
theorem generate_eq_sum (date reactorId fd seq : Nat) :
    ConnectionIdGenerator.generate date reactorId fd seq =
      date % 2 ^ 24 * 2 ^ 40 + reactorId % 2 ^ 8 * 2 ^ 32 + fd % 2 ^ 16 * 2 ^ 16 +
        seq % 2 ^ 16 := by
  unfold ConnectionIdGenerator.generate
  rw [show (0xFFFFFF : Nat) = 2 ^ 24 - 1 by norm_num,
      show (0xFF : Nat) = 2 ^ 8 - 1 by norm_num,
      show (0xFFFF : Nat) = 2 ^ 16 - 1 by norm_num,
      Nat.and_pow_two_sub_one_eq_mod, Nat.and_pow_two_sub_one_eq_mod,
      Nat.and_pow_two_sub_one_eq_mod, Nat.and_pow_two_sub_one_eq_mod,
      Nat.shiftLeft_eq, Nat.shiftLeft_eq, Nat.shiftLeft_eq]
  have hr : reactorId % 2 ^ 8 < 2 ^ 8 := Nat.mod_lt _ (by norm_num)
  have hf : fd % 2 ^ 16 < 2 ^ 16 := Nat.mod_lt _ (by norm_num)
  have hs : seq % 2 ^ 16 < 2 ^ 16 := Nat.mod_lt _ (by norm_num)
  have hb1 : reactorId % 2 ^ 8 * 2 ^ 32 < 2 ^ 40 := by
    have h40 : (2 : Nat) ^ 40 = 2 ^ 8 * 2 ^ 32 := by norm_num
    rw [h40]
    exact Nat.mul_lt_mul_of_lt_of_le hr (Nat.le_refl _) (by norm_num)
  have hb2 : fd % 2 ^ 16 * 2 ^ 16 < 2 ^ 32 := by
    have h32 : (2 : Nat) ^ 32 = 2 ^ 16 * 2 ^ 16 := by norm_num
    rw [h32]
    exact Nat.mul_lt_mul_of_lt_of_le hf (Nat.le_refl _) (by norm_num)
  calc date % 2 ^ 24 * 2 ^ 40 ||| reactorId % 2 ^ 8 * 2 ^ 32 |||
          fd % 2 ^ 16 * 2 ^ 16 ||| seq % 2 ^ 16
      = (2 ^ 40 * (date % 2 ^ 24) ||| reactorId % 2 ^ 8 * 2 ^ 32) |||
          fd % 2 ^ 16 * 2 ^ 16 ||| seq % 2 ^ 16 := by
        rw [Nat.mul_comm (date % 2 ^ 24) (2 ^ 40)]
    _ = (2 ^ 40 * (date % 2 ^ 24) + reactorId % 2 ^ 8 * 2 ^ 32) |||
          fd % 2 ^ 16 * 2 ^ 16 ||| seq % 2 ^ 16 := by
        rw [← Nat.mul_add_lt_is_or hb1]
    _ = (2 ^ 32 * (2 ^ 8 * (date % 2 ^ 24) + reactorId % 2 ^ 8) ||| fd % 2 ^ 16 * 2 ^ 16) |||
          seq % 2 ^ 16 := by
        rw [show 2 ^ 40 * (date % 2 ^ 24) + reactorId % 2 ^ 8 * 2 ^ 32 =
          2 ^ 32 * (2 ^ 8 * (date % 2 ^ 24) + reactorId % 2 ^ 8) by ring]
    _ = (2 ^ 32 * (2 ^ 8 * (date % 2 ^ 24) + reactorId % 2 ^ 8) + fd % 2 ^ 16 * 2 ^ 16) |||
          seq % 2 ^ 16 := by
        rw [← Nat.mul_add_lt_is_or hb2]
    _ = 2 ^ 16 * (2 ^ 16 * (2 ^ 8 * (date % 2 ^ 24) + reactorId % 2 ^ 8) + fd % 2 ^ 16) |||
          seq % 2 ^ 16 := by
        rw [show 2 ^ 32 * (2 ^ 8 * (date % 2 ^ 24) + reactorId % 2 ^ 8) +
          fd % 2 ^ 16 * 2 ^ 16 =
          2 ^ 16 * (2 ^ 16 * (2 ^ 8 * (date % 2 ^ 24) + reactorId % 2 ^ 8) + fd % 2 ^ 16)
          by ring]
    _ = 2 ^ 16 * (2 ^ 16 * (2 ^ 8 * (date % 2 ^ 24) + reactorId % 2 ^ 8) + fd % 2 ^ 16) +
          seq % 2 ^ 16 := by
        rw [← Nat.mul_add_lt_is_or hs]
    _ = date % 2 ^ 24 * 2 ^ 40 + reactorId % 2 ^ 8 * 2 ^ 32 + fd % 2 ^ 16 * 2 ^ 16 +
          seq % 2 ^ 16 := by ring

/-- The four field extractors recover the four fields of
`ConnectionIdGenerator::Generate` (each reduced to its width). -/
theorem generate_fields (date reactorId fd seq : Nat) :
    ConnectionIdGenerator.getDate (ConnectionIdGenerator.generate date reactorId fd seq) =
      date % 2 ^ 24 ∧
    ConnectionIdGenerator.getReactorId
      (ConnectionIdGenerator.generate date reactorId fd seq) = reactorId % 2 ^ 8 ∧
    ConnectionIdGenerator.getFd (ConnectionIdGenerator.generate date reactorId fd seq) =
      fd % 2 ^ 16 ∧
    ConnectionIdGenerator.getSeq (ConnectionIdGenerator.generate date reactorId fd seq) =
      seq % 2 ^ 16 := by
  rw [generate_eq_sum]
  unfold ConnectionIdGenerator.getDate ConnectionIdGenerator.getReactorId
    ConnectionIdGenerator.getFd ConnectionIdGenerator.getSeq
  rw [show (0xFFFFFF : Nat) = 2 ^ 24 - 1 by norm_num,
      show (0xFF : Nat) = 2 ^ 8 - 1 by norm_num,
      show (0xFFFF : Nat) = 2 ^ 16 - 1 by norm_num,
      Nat.and_pow_two_sub_one_eq_mod, Nat.and_pow_two_sub_one_eq_mod,
      Nat.and_pow_two_sub_one_eq_mod, Nat.and_pow_two_sub_one_eq_mod,
      Nat.shiftRight_eq_div_pow, Nat.shiftRight_eq_div_pow, Nat.shiftRight_eq_div_pow]
  have hd : date % 2 ^ 24 < 2 ^ 24 := Nat.mod_lt _ (by norm_num)
  have hr : reactorId % 2 ^ 8 < 2 ^ 8 := Nat.mod_lt _ (by norm_num)
  have hf : fd % 2 ^ 16 < 2 ^ 16 := Nat.mod_lt _ (by norm_num)
  have hs : seq % 2 ^ 16 < 2 ^ 16 := Nat.mod_lt _ (by norm_num)
  norm_num at hd hr hf hs ⊢
  omega

/-- **C9 (amended).**  `Reactor::AddConnection` does NOT use the section-3
layout: the id it assigns is `(reactor_id << 32) | local_id` with `local_id`
the monotonically increasing `next_connection_id_` counter.  Within one
reactor, ids are unique (injective in the counter as long as it stays below
`2^32`), and the owning reactor is recoverable as `id >>> 32`.  The
YYMMDD/fd-hint/sequence layout of section 3 is implemented by
`ConnectionIdGenerator::Generate` — whose field extractors do recover the
four fields — but the reactor never calls it. -/
theorem C9_amended_connection_id (rid seq : Nat) (hs : seq < 2 ^ 32) :
    Reactor.generateId rid seq = rid * 2 ^ 32 + seq ∧
    Reactor.generateId rid seq >>> 32 = rid ∧
    (∀ seq', seq' < 2 ^ 32 →
      Reactor.generateId rid seq = Reactor.generateId rid seq' → seq = seq') ∧
    (∀ (st : Reactor.State) (fd : Int), ¬ fd < 0 →
      (Reactor.addConnection st fd).2 =
          Reactor.generateId st.reactor_id st.next_connection_id ∧
        (Reactor.addConnection st fd).1.next_connection_id = st.next_connection_id + 1) ∧
    (∀ date reactorId fd2 seq2,
      ConnectionIdGenerator.getDate (ConnectionIdGenerator.generate date reactorId fd2 seq2) =
          date % 2 ^ 24 ∧
        ConnectionIdGenerator.getReactorId
            (ConnectionIdGenerator.generate date reactorId fd2 seq2) = reactorId % 2 ^ 8 ∧
        ConnectionIdGenerator.getFd
            (ConnectionIdGenerator.generate date reactorId fd2 seq2) = fd2 % 2 ^ 16 ∧
        ConnectionIdGenerator.getSeq
            (ConnectionIdGenerator.generate date reactorId fd2 seq2) = seq2 % 2 ^ 16) := by
  refine ⟨generateId_eq rid seq hs, ?_, ?_, ?_, fun d r f s => generate_fields d r f s⟩
  · rw [generateId_eq rid seq hs, Nat.shiftRight_eq_div_pow]
    have h32 : (2 : Nat) ^ 32 = 4294967296 := by norm_num
    rw [h32] at hs ⊢
    omega
  · intro seq' hs' heq
    rw [generateId_eq rid seq hs, generateId_eq rid seq' hs'] at heq
    omega
  · intro st fd hfd
    unfold Reactor.addConnection
    rw [if_neg hfd]
    exact ⟨rfl, rfl⟩

/-- **C9 (counterexample).**  The very first connection id assigned by
reactor 3 (for a socket with fd 5) is `3 * 2^32 + 1 = 12884901889`.  Under
the claimed section-3 layout its date field (bits 40–63) is `0` — not a
YYMMDD value, which is always at least 101 since the month is 1-based — its
fd-hint field (bits 16–31) is `0` rather than related to the fd `5`, and its
sequence field is the whole local counter. -/
theorem C9_counterexample :
    (Reactor.addConnection (⟨3, 1, [], [], []⟩ : Reactor.State) 5).2 = 12884901889 ∧
    ConnectionIdGenerator.getDate 12884901889 = 0 ∧
    ConnectionIdGenerator.getFd 12884901889 = 0 ∧
    ConnectionIdGenerator.getReactorId 12884901889 = 3 ∧
    ConnectionIdGenerator.getSeq 12884901889 = 1 := by
  refine ⟨by decide, by decide, by decide, by decide, by decide⟩

/-- Witness for `C9_amended_connection_id` at `rid = 3`, `seq = 1`. -/
theorem C9_amended_connection_id_witness :
    (1 : Nat) < 2 ^ 32 ∧ Reactor.generateId 3 1 = 3 * 2 ^ 32 + 1 :=
  ⟨by decide, (C9_amended_connection_id 3 1 (by decide)).1⟩

namespace Proto

theorem storeSlice_buffer (s : DecoderState) (mid mtotal mseq : Nat) (slice : List Nat) :
    (storeSlice s mid mtotal mseq slice).buffer = s.buffer := by
  simp only [storeSlice]
  repeat' split
  all_goals rfl

theorem processFrame_buffer (s : DecoderState) (ftype pdl : Nat) :
    (processFrame s ftype pdl).1.buffer = s.buffer := by
  unfold processFrame processMessageFrame processStreamFrame
  repeat' split
  all_goals first
    | rfl
    | (dsimp only; rw [storeSlice_buffer])

theorem bumpFramesReceived_buffer (s : DecoderState) :
    (bumpFramesReceived s).buffer = s.buffer := rfl

theorem decodeFrameStep_none_buffer (s : DecoderState) :
    (decodeFrameStep s).2 = none →
      (decodeFrameStep s).1.buffer = s.buffer.drop (16 + readLE s.buffer 6 4) := by
  unfold decodeFrameStep
  split
  · split
    · rcases hp : processFrame (bumpFramesReceived s) (s.buffer.getD 3 0)
          (readLE s.buffer 6 4 - 4) with ⟨s2, e⟩
      have hb : s2.buffer = s.buffer := by
        have := processFrame_buffer (bumpFramesReceived s) (s.buffer.getD 3 0)
          (readLE s.buffer 6 4 - 4)
        rw [hp] at this
        exact this
      cases e with
      | none => intro _; dsimp only; rw [hb]
      | some e2 => intro hcontra; dsimp only at hcontra; exact Option.noConfusion hcontra
    · intro _; rfl
  · rcases hp : processFrame (bumpFramesReceived s) (s.buffer.getD 3 0)
        (readLE s.buffer 6 4) with ⟨s2, e⟩
    have hb : s2.buffer = s.buffer := by
      have := processFrame_buffer (bumpFramesReceived s) (s.buffer.getD 3 0)
        (readLE s.buffer 6 4)
      rw [hp] at this
      exact this
    cases e with
    | none => intro _; dsimp only; rw [hb]
    | some e2 => intro hcontra; dsimp only at hcontra; exact Option.noConfusion hcontra

/-- Any two sufficient fuel values give the same result: the loop consumes at
least 16 bytes per iteration, so `buffer.length` bounds the iteration count
strictly. -/
theorem tryDecodeF_fuel (n : Nat) : ∀ (m : Nat) (s : DecoderState),
    s.buffer.length < n → s.buffer.length < m → tryDecodeF n s = tryDecodeF m s := by
  induction n with
  | zero => intro m s h1 _; omega
  | succ n ih =>
    intro m s h1 h2
    cases m with
    | zero => omega
    | succ m =>
      simp only [tryDecodeF]
      by_cases h16 : s.buffer.length < 16
      · rw [if_pos h16, if_pos h16]
      · rw [if_neg h16, if_neg h16]
        by_cases hmag : ¬ (s.buffer.getD 0 0 = MAGIC1 ∧ s.buffer.getD 1 0 = MAGIC2)
        · rw [if_pos hmag, if_pos hmag]
        · rw [if_neg hmag, if_neg hmag]
          by_cases hver : s.buffer.getD 2 0 ≠ VERSION
          · rw [if_pos hver, if_pos hver]
          · rw [if_neg hver, if_neg hver]
            by_cases hmax : readLE s.buffer 6 4 > MAX_FRAME_PAYLOAD
            · rw [if_pos hmax, if_pos hmax]
            · rw [if_neg hmax, if_neg hmax]
              by_cases hlen : s.buffer.length < 16 + readLE s.buffer 6 4
              · rw [if_pos hlen, if_pos hlen]
              · rw [if_neg hlen, if_neg hlen]
                rcases hstep : decodeFrameStep (bumpBufSize s) with ⟨s2, e⟩
                cases e with
                | some e2 => rfl
                | none =>
                  have hb2 : s2.buffer = s.buffer.drop (16 + readLE s.buffer 6 4) := by
                    have h := decodeFrameStep_none_buffer (bumpBufSize s) (by rw [hstep])
                    rw [hstep] at h
                    exact h
                  apply ih
                  · rw [hb2]; simp only [List.length_drop]; omega
                  · rw [hb2]; simp only [List.length_drop]; omega

/-- A buffer holding less than a full header makes `TryDecode` stop at once
(the bytes stay buffered, no error). -/
theorem tryDecode_short (s : DecoderState) (h : s.buffer.length < 16) :
    tryDecode s = (bumpBufSize s, none) := by
  rw [tryDecode, tryDecodeF]
  exact if_pos h

theorem serializeHeader_length (h : FrameHeader) : (serializeHeader h).length = 16 := by
  simp [serializeHeader]

theorem serialize_length (f : Frame) : f.serialize.length = 16 + f.payload.length := by
  simp [Frame.serialize, serializeHeader_length]

theorem serialize_assoc (f : Frame) (rest : List Nat) :
    f.serialize ++ rest = serializeHeader f.header ++ (f.payload ++ rest) := by
  simp [Frame.serialize]

/-- Skipping the first four (cons) bytes of the header. -/
theorem readLE_cons4 (a b c d : Nat) (l : List Nat) (off k : Nat) :
    readLE (a :: b :: c :: d :: l) (off + 4) k = readLE l off k := by
  rw [show off + 4 = off + 3 + 1 from rfl, readLE_cons_succ,
      show off + 3 = off + 2 + 1 from rfl, readLE_cons_succ,
      show off + 2 = off + 1 + 1 from rfl, readLE_cons_succ, readLE_cons_succ]

/-- Skipping a `leBytes j` block sitting at the front. -/
theorem readLE_afterLE (j n : Nat) (buf : List Nat) (k : Nat) :
    readLE (leBytes j n ++ buf) j k = readLE buf 0 k := by
  have h := readLE_shift (leBytes j n) buf k
  rwa [leBytes_length] at h

theorem serialize_getD0 (f : Frame) (rest : List Nat) :
    (f.serialize ++ rest).getD 0 0 = f.header.magic1 % 256 := by
  rw [serialize_assoc]
  rfl

theorem serialize_getD1 (f : Frame) (rest : List Nat) :
    (f.serialize ++ rest).getD 1 0 = f.header.magic2 % 256 := by
  rw [serialize_assoc]
  rfl

theorem serialize_getD2 (f : Frame) (rest : List Nat) :
    (f.serialize ++ rest).getD 2 0 = f.header.version % 256 := by
  rw [serialize_assoc]
  rfl

theorem serialize_getD3 (f : Frame) (rest : List Nat) :
    (f.serialize ++ rest).getD 3 0 = f.header.type % 256 := by
  rw [serialize_assoc]
  rfl

theorem serialize_flags (f : Frame) (rest : List Nat) :
    readLE (f.serialize ++ rest) 4 2 = f.header.flags % 65536 := by
  rw [serialize_assoc]
  show readLE
    (f.header.magic1 % 256 :: f.header.magic2 % 256 :: f.header.version % 256 ::
      f.header.type % 256 ::
      ((leBytes 2 f.header.flags ++ (leBytes 4 f.header.payload_len ++
        (leBytes 4 f.header.reserved ++ leBytes 2 f.header.reserved2))) ++
        (f.payload ++ rest))) (0 + 4) 2 = f.header.flags % 65536
  rw [readLE_cons4, List.append_assoc, readLE_leBytes]
  norm_num

theorem serialize_payload_len (f : Frame) (rest : List Nat) :
    readLE (f.serialize ++ rest) 6 4 = f.header.payload_len % 2 ^ 32 := by
  rw [serialize_assoc]
  show readLE
    (f.header.magic1 % 256 :: f.header.magic2 % 256 :: f.header.version % 256 ::
      f.header.type % 256 ::
      ((leBytes 2 f.header.flags ++ (leBytes 4 f.header.payload_len ++
        (leBytes 4 f.header.reserved ++ leBytes 2 f.header.reserved2))) ++
        (f.payload ++ rest))) (2 + 4) 4 = f.header.payload_len % 2 ^ 32
  rw [readLE_cons4, List.append_assoc, readLE_afterLE, List.append_assoc, readLE_leBytes]
  norm_num

theorem serialize_drop16 (f : Frame) (rest : List Nat) :
    (f.serialize ++ rest).drop 16 = f.payload ++ rest := by
  rw [serialize_assoc]
  have h := List.drop_left (serializeHeader f.header) (f.payload ++ rest)
  rwa [serializeHeader_length] at h

theorem serialize_readLE_payload (f : Frame) (rest : List Nat) (off k : Nat)
    (hoff : 16 ≤ off) :
    readLE (f.serialize ++ rest) off k = readLE (f.payload ++ rest) (off - 16) k := by
  rw [serialize_assoc]
  have h := @readLE_append_right (serializeHeader f.header) (f.payload ++ rest)
    off k (by rw [serializeHeader_length]; exact hoff)
  rwa [serializeHeader_length] at h

/-- Reading at an offset is reading the dropped buffer at 0. -/
theorem readLE_drop (buf : List Nat) (off k : Nat) :
    readLE buf off k = readLE (buf.drop off) 0 k := by
  induction off generalizing buf with
  | zero => rfl
  | succ off ih =>
    cases buf with
    | nil => rw [readLE_nil, List.drop_nil, readLE_nil]
    | cons x l => rw [readLE_cons_succ, ih, List.drop_succ_cons]

/-- Dropping a `leBytes` block. -/
theorem drop_leBytes (j n : Nat) (l : List Nat) : (leBytes j n ++ l).drop j = l := by
  have h := List.drop_left (leBytes j n) l
  rwa [leBytes_length] at h

set_option maxRecDepth 4096 in
theorem CRC_TABLE_lt : ∀ x ∈ CRC_TABLE, x < 2 ^ 32 := by decide

theorem crcStep_lt (c b : Nat) (hc : c < 2 ^ 32) : crcStep c b < 2 ^ 32 := by
  unfold crcStep
  apply Nat.xor_lt_two_pow
  · by_cases h : ((c ^^^ b) &&& 0xFF) < CRC_TABLE.length
    · rw [List.getD_eq_getElem _ _ h]
      exact CRC_TABLE_lt _ (List.getElem_mem h)
    · rw [List.getD_eq_default _ _ (by omega)]
      norm_num
  · rw [Nat.shiftRight_eq_div_pow]
    calc c / 2 ^ 8 ≤ c := Nat.div_le_self _ _
      _ < 2 ^ 32 := hc

theorem crcFold_lt (data : List Nat) (c : Nat) (hc : c < 2 ^ 32) :
    data.foldl crcStep c < 2 ^ 32 := by
  induction data generalizing c with
  | nil => exact hc
  | cons b bs ih => exact ih _ (crcStep_lt c b hc)

theorem CalculateCRC32_lt (data : List Nat) : CalculateCRC32 data < 2 ^ 32 := by
  unfold CalculateCRC32
  exact Nat.xor_lt_two_pow (crcFold_lt data _ (by norm_num)) (by norm_num)

theorem messageSlicePayload_assoc (id total seq : Nat) (chunk : List Nat) :
    messageSlicePayload id total seq chunk =
      leBytes 8 id ++ (leBytes 2 total ++ (leBytes 2 seq ++ chunk)) := by
  simp [messageSlicePayload]

theorem messageSlicePayload_length (id total seq : Nat) (chunk : List Nat) :
    (messageSlicePayload id total seq chunk).length = 12 + chunk.length := by
  simp [messageSlicePayload]
  omega

theorem messageSlicePayload_lt (id total seq : Nat) (chunk : List Nat)
    (h : ∀ b ∈ chunk, b < 256) : ∀ b ∈ messageSlicePayload id total seq chunk, b < 256 := by
  intro b hb
  rw [messageSlicePayload_assoc] at hb
  simp only [List.mem_append] at hb
  rcases hb with h1 | h1 | h1 | h1
  · exact leBytes_lt _ _ _ h1
  · exact leBytes_lt _ _ _ h1
  · exact leBytes_lt _ _ _ h1
  · exact h _ h1

theorem crcPayload_length (data : List Nat) (crc : Bool) :
    (crcPayload data crc).length = data.length + (if crc then 4 else 0) := by
  cases crc <;> simp [crcPayload]

theorem crcPayload_lt (data : List Nat) (crc : Bool) (h : ∀ b ∈ data, b < 256) :
    ∀ b ∈ crcPayload data crc, b < 256 := by
  cases crc with
  | false => exact h
  | true =>
    intro b hb
    simp only [crcPayload, if_pos, List.mem_append] at hb
    rcases hb with h1 | h1
    · exact h _ h1
    · exact leBytes_lt _ _ _ h1

theorem MakeFrame_msg (id total seq : Nat) (chunk : List Nat) (crc : Bool)
    (h : 12 + chunk.length ≤ MAX_FRAME_PAYLOAD) :
    MakeFrame FT_MESSAGE (messageSlicePayload id total seq chunk) crc =
      Except.ok (msgFrame id total seq chunk crc) := by
  unfold MakeFrame msgFrame
  rw [if_neg (by rw [messageSlicePayload_length]; omega)]

theorem msgFrame_wf (id total seq : Nat) (chunk : List Nat) (crc : Bool)
    (hchunk : ∀ b ∈ chunk, b < 256)
    (hsz : 12 + chunk.length + (if crc then 4 else 0) ≤ MAX_FRAME_PAYLOAD) :
    WFFrame (msgFrame id total seq chunk crc) := by
  refine ⟨rfl, rfl, rfl, by norm_num [msgFrame, FT_MESSAGE], ?_, rfl, ?_, ?_⟩
  · cases crc <;> norm_num [msgFrame, FLAG_CRC32]
  · show (crcPayload (messageSlicePayload id total seq chunk) crc).length ≤ _
    rw [crcPayload_length, messageSlicePayload_length]
    omega
  · exact crcPayload_lt _ _ (messageSlicePayload_lt _ _ _ _ hchunk)

@[simp] theorem bumpFramesReceived_buffer_eq (s : DecoderState) :
    (bumpFramesReceived s).buffer = s.buffer := rfl

@[simp] theorem bumpBufSize_buffer_eq (s : DecoderState) :
    (bumpBufSize s).buffer = s.buffer := rfl

/-- Evaluating `decodeFrameStep` on a buffer holding one complete message
slice frame (as built by the encoder) whose `sequence < total_slices`: the
frame passes the optional CRC check, the slice is stored by `storeSlice`, and
the frame's bytes are erased. -/
theorem decodeFrameStep_msgFrame (s : DecoderState) (id total seq : Nat)
    (chunk rest : List Nat) (crc : Bool)
    (hbuf : s.buffer = (msgFrame id total seq chunk crc).serialize ++ rest)
    (hid : id < 2 ^ 64) (htot : total < 2 ^ 16) (hseq : seq < total)
    (hchunk : ∀ b ∈ chunk, b < 256)
    (hsz : 12 + chunk.length + (if crc then 4 else 0) ≤ MAX_FRAME_PAYLOAD) :
    decodeFrameStep s =
      ({ storeSlice (bumpFramesReceived s) id total seq chunk with buffer := rest },
        none) := by
  have hwf : WFFrame (msgFrame id total seq chunk crc) := msgFrame_wf _ _ _ _ _ hchunk hsz
  have hpl_val : (msgFrame id total seq chunk crc).payload.length =
      12 + chunk.length + (if crc then 4 else 0) := by
    show (crcPayload _ _).length = _
    rw [crcPayload_length, messageSlicePayload_length]
  have hplen : readLE s.buffer 6 4 = 12 + chunk.length + (if crc then 4 else 0) := by
    rw [hbuf, serialize_payload_len]
    show (msgFrame id total seq chunk crc).header.payload_len % 2 ^ 32 = _
    have : (msgFrame id total seq chunk crc).header.payload_len =
        (msgFrame id total seq chunk crc).payload.length := rfl
    rw [this, hpl_val, Nat.mod_eq_of_lt]
    have hm : MAX_FRAME_PAYLOAD < 2 ^ 32 := by norm_num [MAX_FRAME_PAYLOAD]
    omega
  have hflags : readLE s.buffer 4 2 = if crc then FLAG_CRC32 else 0 := by
    rw [hbuf, serialize_flags]
    show ((if crc then FLAG_CRC32 else 0) % 65536) = _
    cases crc <;> decide
  have htype : s.buffer.getD 3 0 = FT_MESSAGE := by
    rw [hbuf, serialize_getD3]
    rfl
  have hdrop16 : s.buffer.drop 16 =
      leBytes 8 id ++ (leBytes 2 total ++ (leBytes 2 seq ++ (chunk ++
        ((if crc then leBytes 4 (CalculateCRC32 (messageSlicePayload id total seq chunk))
          else []) ++ rest)))) := by
    rw [hbuf, serialize_drop16]
    show crcPayload (messageSlicePayload id total seq chunk) crc ++ rest = _
    rw [messageSlicePayload_assoc]
    cases crc <;> simp [crcPayload, messageSlicePayload_assoc, List.append_assoc]
  have hid' : readLE s.buffer 16 8 = id := by
    rw [readLE_drop, hdrop16, readLE_leBytes,
      show ((256 : Nat) ^ 8) = 2 ^ 64 from by norm_num, Nat.mod_eq_of_lt hid]
  have hdrop24 : s.buffer.drop 24 =
      leBytes 2 total ++ (leBytes 2 seq ++ (chunk ++
        ((if crc then leBytes 4 (CalculateCRC32 (messageSlicePayload id total seq chunk))
          else []) ++ rest))) := by
    rw [show (24 : Nat) = 16 + 8 from rfl, ← List.drop_drop, hdrop16, drop_leBytes]
  have htot' : readLE s.buffer 24 2 = total := by
    rw [readLE_drop, hdrop24, readLE_leBytes,
      show ((256 : Nat) ^ 2) = 2 ^ 16 from by norm_num, Nat.mod_eq_of_lt htot]
  have hdrop26 : s.buffer.drop 26 =
      leBytes 2 seq ++ (chunk ++
        ((if crc then leBytes 4 (CalculateCRC32 (messageSlicePayload id total seq chunk))
          else []) ++ rest)) := by
    rw [show (26 : Nat) = 24 + 2 from rfl, ← List.drop_drop, hdrop24, drop_leBytes]
  have hseq' : readLE s.buffer 26 2 = seq := by
    rw [readLE_drop, hdrop26, readLE_leBytes,
      show ((256 : Nat) ^ 2) = 2 ^ 16 from by norm_num,
      Nat.mod_eq_of_lt (lt_trans hseq htot)]
  have hdrop28 : s.buffer.drop 28 =
      chunk ++ ((if crc then leBytes 4 (CalculateCRC32 (messageSlicePayload id total seq
        chunk)) else []) ++ rest) := by
    rw [show (28 : Nat) = 26 + 2 from rfl, ← List.drop_drop, hdrop26, drop_leBytes]
  have hslice : sliceData s.buffer (12 + chunk.length) = chunk := by
    unfold sliceData
    rw [hdrop28, show 12 + chunk.length - 12 = chunk.length from by omega,
      List.take_left]
  have herase : s.buffer.drop (16 + (12 + chunk.length + (if crc then 4 else 0))) =
      rest := by
    rw [hbuf]
    have h := List.drop_left ((msgFrame id total seq chunk crc).serialize) rest
    rwa [serialize_length, hpl_val] at h
  have hmsp_take : (s.buffer.drop 16).take (12 + chunk.length) =
      messageSlicePayload id total seq chunk := by
    rw [hdrop16]
    rw [show leBytes 8 id ++ (leBytes 2 total ++ (leBytes 2 seq ++ (chunk ++
        ((if crc then leBytes 4 (CalculateCRC32 (messageSlicePayload id total seq chunk))
          else []) ++ rest)))) =
      messageSlicePayload id total seq chunk ++
        ((if crc then leBytes 4 (CalculateCRC32 (messageSlicePayload id total seq chunk))
          else []) ++ rest) from by
      rw [messageSlicePayload_assoc]
      simp [List.append_assoc]]
    have h := List.take_left (messageSlicePayload id total seq chunk)
      ((if crc then leBytes 4 (CalculateCRC32 (messageSlicePayload id total seq chunk))
        else []) ++ rest)
    rwa [messageSlicePayload_length] at h
  unfold decodeFrameStep
  cases crc with
  | false =>
    simp only [Nat.add_zero, show (false = true) = False from by simp, if_false]
      at hplen hpl_val hsz herase hdrop16 hdrop24 hdrop26 hdrop28
    have hcond : ¬(readLE s.buffer 4 2 &&& FLAG_CRC32 ≠ 0 ∧ 4 ≤ readLE s.buffer 6 4) := by
      intro hcontra
      apply hcontra.1
      rw [hflags]
      decide
    rw [if_neg hcond]
    rw [htype, hplen]
    unfold processFrame
    rw [if_pos rfl]
    unfold processMessageFrame
    simp only [bumpFramesReceived_buffer_eq]
    rw [hseq', htot']
    rw [if_neg (by omega)]
    rw [hid', hslice]
    dsimp only
    rw [storeSlice_buffer, bumpFramesReceived_buffer_eq, hplen, herase]
  | true =>
    simp only [show (true = true) = True from by simp, if_true]
      at hplen hpl_val hsz herase hdrop16 hdrop24 hdrop26 hdrop28 hmsp_take
    have hcrcread : readLE s.buffer (16 + (readLE s.buffer 6 4 - 4)) 4 =
        CalculateCRC32 (messageSlicePayload id total seq chunk) := by
      rw [hplen, readLE_drop,
        show 16 + (12 + chunk.length + 4 - 4) = 28 + chunk.length from by omega,
        ← List.drop_drop, hdrop28, List.drop_left, readLE_leBytes,
        show ((256 : Nat) ^ 4) = 2 ^ 32 from by norm_num,
        Nat.mod_eq_of_lt (CalculateCRC32_lt _)]
    have hcalc : CalculateCRC32 ((s.buffer.drop 16).take (readLE s.buffer 6 4 - 4)) =
        CalculateCRC32 (messageSlicePayload id total seq chunk) := by
      rw [hplen, show 12 + chunk.length + 4 - 4 = 12 + chunk.length from by omega,
        hmsp_take]
    have hcond : readLE s.buffer 4 2 &&& FLAG_CRC32 ≠ 0 ∧ 4 ≤ readLE s.buffer 6 4 := by
      constructor
      · rw [hflags]
        decide
      · rw [hplen]
        omega
    rw [if_pos hcond]
    rw [if_pos (hcrcread.trans hcalc.symm)]
    rw [htype]
    unfold processFrame
    rw [if_pos rfl]
    unfold processMessageFrame
    simp only [bumpFramesReceived_buffer_eq]
    rw [hseq', htot']
    rw [if_neg (by omega)]
    rw [hid', hplen,
      show 12 + chunk.length + 4 - 4 = 12 + chunk.length from by omega, hslice]
    dsimp only
    rw [storeSlice_buffer, bumpFramesReceived_buffer_eq, hplen, herase]

/-- Unfolding `tryDecode` once on a buffer that starts with a complete
well-formed frame: all header checks pass and the loop body runs. -/
theorem tryDecode_complete_frame (s : DecoderState) (f : Frame) (rest : List Nat)
    (hbuf : s.buffer = f.serialize ++ rest) (hwf : WFFrame f) :
    tryDecode s =
      match decodeFrameStep (bumpBufSize s) with
      | (s2, some e) => (s2, some e)
      | (s2, none) => tryDecode s2 := by
  obtain ⟨hm1, hm2, hv, ht, hf, hpl, hmax, hb⟩ := hwf
  have hlen : s.buffer.length = 16 + f.payload.length + rest.length := by
    rw [hbuf]
    simp [serialize_length]
  have hplen : readLE s.buffer 6 4 = f.payload.length := by
    rw [hbuf, serialize_payload_len, hpl, Nat.mod_eq_of_lt]
    calc f.payload.length ≤ MAX_FRAME_PAYLOAD := hmax
      _ < 2 ^ 32 := by norm_num [MAX_FRAME_PAYLOAD]
  have h0 : s.buffer.getD 0 0 = MAGIC1 := by
    rw [hbuf, serialize_getD0, hm1]; decide
  have h1 : s.buffer.getD 1 0 = MAGIC2 := by
    rw [hbuf, serialize_getD1, hm2]; decide
  have h2 : s.buffer.getD 2 0 = VERSION := by
    rw [hbuf, serialize_getD2, hv]; decide
  conv_lhs => rw [tryDecode]
  rw [tryDecodeF]
  rw [if_neg (by omega : ¬ s.buffer.length < 16)]
  rw [if_neg (show ¬¬(s.buffer.getD 0 0 = MAGIC1 ∧ s.buffer.getD 1 0 = MAGIC2) from
    not_not_intro ⟨h0, h1⟩)]
  rw [if_neg (show ¬¬(s.buffer.getD 2 0 = VERSION) from not_not_intro h2)]
  rw [if_neg (show ¬ readLE s.buffer 6 4 > MAX_FRAME_PAYLOAD by rw [hplen]; omega)]
  rw [if_neg (show ¬ s.buffer.length < 16 + readLE s.buffer 6 4 by rw [hplen]; omega)]
  rcases hd : decodeFrameStep (bumpBufSize s) with ⟨s2, e⟩
  cases e with
  | some e2 => rfl
  | none =>
    show tryDecodeF s.buffer.length s2 = tryDecode s2
    have hb2 : s2.buffer = s.buffer.drop (16 + readLE s.buffer 6 4) := by
      have h := decodeFrameStep_none_buffer (bumpBufSize s) (by rw [hd])
      rw [hd] at h
      exact h
    rw [tryDecode]
    apply tryDecodeF_fuel
    · rw [hb2]; simp only [List.length_drop]; rw [hplen]; omega
    · omega

/-! ### The reassembly table on the single-message runs used below -/
theorem mfind_nil (k : Nat) : mfind [] k = none := rfl

theorem mfind_singleton (k : Nat) (p : PendingMessage) : mfind [(k, p)] k = some p := by
  simp [mfind]

theorem mset_nil (k : Nat) (v : PendingMessage) : mset [] k v = [(k, v)] := by
  simp [mset]

theorem mset_singleton (k : Nat) (p v : PendingMessage) : mset [(k, p)] k v = [(k, v)] := by
  simp [mset]

theorem merase_singleton (k : Nat) (p : PendingMessage) : merase [(k, p)] k = [] := by
  simp [merase]

theorem getD_replicate_nil (n i : Nat) :
    (List.replicate n ([] : List Nat)).getD i [] = [] := by
  induction n generalizing i with
  | zero => simp
  | succ n ih =>
    cases i with
    | zero => simp [List.replicate_succ]
    | succ j => simpa [List.replicate_succ] using ih j

theorem slicesAt_length (c : Nat → List Nat) (t k : Nat) (h : k ≤ t) :
    (slicesAt c t k).length = t := by
  simp [slicesAt]
  omega

theorem slicesAt_zero (c : Nat → List Nat) (t : Nat) :
    slicesAt c t 0 = List.replicate t [] := by
  simp [slicesAt]

theorem slicesAt_ne_nil (c : Nat → List Nat) (t k : Nat) (ht : 0 < t) (hk : k ≤ t) :
    slicesAt c t k ≠ [] := by
  intro hcontra
  have h := congrArg List.length hcontra
  rw [slicesAt_length c t k hk] at h
  simp at h
  omega

theorem slicesAt_getD (c : Nat → List Nat) (t k : Nat) (h : k < t) :
    (slicesAt c t k).getD k [] = [] := by
  unfold slicesAt
  rw [List.getD_append_right _ _ _ _ (by simp), getD_replicate_nil]

theorem slicesAt_set (c : Nat → List Nat) (t k : Nat) (h : k < t) :
    (slicesAt c t k).set k (c k) = slicesAt c t (k + 1) := by
  unfold slicesAt
  rw [List.set_append_right _ _ (by simp),
    show k - (List.map c (List.range k)).length = 0 from by simp,
    show t - k = (t - (k + 1)) + 1 from by omega, List.replicate_succ]
  simp [List.range_succ]

theorem slicesAt_full (c : Nat → List Nat) (t : Nat) :
    slicesAt c t t = (List.range t).map c := by
  simp [slicesAt]

/-- `storeSlice` on a message id with no reassembly entry yet: an entry with
`total_slices` slots is created and the slice stored; a `total_slices = 1`
message completes immediately. -/
theorem storeSlice_fresh (s : DecoderState) (mid mtotal mseq : Nat) (slice : List Nat)
    (hfind : mfind s.messages mid = none) (hseq : mseq < mtotal) :
    storeSlice s mid mtotal mseq slice =
      if 1 = mtotal then
        { s with
            messages := merase s.messages mid,
            completed_messages := s.completed_messages ++
              [⟨mid, ((List.replicate mtotal ([] : List Nat)).set mseq slice).flatten⟩],
            stats := { s.stats with
              messages_completed := s.stats.messages_completed + 1 } }
      else
        { s with
            messages := mset s.messages mid
              ⟨mtotal, (List.replicate mtotal ([] : List Nat)).set mseq slice, 1⟩ } := by
  unfold storeSlice
  rw [hfind]
  simp only [Option.getD_none, if_true, List.length_replicate]
  rw [if_pos hseq]
  rw [if_pos (getD_replicate_nil mtotal mseq)]

/-- `storeSlice` on a message id whose entry already has `k` of `t` slices and
an empty slot at `mseq`: the slice is stored (the frame's own `total_slices`
is ignored) and the message completes exactly when this was the last missing
slice. -/
theorem storeSlice_existing (s : DecoderState) (mid ftot mseq : Nat) (slice : List Nat)
    (t k : Nat) (sl : List (List Nat))
    (hfind : mfind s.messages mid = some ⟨t, sl, k⟩)
    (hne : sl ≠ []) (hlen : mseq < sl.length) (hslot : sl.getD mseq [] = []) :
    storeSlice s mid ftot mseq slice =
      if k + 1 = t then
        { s with
            messages := merase s.messages mid,
            completed_messages := s.completed_messages ++
              [⟨mid, (sl.set mseq slice).flatten⟩],
            stats := { s.stats with
              messages_completed := s.stats.messages_completed + 1 } }
      else
        { s with messages := mset s.messages mid ⟨t, sl.set mseq slice, k + 1⟩ } := by
  unfold storeSlice
  rw [hfind]
  simp only [Option.getD_some]
  rw [if_neg hne, if_pos hlen, if_pos hslot]

/-- The combined form used by the in-order reassembly induction: storing
slice `k` of `t` when the table holds exactly the entry created by slices
`0 … k-1` of the same message (no entry at all when `k = 0`). -/
theorem storeSlice_slicesAt (s : DecoderState) (mid t k : Nat) (c : Nat → List Nat)
    (hk : k < t)
    (hmsg : s.messages = if k = 0 then [] else [(mid, ⟨t, slicesAt c t k, k⟩)]) :
    storeSlice s mid t k (c k) =
      if k + 1 = t then
        { s with
            messages := [],
            completed_messages := s.completed_messages ++
              [⟨mid, ((List.range t).map c).flatten⟩],
            stats := { s.stats with
              messages_completed := s.stats.messages_completed + 1 } }
      else
        { s with messages := [(mid, ⟨t, slicesAt c t (k + 1), k + 1⟩)] } := by
  by_cases hk0 : k = 0
  · subst hk0
    rw [if_pos rfl] at hmsg
    rw [storeSlice_fresh s mid t 0 (c 0) (by rw [hmsg]; rfl) hk]
    rw [show (List.replicate t ([] : List Nat)).set 0 (c 0) = slicesAt c t 1 from by
      rw [← slicesAt_zero c t, slicesAt_set c t 0 hk]]
    by_cases h1 : 1 = t
    · rw [if_pos h1, if_pos (show 0 + 1 = t from h1)]
      rw [hmsg]
      rw [show merase [] mid = [] from rfl]
      rw [show slicesAt c t 1 = (List.range t).map c from by rw [← h1, slicesAt_full]]
    · rw [if_neg h1, if_neg (show ¬ 0 + 1 = t from h1)]
      rw [hmsg, mset_nil]
  · rw [if_neg hk0] at hmsg
    have ht : 0 < t := by omega
    rw [storeSlice_existing s mid t k (c k) t k (slicesAt c t k)
      (by rw [hmsg]; exact mfind_singleton _ _)
      (slicesAt_ne_nil c t k ht (by omega))
      (by rw [slicesAt_length c t k (by omega)]; exact hk)
      (slicesAt_getD c t k hk)]
    rw [slicesAt_set c t k hk]
    by_cases h1 : k + 1 = t
    · rw [if_pos h1, if_pos h1]
      rw [hmsg, merase_singleton]
      rw [show slicesAt c t (k + 1) = (List.range t).map c from by rw [h1, slicesAt_full]]
    · rw [if_neg h1, if_neg h1]
      rw [hmsg, mset_singleton]

/-- One loop iteration on a buffer whose head is slice `k` of an in-order
single-message frame sequence: the slice is stored and the loop continues on
the rest of the buffer. -/
theorem tryDecode_slice_step_last (s : DecoderState) (id t k : Nat) (c : Nat → List Nat)
    (crc : Bool) (rest : List Nat)
    (hk : k < t) (hkt : k + 1 = t) (hid : id < 2 ^ 64) (ht16 : t < 2 ^ 16)
    (hcb : ∀ b ∈ c k, b < 256)
    (hcl : 12 + (c k).length + (if crc then 4 else 0) ≤ MAX_FRAME_PAYLOAD)
    (hbuf : s.buffer = (msgFrame id t k (c k) crc).serialize ++ rest)
    (hmsg : s.messages = if k = 0 then [] else [(id, ⟨t, slicesAt c t k, k⟩)]) :
    ∃ σ, tryDecode s = tryDecode
      { buffer := rest, messages := [],
        completed_messages := s.completed_messages ++
          [⟨id, ((List.range t).map c).flatten⟩],
        stream_events := s.stream_events, stats := σ,
        oob_slice_write := s.oob_slice_write } := by
  have hstep := decodeFrameStep_msgFrame (bumpBufSize s) id t k (c k) rest crc
    (by rw [bumpBufSize_buffer_eq, hbuf]) hid ht16 hk hcb hcl
  have heq := tryDecode_complete_frame s (msgFrame id t k (c k) crc) rest hbuf
    (msgFrame_wf _ _ _ _ _ hcb hcl)
  rw [hstep] at heq
  dsimp only at heq
  have hstore := storeSlice_slicesAt (bumpFramesReceived (bumpBufSize s)) id t k c hk hmsg
  rw [hstore, if_pos hkt] at heq
  dsimp only [bumpFramesReceived, bumpBufSize] at heq
  exact ⟨_, heq⟩

/-- As `tryDecode_slice_step_last`, for a slice that does not complete the
message. -/
theorem tryDecode_slice_step_mid (s : DecoderState) (id t k : Nat) (c : Nat → List Nat)
    (crc : Bool) (rest : List Nat)
    (hk : k < t) (hkt : ¬ k + 1 = t) (hid : id < 2 ^ 64) (ht16 : t < 2 ^ 16)
    (hcb : ∀ b ∈ c k, b < 256)
    (hcl : 12 + (c k).length + (if crc then 4 else 0) ≤ MAX_FRAME_PAYLOAD)
    (hbuf : s.buffer = (msgFrame id t k (c k) crc).serialize ++ rest)
    (hmsg : s.messages = if k = 0 then [] else [(id, ⟨t, slicesAt c t k, k⟩)]) :
    ∃ σ, tryDecode s = tryDecode
      { buffer := rest,
        messages := [(id, ⟨t, slicesAt c t (k + 1), k + 1⟩)],
        completed_messages := s.completed_messages,
        stream_events := s.stream_events, stats := σ,
        oob_slice_write := s.oob_slice_write } := by
  have hstep := decodeFrameStep_msgFrame (bumpBufSize s) id t k (c k) rest crc
    (by rw [bumpBufSize_buffer_eq, hbuf]) hid ht16 hk hcb hcl
  have heq := tryDecode_complete_frame s (msgFrame id t k (c k) crc) rest hbuf
    (msgFrame_wf _ _ _ _ _ hcb hcl)
  rw [hstep] at heq
  dsimp only at heq
  have hstore := storeSlice_slicesAt (bumpFramesReceived (bumpBufSize s)) id t k c hk hmsg
  rw [hstore, if_neg hkt] at heq
  dsimp only [bumpFramesReceived, bumpBufSize] at heq
  exact ⟨_, heq⟩

/-- Draining a buffer holding the in-order slice frames `k … t-1` of one
message whose earlier slices are already stored: every remaining slice is
stored and the completed message is delivered. -/
theorem tryDecode_drain (n : Nat) : ∀ (s : DecoderState) (id t k : Nat)
    (c : Nat → List Nat) (crc : Bool),
    k + n + 1 = t → id < 2 ^ 64 → t < 2 ^ 16 →
    (∀ i, i < t → (∀ b ∈ c i, b < 256) ∧
      12 + (c i).length + (if crc then 4 else 0) ≤ MAX_FRAME_PAYLOAD) →
    s.buffer = ((List.range' k (n + 1)).map
      (fun i => (msgFrame id t i (c i) crc).serialize)).flatten →
    s.messages = (if k = 0 then [] else [(id, ⟨t, slicesAt c t k, k⟩)]) →
    ∃ stats2, tryDecode s =
      ({ buffer := [], messages := [],
         completed_messages := s.completed_messages ++
           [⟨id, ((List.range t).map c).flatten⟩],
         stream_events := s.stream_events, stats := stats2,
         oob_slice_write := s.oob_slice_write }, none) := by
  induction n with
  | zero =>
    intro s id t k c crc hkt hid ht16 hc hbuf hmsg
    have hk : k < t := by omega
    have hbuf1 : s.buffer = (msgFrame id t k (c k) crc).serialize ++ [] := by
      rw [hbuf]
      simp
    obtain ⟨σ, heq⟩ := tryDecode_slice_step_last s id t k c crc [] hk (by omega) hid ht16
      (hc k hk).1 (hc k hk).2 hbuf1 hmsg
    refine ⟨{ σ with buffer_size := 0 }, ?_⟩
    rw [heq, tryDecode_short _ (by simp)]
    rfl
  | succ n ih =>
    intro s id t k c crc hkt hid ht16 hc hbuf hmsg
    have hk : k < t := by omega
    have hbuf1 : s.buffer = (msgFrame id t k (c k) crc).serialize ++
        ((List.range' (k + 1) (n + 1)).map
          (fun i => (msgFrame id t i (c i) crc).serialize)).flatten := by
      rw [hbuf, List.range'_succ, List.map_cons, List.flatten_cons]
    obtain ⟨σ, heq⟩ := tryDecode_slice_step_mid s id t k c crc _ hk (by omega) hid ht16
      (hc k hk).1 (hc k hk).2 hbuf1 hmsg
    obtain ⟨stats2, heq2⟩ := ih
      { buffer := ((List.range' (k + 1) (n + 1)).map
          (fun i => (msgFrame id t i (c i) crc).serialize)).flatten,
        messages := [(id, ⟨t, slicesAt c t (k + 1), k + 1⟩)],
        completed_messages := s.completed_messages,
        stream_events := s.stream_events, stats := σ,
        oob_slice_write := s.oob_slice_write }
      id t (k + 1) c crc (by omega) hid ht16 hc rfl
      (by rw [if_neg (show ¬ k + 1 = 0 from by omega)])
    exact ⟨stats2, by rw [heq, heq2]⟩

/-- Feeding the serialized in-order slice frames of one message to a decoder
whose reassembly table is empty: the loop stores every slice and delivers
exactly that message. -/
theorem tryDecode_message_frames (s : DecoderState) (id t : Nat) (c : Nat → List Nat)
    (crc : Bool) (ht : 1 ≤ t) (hid : id < 2 ^ 64) (ht16 : t < 2 ^ 16)
    (hc : ∀ i, i < t → (∀ b ∈ c i, b < 256) ∧
      12 + (c i).length + (if crc then 4 else 0) ≤ MAX_FRAME_PAYLOAD)
    (hbuf : s.buffer = ((List.range t).map
      (fun i => (msgFrame id t i (c i) crc).serialize)).flatten)
    (hmsg : s.messages = []) :
    ∃ stats2, tryDecode s =
      ({ buffer := [], messages := [],
         completed_messages := s.completed_messages ++
           [⟨id, ((List.range t).map c).flatten⟩],
         stream_events := s.stream_events, stats := stats2,
         oob_slice_write := s.oob_slice_write }, none) := by
  obtain ⟨n, rfl⟩ : ∃ n, t = n + 1 := ⟨t - 1, by omega⟩
  exact tryDecode_drain n s id (n + 1) 0 c crc (by omega) hid ht16 hc
    (by rw [hbuf, List.range_eq_range']) (by rw [if_pos rfl]; exact hmsg)

/-! ### The encoder's slice decomposition -/
theorem slicePayloadSize_pos (crc : Bool) : 0 < slicePayloadSize crc := by
  cases crc <;> decide

theorem encodeTotal_lt (length : Nat) (crc : Bool) : encodeTotal length crc < 65536 :=
  Nat.mod_lt _ (by norm_num)

/-- The encoding loop succeeds iff `MakeFrame` succeeds on every slice. -/
theorem encodeSlices_ok (f : Nat → Except String Frame) (g : Nat → Frame)
    (l : List Nat) (h : ∀ i ∈ l, f i = Except.ok (g i)) :
    encodeSlices f l = Except.ok (l.map g) := by
  induction l with
  | nil => rfl
  | cons a l ih =>
    have ha := h a (List.mem_cons_self a l)
    have hl := ih (fun i hi => h i (List.mem_cons_of_mem a hi))
    simp only [encodeSlices, ha, hl, List.map_cons]

theorem sliceChunk_length_le (data : List Nat) (crc : Bool) (i : Nat) :
    (sliceChunk data crc i).length ≤ slicePayloadSize crc := by
  unfold sliceChunk
  simp only [List.length_take, List.length_drop]
  omega

theorem sliceChunk_fits (data : List Nat) (crc : Bool) (i : Nat) :
    12 + (sliceChunk data crc i).length + (if crc then 4 else 0) ≤ MAX_FRAME_PAYLOAD := by
  have h := sliceChunk_length_le data crc i
  have h2 : slicePayloadSize crc + 12 + (if crc then 4 else 0) ≤ MAX_FRAME_PAYLOAD := by
    cases crc <;> decide
  omega

theorem sliceChunk_lt (data : List Nat) (crc : Bool) (i : Nat)
    (h : ∀ b ∈ data, b < 256) : ∀ b ∈ sliceChunk data crc i, b < 256 := by
  intro b hb
  unfold sliceChunk at hb
  exact h b (List.mem_of_mem_drop (List.mem_of_mem_take hb))

/-- `Encoder::EncodeMessage` on a non-zero (truncated) slice count: every
slice frame is built by `MakeFrame` and the per-slice size bound always
holds, so the whole call succeeds with one `Message` frame per slice, in
order, all carrying `total = encodeTotal`. -/
theorem EncodeMessage_ok (message_id : Nat) (data : List Nat) (crc : Bool)
    (h : encodeTotal data.length crc ≠ 0) :
    EncodeMessage message_id data crc =
      Except.ok ((List.range (encodeTotal data.length crc)).map
        (fun i => msgFrame message_id (encodeTotal data.length crc) i
          (sliceChunk data crc i) crc)) := by
  unfold EncodeMessage
  rw [if_neg (by
    push_neg
    refine ⟨h, ?_⟩
    have hlt := encodeTotal_lt data.length crc
    unfold MAX_MESSAGE_SLICES
    omega)]
  exact encodeSlices_ok _ _ _ (fun i _ => MakeFrame_msg _ _ _ _ _ (by
    have h1 := sliceChunk_fits data crc i
    omega))

/-- `Encoder::EncodeMessage` throws when the truncated slice count is zero. -/
theorem EncodeMessage_err (message_id : Nat) (data : List Nat) (crc : Bool)
    (h : encodeTotal data.length crc = 0) :
    EncodeMessage message_id data crc = Except.error "message too large" := by
  unfold EncodeMessage
  rw [if_pos (Or.inl h)]

theorem sliceChunk_eq (data : List Nat) (crc : Bool) (i : Nat) :
    sliceChunk data crc i =
      (data.drop (i * slicePayloadSize crc)).take (slicePayloadSize crc) := by
  unfold sliceChunk
  rw [List.take_eq_take]
  simp only [List.length_drop]
  omega

/-- Concatenating the first `t` slice chunks recovers the first
`t * slice_payload` bytes of the input. -/
theorem flatten_sliceChunks (data : List Nat) (crc : Bool) (t : Nat) :
    ((List.range t).map (sliceChunk data crc)).flatten =
      data.take (t * slicePayloadSize crc) := by
  induction t with
  | zero => simp
  | succ t ih =>
    rw [List.range_succ, List.map_append, List.flatten_append, ih]
    simp only [List.map_cons, List.map_nil, List.flatten_cons, List.flatten_nil,
      List.append_nil]
    rw [sliceChunk_eq, ← List.take_add, Nat.succ_mul]

/-- In the truncation-free regime `1 ≤ |data| ≤ 65535 × slice_payload` the
slice count is the exact ceiling: it is non-zero and its slices cover the
whole input. -/
theorem encodeTotal_spec (L : Nat) (crc : Bool) (h1 : 1 ≤ L)
    (h2 : L ≤ 65535 * slicePayloadSize crc) :
    encodeTotal L crc ≠ 0 ∧ L ≤ encodeTotal L crc * slicePayloadSize crc := by
  cases crc with
  | false =>
    rw [show slicePayloadSize false = 262132 from rfl] at h2 ⊢
    rw [show encodeTotal L false = (L + 262132 - 1) / 262132 % 65536 from rfl]
    omega
  | true =>
    rw [show slicePayloadSize true = 262128 from rfl] at h2 ⊢
    rw [show encodeTotal L true = (L + 262128 - 1) / 262128 % 65536 from rfl]
    omega

/-- `Decoder::Feed` of the serialized in-order slice frames of one message,
on a decoder with empty rolling buffer and empty reassembly table. -/
theorem Feed_message_frames (s : DecoderState) (id t : Nat) (c : Nat → List Nat)
    (crc : Bool) (ht : 1 ≤ t) (hid : id < 2 ^ 64) (ht16 : t < 2 ^ 16)
    (hc : ∀ i, i < t → (∀ b ∈ c i, b < 256) ∧
      12 + (c i).length + (if crc then 4 else 0) ≤ MAX_FRAME_PAYLOAD)
    (hbuf0 : s.buffer = []) (hmsg : s.messages = []) :
    ∃ stats2, Feed s (serializeAll ((List.range t).map
        (fun i => msgFrame id t i (c i) crc))) =
      ({ buffer := [], messages := [],
         completed_messages := s.completed_messages ++
           [⟨id, ((List.range t).map c).flatten⟩],
         stream_events := s.stream_events, stats := stats2,
         oob_slice_write := s.oob_slice_write }, none) := by
  unfold Feed
  exact tryDecode_message_frames _ id t c crc ht hid ht16 hc
    (by
      show s.buffer ++ _ = _
      rw [hbuf0]
      simp only [serializeAll, List.map_map, List.nil_append]
      rfl)
    hmsg

/-- C1 (amended): codec round trip.  For any message id below `2^64`, any
byte payload `B` with `1 ≤ |B| ≤ 65535 × slice_payload` — where
`slice_payload = MAX_FRAME_PAYLOAD − 12 − (4 if CRC else 0)`, not the
claimed `MAX_FRAME_PAYLOAD − 8` — and either CRC setting:
`Encoder::EncodeMessage` succeeds, and concatenating the serialized frames
and feeding them to a fresh `Decoder` completes exactly one message,
`MessageComplete{id, B}`, with no error, no leftover bytes, no pending
entries and no stream events; draining via `GetMessage` returns it and then
nothing. -/
theorem C1_roundtrip (id : Nat) (B : List Nat) (crc : Bool)
    (hid : id < 2 ^ 64) (hB : ∀ b ∈ B, b < 256) (h1 : 1 ≤ B.length)
    (h2 : B.length ≤ 65535 * slicePayloadSize crc) :
    ∃ frames stats2,
      EncodeMessage id B crc = Except.ok frames ∧
      Feed freshDecoder (serializeAll frames) =
        ({ buffer := [], messages := [], completed_messages := [⟨id, B⟩],
           stream_events := [], stats := stats2, oob_slice_write := false }, none) ∧
      (GetMessage (Feed freshDecoder (serializeAll frames)).1).2 = some ⟨id, B⟩ ∧
      (GetMessage (GetMessage (Feed freshDecoder (serializeAll frames)).1).1).2 =
        none := by
  obtain ⟨hne, hcover⟩ := encodeTotal_spec B.length crc h1 h2
  have henc := EncodeMessage_ok id B crc hne
  have h16 := encodeTotal_lt B.length crc
  obtain ⟨stats2, heq⟩ := Feed_message_frames freshDecoder id
    (encodeTotal B.length crc) (sliceChunk B crc) crc (by omega) hid
    (by have hp : (2 : Nat) ^ 16 = 65536 := by norm_num
        omega)
    (fun i _ => ⟨sliceChunk_lt B crc i hB, sliceChunk_fits B crc i⟩)
    rfl rfl
  have hflat : ((List.range (encodeTotal B.length crc)).map
      (sliceChunk B crc)).flatten = B := by
    rw [flatten_sliceChunks]
    exact List.take_all_of_le hcover
  rw [hflat] at heq
  refine ⟨_, stats2, henc, heq, ?_, ?_⟩
  · rw [heq]
    rfl
  · rw [heq]
    rfl

/-- C1 witness: the round trip at id `7`, payload `[42]`, CRC off. -/
theorem C1_roundtrip_witness :
    ∃ frames stats2,
      EncodeMessage 7 [42] false = Except.ok frames ∧
      Feed freshDecoder (serializeAll frames) =
        ({ buffer := [], messages := [], completed_messages := [⟨7, [42]⟩],
           stream_events := [], stats := stats2, oob_slice_write := false }, none) ∧
      (GetMessage (Feed freshDecoder (serializeAll frames)).1).2 = some ⟨7, [42]⟩ ∧
      (GetMessage (GetMessage (Feed freshDecoder (serializeAll frames)).1).1).2 =
        none :=
  C1_roundtrip 7 [42] false (by decide) (by decide) (by decide) (by decide)

/-- C1 counterexample: at the claim's own bound
`|B| = 65535 × (MAX_FRAME_PAYLOAD − 8)` (CRC off) the slice count `65537`
is truncated to `1` by the `static_cast<uint16_t>`, the encoder silently
emits a single slice holding only the first `262132` bytes, and the decoder
completes a message whose data is not `B` — the round trip loses data for a
payload the claim says it must preserve. -/
theorem C1_counterexample :
    (List.replicate (65535 * (MAX_FRAME_PAYLOAD - 8)) (0 : Nat)).length ≤
      65535 * (MAX_FRAME_PAYLOAD - 8) ∧
    ∃ frames stats2,
      EncodeMessage 7 (List.replicate (65535 * (MAX_FRAME_PAYLOAD - 8)) 0) false =
        Except.ok frames ∧
      Feed freshDecoder (serializeAll frames) =
        ({ buffer := [], messages := [],
           completed_messages := [⟨7, List.replicate 262132 0⟩],
           stream_events := [], stats := stats2, oob_slice_write := false }, none) ∧
      List.replicate 262132 (0 : Nat) ≠
        List.replicate (65535 * (MAX_FRAME_PAYLOAD - 8)) 0 := by
  have hlen : (List.replicate (65535 * (MAX_FRAME_PAYLOAD - 8)) (0 : Nat)).length =
      65535 * (MAX_FRAME_PAYLOAD - 8) := by simp
  have htot : encodeTotal
      (List.replicate (65535 * (MAX_FRAME_PAYLOAD - 8)) (0 : Nat)).length false = 1 := by
    rw [hlen]
    decide
  have hB : ∀ b ∈ List.replicate (65535 * (MAX_FRAME_PAYLOAD - 8)) (0 : Nat),
      b < 256 := by
    intro b hb
    rw [List.eq_of_mem_replicate hb]
    norm_num
  have henc := EncodeMessage_ok 7 (List.replicate (65535 * (MAX_FRAME_PAYLOAD - 8)) 0)
    false (by rw [htot]; decide)
  rw [htot] at henc
  obtain ⟨stats2, heq⟩ := Feed_message_frames freshDecoder 7 1
    (sliceChunk (List.replicate (65535 * (MAX_FRAME_PAYLOAD - 8)) 0) false) false
    (by decide) (by decide) (by decide)
    (fun i _ => ⟨sliceChunk_lt _ _ _ hB, sliceChunk_fits _ _ _⟩)
    rfl rfl
  have hchunk : sliceChunk (List.replicate (65535 * (MAX_FRAME_PAYLOAD - 8)) 0) false 0 =
      List.replicate 262132 0 := by
    unfold sliceChunk
    simp only [Nat.zero_mul, List.drop_zero, List.length_replicate, Nat.sub_zero,
      List.take_replicate]
    norm_num [MAX_FRAME_PAYLOAD, slicePayloadSize, sizeofMessageHeader]
  have hflat : ((List.range 1).map
      (sliceChunk (List.replicate (65535 * (MAX_FRAME_PAYLOAD - 8)) 0) false)).flatten =
      List.replicate 262132 0 := by
    rw [show List.range 1 = [0] from by decide, List.map_cons, List.map_nil,
      List.flatten_cons, List.flatten_nil, List.append_nil, hchunk]
  rw [hflat] at heq
  refine ⟨by simp, _, stats2, henc, heq, ?_⟩
  intro h
  have hl := congrArg List.length h
  simp only [List.length_replicate] at hl
  norm_num [MAX_FRAME_PAYLOAD] at hl

/-- C3 (amended): `Encoder::EncodeMessage` raises `ProtocolError` exactly
when the `uint16_t`-truncated slice count `encodeTotal` is zero (the source's
`total > MAX_MESSAGE_SLICES` guard is dead code because `total` was already
truncated below `65536`); otherwise it emits exactly `encodeTotal` Message
frames, in order, the `i`-th carrying sequence number `i` and all carrying
the same `total_slices = encodeTotal`. -/
theorem C3_encode_error_characterisation (message_id : Nat) (data : List Nat)
    (crc : Bool) :
    (encodeTotal data.length crc = 0 →
      EncodeMessage message_id data crc = Except.error "message too large") ∧
    (encodeTotal data.length crc ≠ 0 →
      EncodeMessage message_id data crc =
        Except.ok ((List.range (encodeTotal data.length crc)).map
          (fun i => msgFrame message_id (encodeTotal data.length crc) i
            (sliceChunk data crc i) crc))) ∧
    encodeTotal data.length crc < 65536 :=
  ⟨EncodeMessage_err message_id data crc,
   EncodeMessage_ok message_id data crc,
   encodeTotal_lt data.length crc⟩

/-- C3 witness: a one-byte payload without CRC encodes to the single
expected slice frame. -/
theorem C3_encode_error_characterisation_witness :
    EncodeMessage 1 [5] false =
      Except.ok ((List.range (encodeTotal ([5] : List Nat).length false)).map
        (fun i => msgFrame 1 (encodeTotal ([5] : List Nat).length false) i
          (sliceChunk [5] false i) false)) :=
  (C3_encode_error_characterisation 1 [5] false).2.1 (by decide)

/-- C3 counterexample: a payload needing `65537 > 65535` slices, for which
the claim demands a `ProtocolError`, is instead encoded successfully (as a
single truncated frame) because the `uint16_t` cast wraps the count to `1`
before the guard runs. -/
theorem C3_counterexample :
    (65537 * slicePayloadSize false + slicePayloadSize false - 1) /
        slicePayloadSize false > 65535 ∧
    ∃ frames,
      EncodeMessage 1 (List.replicate (65537 * slicePayloadSize false) 0) false =
        Except.ok frames := by
  refine ⟨by decide, _, EncodeMessage_ok 1 _ false ?_⟩
  rw [show (List.replicate (65537 * slicePayloadSize false) (0 : Nat)).length =
    65537 * slicePayloadSize false from by simp]
  decide

/-! ### CRC-32 detects any single-byte corruption -/
theorem xor_left_cancel_nat (a b c : Nat) (h : a ^^^ b = a ^^^ c) : b = c := by
  have h1 : a ^^^ (a ^^^ b) = b := by rw [← Nat.xor_assoc, Nat.xor_self, Nat.zero_xor]
  have h2 : a ^^^ (a ^^^ c) = c := by rw [← Nat.xor_assoc, Nat.xor_self, Nat.zero_xor]
  rw [← h1, ← h2, h]

theorem xor_right_cancel_nat (a b c : Nat) (h : b ^^^ a = c ^^^ a) : b = c := by
  apply xor_left_cancel_nat a
  rw [Nat.xor_comm a b, Nat.xor_comm a c]
  exact h

set_option maxRecDepth 4096 in
theorem CRC_TABLE_length : CRC_TABLE.length = 256 := by decide

set_option maxRecDepth 100000 in

/-- The CRC-32 lookup table has no repeated entry. -/
theorem CRC_TABLE_nodup : CRC_TABLE.Nodup := by decide

set_option maxRecDepth 100000 in

/-- Even the top bytes of the table entries are pairwise distinct — the
property that makes one `crc = (crc >> 8) ^ table[i]` step injective. -/
theorem CRC_TABLE_topbytes_nodup : (CRC_TABLE.map (fun x => x >>> 24)).Nodup := by
  decide

theorem CRC_TABLE_getD_inj (i1 i2 : Nat) (h1 : i1 < 256) (h2 : i2 < 256)
    (he : CRC_TABLE.getD i1 0 = CRC_TABLE.getD i2 0) : i1 = i2 := by
  have hl := CRC_TABLE_length
  rw [List.getD_eq_getElem CRC_TABLE 0 (show i1 < CRC_TABLE.length from by omega),
    List.getD_eq_getElem CRC_TABLE 0 (show i2 < CRC_TABLE.length from by omega)] at he
  exact (CRC_TABLE_nodup.getElem_inj_iff).mp he

theorem getD_map_topbyte (i : Nat) (hi : i < 256) :
    (CRC_TABLE.map (fun x => x >>> 24)).getD i 0 = CRC_TABLE.getD i 0 >>> 24 := by
  have hl := CRC_TABLE_length
  have h2 : i < (CRC_TABLE.map (fun x => x >>> 24)).length := by
    rw [List.length_map]
    omega
  rw [List.getD_eq_getElem _ _ h2,
    List.getD_eq_getElem _ _ (show i < CRC_TABLE.length from by omega),
    List.getElem_map]

theorem CRC_TABLE_top_inj (i1 i2 : Nat) (h1 : i1 < 256) (h2 : i2 < 256)
    (he : CRC_TABLE.getD i1 0 >>> 24 = CRC_TABLE.getD i2 0 >>> 24) : i1 = i2 := by
  have hm : (CRC_TABLE.map (fun x => x >>> 24)).getD i1 0 =
      (CRC_TABLE.map (fun x => x >>> 24)).getD i2 0 := by
    rw [getD_map_topbyte i1 h1, getD_map_topbyte i2 h2]
    exact he
  have hlm : (CRC_TABLE.map (fun x => x >>> 24)).length = 256 := by
    rw [List.length_map, CRC_TABLE_length]
  rw [List.getD_eq_getElem (CRC_TABLE.map (fun x => x >>> 24)) 0
      (show i1 < (CRC_TABLE.map (fun x => x >>> 24)).length from by omega),
    List.getD_eq_getElem (CRC_TABLE.map (fun x => x >>> 24)) 0
      (show i2 < (CRC_TABLE.map (fun x => x >>> 24)).length from by omega)] at hm
  exact (CRC_TABLE_topbytes_nodup.getElem_inj_iff).mp hm

/-- Xoring a value below `2^24` cannot change bits 24 and above. -/
theorem xor_high_24 (t x : Nat) (hx : x < 2 ^ 24) : (t ^^^ x) >>> 24 = t >>> 24 := by
  apply Nat.eq_of_testBit_eq
  intro j
  simp only [Nat.testBit_shiftRight, Nat.testBit_xor]
  rw [Nat.testBit_lt_two_pow (Nat.lt_of_lt_of_le hx
    (Nat.pow_le_pow_right (by norm_num) (by omega)))]
  simp

theorem shiftRight8_lt (c : Nat) (hc : c < 2 ^ 32) : c >>> 8 < 2 ^ 24 := by
  rw [Nat.shiftRight_eq_div_pow, show (2 : Nat) ^ 8 = 256 from by norm_num]
  have h1 : (2 : Nat) ^ 32 = 4294967296 := by norm_num
  have h2 : (2 : Nat) ^ 24 = 16777216 := by norm_num
  omega

/-- One CRC step distinguishes bytes whose low 8 bits differ. -/
theorem crcStep_arg_ne (c b1 b2 : Nat) (hne : b1 &&& 255 ≠ b2 &&& 255) :
    crcStep c b1 ≠ crcStep c b2 := by
  intro he
  unfold crcStep at he
  have hTe : CRC_TABLE.getD ((c ^^^ b1) &&& 0xFF) 0 =
      CRC_TABLE.getD ((c ^^^ b2) &&& 0xFF) 0 := xor_right_cancel_nat _ _ _ he
  have hb1 : (c ^^^ b1) &&& 0xFF < 256 := by
    have h := Nat.and_le_right (n := c ^^^ b1) (m := 0xFF)
    omega
  have hb2 : (c ^^^ b2) &&& 0xFF < 256 := by
    have h := Nat.and_le_right (n := c ^^^ b2) (m := 0xFF)
    omega
  have hii := CRC_TABLE_getD_inj _ _ hb1 hb2 hTe
  rw [Nat.and_xor_distrib_right, Nat.and_xor_distrib_right] at hii
  exact hne (xor_left_cancel_nat _ _ _ hii)

/-- One CRC step is injective in the running CRC state (for 32-bit states):
a corrupted state can never resynchronise. -/
theorem crcStep_state_inj (b c1 c2 : Nat) (h1 : c1 < 2 ^ 32) (h2 : c2 < 2 ^ 32)
    (hne : c1 ≠ c2) : crcStep c1 b ≠ crcStep c2 b := by
  intro he
  unfold crcStep at he
  by_cases hi : (c1 ^^^ b) &&& 0xFF = (c2 ^^^ b) &&& 0xFF
  · rw [hi] at he
    have hsh : c1 >>> 8 = c2 >>> 8 := xor_left_cancel_nat _ _ _ he
    have hlow : c1 &&& 0xFF = c2 &&& 0xFF := by
      rw [Nat.and_xor_distrib_right, Nat.and_xor_distrib_right] at hi
      exact xor_right_cancel_nat _ _ _ hi
    apply hne
    rw [show (0xFF : Nat) = 2 ^ 8 - 1 from by norm_num, Nat.and_pow_two_sub_one_eq_mod,
      Nat.and_pow_two_sub_one_eq_mod] at hlow
    rw [Nat.shiftRight_eq_div_pow] at hsh
    have d1 := Nat.div_add_mod c1 (2 ^ 8)
    have d2 := Nat.div_add_mod c2 (2 ^ 8)
    omega
  · have ha1 : (c1 ^^^ b) &&& 0xFF < 256 := by
      have h := Nat.and_le_right (n := c1 ^^^ b) (m := 0xFF)
      omega
    have ha2 : (c2 ^^^ b) &&& 0xFF < 256 := by
      have h := Nat.and_le_right (n := c2 ^^^ b) (m := 0xFF)
      omega
    apply hi
    apply CRC_TABLE_top_inj _ _ ha1 ha2
    have k1 := xor_high_24 (CRC_TABLE.getD ((c1 ^^^ b) &&& 0xFF) 0) (c1 >>> 8)
      (shiftRight8_lt c1 h1)
    have k2 := xor_high_24 (CRC_TABLE.getD ((c2 ^^^ b) &&& 0xFF) 0) (c2 >>> 8)
      (shiftRight8_lt c2 h2)
    rw [← k1, ← k2, he]

/-- State injectivity propagates through the whole CRC fold. -/
theorem crcFold_inj (l : List Nat) : ∀ (c1 c2 : Nat), c1 < 2 ^ 32 → c2 < 2 ^ 32 →
    c1 ≠ c2 → l.foldl crcStep c1 ≠ l.foldl crcStep c2 := by
  induction l with
  | nil =>
    intro c1 c2 _ _ hne
    exact hne
  | cons a l ih =>
    intro c1 c2 h1 h2 hne
    simp only [List.foldl_cons]
    exact ih _ _ (crcStep_lt _ _ h1) (crcStep_lt _ _ h2) (crcStep_state_inj _ _ _ h1 h2 hne)

/-- Replacing one byte of the input by a byte with a different low-8-bits
value always changes the CRC-32. -/
theorem CalculateCRC32_ne_of_set (data : List Nat) (i : Nat) (hi : i < data.length)
    (b2 : Nat) (hne : b2 &&& 255 ≠ data.getD i 0 &&& 255) :
    CalculateCRC32 (data.set i b2) ≠ CalculateCRC32 data := by
  intro he
  unfold CalculateCRC32 at he
  have he2 : (data.set i b2).foldl crcStep 0xFFFFFFFF =
      data.foldl crcStep 0xFFFFFFFF := xor_right_cancel_nat _ _ _ he
  have hset : data.set i b2 = data.take i ++ b2 :: data.drop (i + 1) := by
    rw [List.set_eq_take_append_cons_drop, if_pos hi]
  have hdata : data = data.take i ++ data.getD i 0 :: data.drop (i + 1) := by
    conv_lhs => rw [← List.take_append_drop i data]
    rw [← List.getElem_cons_drop data i hi, List.getD_eq_getElem _ _ hi]
  rw [hset] at he2
  conv at he2 => rhs; rw [hdata]
  rw [List.foldl_append, List.foldl_append, List.foldl_cons, List.foldl_cons] at he2
  exact crcFold_inj _ _ _
    (crcStep_lt _ _ (crcFold_lt _ _ (by norm_num)))
    (crcStep_lt _ _ (crcFold_lt _ _ (by norm_num)))
    (crcStep_arg_ne _ _ _ hne) he2

/-- Digit extraction: byte `p` of a `k`-byte little-endian read. -/
theorem readLE_digit (p : Nat) : ∀ (l : List Nat) (k : Nat), p < k → k ≤ l.length →
    (∀ b ∈ l, b < 256) → readLE l 0 k / 256 ^ p % 256 = l.getD p 0 := by
  induction p with
  | zero =>
    intro l k hp hk hb
    obtain ⟨k2, rfl⟩ : ∃ k2, k = k2 + 1 := ⟨k - 1, by omega⟩
    cases l with
    | nil => simp at hk
    | cons x l2 =>
      rw [pow_zero, Nat.div_one]
      show (List.getD (x :: l2) 0 0 + 256 * readLE (x :: l2) (0 + 1) k2) % 256 = x
      rw [List.getD_cons_zero, Nat.add_mul_mod_self_left]
      exact Nat.mod_eq_of_lt (hb x (List.mem_cons_self x l2))
  | succ p ih =>
    intro l k hp hk hb
    obtain ⟨k2, rfl⟩ : ∃ k2, k = k2 + 1 := ⟨k - 1, by omega⟩
    cases l with
    | nil => simp at hk
    | cons x l2 =>
      have hx : x < 256 := hb x (List.mem_cons_self x l2)
      have hrw : readLE (x :: l2) 0 (k2 + 1) = x + 256 * readLE l2 0 k2 := by
        show List.getD (x :: l2) 0 0 + 256 * readLE (x :: l2) (0 + 1) k2 = _
        rw [List.getD_cons_zero, readLE_cons_succ]
      rw [hrw]
      have hdiv : (x + 256 * readLE l2 0 k2) / 256 ^ (p + 1) =
          readLE l2 0 k2 / 256 ^ p := by
        rw [show (256 : Nat) ^ (p + 1) = 256 * 256 ^ p from by ring,
          ← Nat.div_div_eq_div_mul]
        congr 1
        rw [Nat.add_mul_div_left _ _ (show (0 : Nat) < 256 from by norm_num),
          Nat.div_eq_of_lt hx, Nat.zero_add]
      rw [hdiv, List.getD_cons_succ]
      exact ih l2 k2 (by omega) (by simpa using hk)
        (fun b hbm => hb b (List.mem_cons_of_mem x hbm))

/-- Replacing one of the first `k` bytes by a different byte value changes a
`k`-byte little-endian read. -/
theorem readLE_ne_of_set (l : List Nat) (p k : Nat) (b2 : Nat)
    (hp : p < k) (hk : k ≤ l.length) (hb : ∀ b ∈ l, b < 256) (hb2 : b2 < 256)
    (hne : b2 ≠ l.getD p 0) :
    readLE (l.set p b2) 0 k ≠ readLE l 0 k := by
  intro he
  apply hne
  have hbset : ∀ b ∈ l.set p b2, b < 256 := by
    intro b hbm
    rcases List.mem_or_eq_of_mem_set hbm with h | h
    · exact hb b h
    · subst h
      exact hb2
  have h1 := readLE_digit p (l.set p b2) k hp (by rw [List.length_set]; exact hk) hbset
  have h2 := readLE_digit p l k hp hk hb
  have hover : (l.set p b2).getD p 0 = b2 := by
    rw [List.getD_eq_getElem _ _ (by rw [List.length_set]; omega), List.getElem_set_self]
  rw [he, hover] at h1
  rw [h1] at h2
  exact h2

theorem one_shiftLeft_lt_256 (j : Nat) (hj : j < 8) : 1 <<< j < 256 := by
  rw [Nat.shiftLeft_eq, Nat.one_mul]
  calc (2 : Nat) ^ j < 2 ^ 8 := Nat.pow_lt_pow_right (by norm_num) hj
    _ = 256 := by norm_num

theorem xor_flip_ne (b j : Nat) : b ^^^ (1 <<< j) ≠ b := by
  intro h
  have h0 : b ^^^ (1 <<< j) = b ^^^ 0 := by rw [Nat.xor_zero]; exact h
  have h1 := xor_left_cancel_nat _ _ _ h0
  rw [Nat.shiftLeft_eq, Nat.one_mul] at h1
  have h2 : 0 < (2 : Nat) ^ j := Nat.two_pow_pos j
  omega

theorem getD_lt_256 (l : List Nat) (i : Nat) (hb : ∀ b ∈ l, b < 256) :
    l.getD i 0 < 256 := by
  by_cases hil : i < l.length
  · rw [List.getD_eq_getElem _ _ hil]
    exact hb _ (List.getElem_mem hil)
  · rw [List.getD_eq_default _ _ (by omega)]
    norm_num

theorem flipBit_lt (l : List Nat) (i j : Nat) (hb : ∀ b ∈ l, b < 256) (hj : j < 8) :
    ∀ b ∈ flipBit l i j, b < 256 := by
  intro b hbm
  rcases List.mem_or_eq_of_mem_set hbm with h | h
  · exact hb b h
  · subst h
    have hg := getD_lt_256 l i hb
    have h1 := one_shiftLeft_lt_256 j hj
    have h256 : (256 : Nat) = 2 ^ 8 := by norm_num
    rw [h256] at hg h1 ⊢
    exact Nat.xor_lt_two_pow hg h1

theorem flipBit_length (l : List Nat) (i j : Nat) : (flipBit l i j).length = l.length :=
  List.length_set l i _

theorem xor_flip_lt (b j : Nat) (hb : b < 256) (hj : j < 8) : b ^^^ (1 <<< j) < 256 := by
  have h1 := one_shiftLeft_lt_256 j hj
  have h256 : (256 : Nat) = 2 ^ 8 := by norm_num
  rw [h256] at hb h1 ⊢
  exact Nat.xor_lt_two_pow hb h1

theorem xor_flip_lowbyte_ne (b j : Nat) (hb : b < 256) (hj : j < 8) :
    (b ^^^ (1 <<< j)) &&& 255 ≠ b &&& 255 := by
  have hb2 := xor_flip_lt b j hb hj
  rw [show (255 : Nat) = 2 ^ 8 - 1 from by norm_num, Nat.and_pow_two_sub_one_eq_mod,
    Nat.and_pow_two_sub_one_eq_mod,
    Nat.mod_eq_of_lt (show b ^^^ (1 <<< j) < 2 ^ 8 from by norm_num; omega),
    Nat.mod_eq_of_lt (show b < 2 ^ 8 from by norm_num; omega)]
  exact xor_flip_ne b j

/-- `decodeFrameStep` on a CRC-flagged frame whose stored CRC-32 trailer does
not match the CRC-32 of the payload prefix: the frame is counted, the CRC
error counter increments, the frame's bytes are dropped, and no error is
raised. -/
theorem decodeFrameStep_crc_mismatch (s : DecoderState) (f : Frame) (rest : List Nat)
    (hbuf : s.buffer = f.serialize ++ rest) (hwf : WFFrame f)
    (hflag : f.header.flags = FLAG_CRC32) (h4 : 4 ≤ f.payload.length)
    (hmis : readLE f.payload (f.payload.length - 4) 4 ≠
        CalculateCRC32 (f.payload.take (f.payload.length - 4))) :
    decodeFrameStep s =
      ({ bumpCrcError (bumpFramesReceived s) with buffer := rest }, none) := by
  obtain ⟨hm1, hm2, hv, ht, hfl, hpl, hmax, hbytes⟩ := hwf
  have hplen : readLE s.buffer 6 4 = f.payload.length := by
    rw [hbuf, serialize_payload_len, hpl, Nat.mod_eq_of_lt]
    calc f.payload.length ≤ MAX_FRAME_PAYLOAD := hmax
      _ < 2 ^ 32 := by norm_num [MAX_FRAME_PAYLOAD]
  have hflags : readLE s.buffer 4 2 = FLAG_CRC32 := by
    rw [hbuf, serialize_flags, hflag]
    decide
  have hdrop16 : s.buffer.drop 16 = f.payload ++ rest := by
    rw [hbuf, serialize_drop16]
  have hstored : readLE s.buffer (16 + (readLE s.buffer 6 4 - 4)) 4 =
      readLE f.payload (f.payload.length - 4) 4 := by
    rw [hplen, readLE_drop,
      show s.buffer.drop (16 + (f.payload.length - 4)) =
        (s.buffer.drop 16).drop (f.payload.length - 4) from by rw [List.drop_drop],
      hdrop16, List.drop_append_of_le_length (by omega),
      readLE_append_left _ (by simp only [List.length_drop]; omega),
      ← readLE_drop]
  have hcomputed : (s.buffer.drop 16).take (readLE s.buffer 6 4 - 4) =
      f.payload.take (f.payload.length - 4) := by
    rw [hplen, hdrop16, List.take_append_of_le_length (by omega)]
  have herase : s.buffer.drop (16 + readLE s.buffer 6 4) = rest := by
    rw [hplen, hbuf]
    exact List.drop_left' (by rw [serialize_length])
  unfold decodeFrameStep
  rw [if_pos (show readLE s.buffer 4 2 &&& FLAG_CRC32 ≠ 0 ∧ 4 ≤ readLE s.buffer 6 4 from
    ⟨by rw [hflags]; decide, by rw [hplen]; omega⟩)]
  rw [if_neg (show ¬ readLE s.buffer (16 + (readLE s.buffer 6 4 - 4)) 4 =
      CalculateCRC32 ((s.buffer.drop 16).take (readLE s.buffer 6 4 - 4)) from by
    rw [hstored, hcomputed]
    exact hmis)]
  rw [herase]

/-- `TryDecode` on a buffer holding exactly one CRC-mismatching frame: the
frame is dropped and counted, the loop then stops on the empty buffer. -/
theorem tryDecode_crc_mismatch (s : DecoderState) (f : Frame)
    (hwf : WFFrame f) (hflag : f.header.flags = FLAG_CRC32)
    (h4 : 4 ≤ f.payload.length)
    (hmis : readLE f.payload (f.payload.length - 4) 4 ≠
        CalculateCRC32 (f.payload.take (f.payload.length - 4)))
    (hbuf : s.buffer = f.serialize ++ []) :
    tryDecode s =
      (bumpBufSize { bumpCrcError (bumpFramesReceived (bumpBufSize s)) with
        buffer := ([] : List Nat) }, none) := by
  have heq := tryDecode_complete_frame s f [] hbuf hwf
  have hstep := decodeFrameStep_crc_mismatch (bumpBufSize s) f []
    (by rw [bumpBufSize_buffer_eq, hbuf]) hwf hflag h4 hmis
  rw [hstep] at heq
  dsimp only at heq
  rw [heq]
  exact tryDecode_short _ (by simp)

/-- C2 (amended): CRC-32 integrity under single-bit corruption.  For any
frame type byte, any payload `data` with `|data| + 4 ≤ MAX_FRAME_PAYLOAD`
(the wire `payload_len` includes the 4 CRC trailer bytes — the bound the
original claim is missing), any byte position `i` of the wire payload
(including the CRC trailer itself) and any bit `j < 8`: the frame builds
with the CRC flag, and feeding the frame with that one bit flipped to a
fresh decoder delivers nothing (no completed message, no pending slice, no
stream event), raises nothing, and counts exactly one CRC error for exactly
one received frame. -/
theorem C2_crc_flip (ftype : Nat) (data : List Nat) (i j : Nat)
    (hft : ftype < 256) (hdata : ∀ b ∈ data, b < 256)
    (hlen : data.length + 4 ≤ MAX_FRAME_PAYLOAD) (hi : i < data.length + 4)
    (hj : j < 8) :
    ∃ f, MakeFrame ftype data true = Except.ok f ∧
      ∃ stats2,
        Feed freshDecoder (serializeHeader f.header ++ flipBit f.payload i j) =
          ({ buffer := [], messages := [], completed_messages := [],
             stream_events := [], stats := stats2, oob_slice_write := false }, none) ∧
        stats2.crc_errors = 1 ∧ stats2.frames_received = 1 ∧
        stats2.messages_completed = 0 := by
  have hV := CalculateCRC32_lt data
  have hcp : crcPayload data true = data ++ leBytes 4 (CalculateCRC32 data) := by
    unfold crcPayload
    rw [if_pos rfl]
  have hmk : MakeFrame ftype data true =
      Except.ok ⟨⟨MAGIC1, MAGIC2, VERSION, ftype, FLAG_CRC32,
        (crcPayload data true).length, 0, 0⟩, crcPayload data true⟩ := by
    unfold MakeFrame
    rw [if_neg (by omega : ¬ data.length > MAX_FRAME_PAYLOAD)]
    rfl
  refine ⟨_, hmk, ?_⟩
  have hlen2 : (crcPayload data true).length = data.length + 4 := by
    rw [crcPayload_length]
    rfl
  have hcpb : ∀ b ∈ crcPayload data true, b < 256 := crcPayload_lt data true hdata
  have hwf2 : WFFrame ⟨⟨MAGIC1, MAGIC2, VERSION, ftype, FLAG_CRC32,
      (crcPayload data true).length, 0, 0⟩, flipBit (crcPayload data true) i j⟩ := by
    refine ⟨rfl, rfl, rfl, hft, ?_, ?_, ?_, ?_⟩
    · show FLAG_CRC32 < 65536
      decide
    · show (crcPayload data true).length = (flipBit (crcPayload data true) i j).length
      rw [flipBit_length]
    · show (flipBit (crcPayload data true) i j).length ≤ MAX_FRAME_PAYLOAD
      rw [flipBit_length, hlen2]
      omega
    · exact flipBit_lt _ _ _ hcpb hj
  have hmisK : readLE (flipBit (crcPayload data true) i j)
      ((flipBit (crcPayload data true) i j).length - 4) 4 ≠
      CalculateCRC32 ((flipBit (crcPayload data true) i j).take
        ((flipBit (crcPayload data true) i j).length - 4)) := by
    rw [flipBit_length, hlen2, show data.length + 4 - 4 = data.length from by omega]
    rw [flipBit, hcp]
    by_cases hcase : i < data.length
    · have hgetD : (data ++ leBytes 4 (CalculateCRC32 data)).getD i 0 = data.getD i 0 :=
        List.getD_append _ _ _ _ hcase
      rw [hgetD, List.set_append_left _ _ hcase]
      rw [show data.length =
        (data.set i (data.getD i 0 ^^^ (1 <<< j))).length from (List.length_set _ _ _).symm]
      rw [readLE_shift, List.take_left]
      rw [show leBytes 4 (CalculateCRC32 data) =
          leBytes 4 (CalculateCRC32 data) ++ [] from (List.append_nil _).symm,
        readLE_leBytes_of_lt _ _ _ hV]
      exact (CalculateCRC32_ne_of_set data i hcase _
        (xor_flip_lowbyte_ne _ j (getD_lt_256 data i hdata) hj)).symm
    · have hgetD : (data ++ leBytes 4 (CalculateCRC32 data)).getD i 0 =
          (leBytes 4 (CalculateCRC32 data)).getD (i - data.length) 0 :=
        List.getD_append_right _ _ _ _ (by omega)
      rw [hgetD, List.set_append_right _ _ (by omega)]
      rw [readLE_shift, List.take_left]
      have hTbytes := leBytes_lt 4 (CalculateCRC32 data)
      have hreadV : readLE (leBytes 4 (CalculateCRC32 data)) 0 4 = CalculateCRC32 data := by
        rw [show leBytes 4 (CalculateCRC32 data) =
            leBytes 4 (CalculateCRC32 data) ++ [] from (List.append_nil _).symm,
          readLE_leBytes_of_lt _ _ _ hV]
      have hne3 := readLE_ne_of_set (leBytes 4 (CalculateCRC32 data)) (i - data.length) 4
        _ (by omega) (by rw [leBytes_length]) hTbytes
        (xor_flip_lt _ j (getD_lt_256 _ _ hTbytes) hj) (xor_flip_ne _ j)
      rw [hreadV] at hne3
      exact hne3
  have happ := tryDecode_crc_mismatch
    { buffer := freshDecoder.buffer ++ (serializeHeader ⟨MAGIC1, MAGIC2, VERSION, ftype,
        FLAG_CRC32, (crcPayload data true).length, 0, 0⟩ ++
        flipBit (crcPayload data true) i j),
      messages := freshDecoder.messages,
      completed_messages := freshDecoder.completed_messages,
      stream_events := freshDecoder.stream_events,
      stats := { freshDecoder.stats with bytes_received :=
        freshDecoder.stats.bytes_received + (serializeHeader ⟨MAGIC1, MAGIC2, VERSION,
          ftype, FLAG_CRC32, (crcPayload data true).length, 0, 0⟩ ++
          flipBit (crcPayload data true) i j).length },
      oob_slice_write := freshDecoder.oob_slice_write }
    ⟨⟨MAGIC1, MAGIC2, VERSION, ftype, FLAG_CRC32,
      (crcPayload data true).length, 0, 0⟩, flipBit (crcPayload data true) i j⟩
    hwf2 rfl
    (by show 4 ≤ (flipBit (crcPayload data true) i j).length
        rw [flipBit_length, hlen2]
        omega)
    hmisK
    (by show freshDecoder.buffer ++ _ = _
        rw [List.append_nil]
        rfl)
  exact ⟨_, happ, rfl, rfl, rfl⟩

/-- C2 witness: the round trip of the corruption check at frame type `1`,
payload `[1, 2, 3]`, with bit 0 of byte 0 flipped. -/
theorem C2_crc_flip_witness :
    ∃ f, MakeFrame 1 [1, 2, 3] true = Except.ok f ∧
      ∃ stats2,
        Feed freshDecoder (serializeHeader f.header ++ flipBit f.payload 0 0) =
          ({ buffer := [], messages := [], completed_messages := [],
             stream_events := [], stats := stats2, oob_slice_write := false }, none) ∧
        stats2.crc_errors = 1 ∧ stats2.frames_received = 1 ∧
        stats2.messages_completed = 0 :=
  C2_crc_flip 1 [1, 2, 3] 0 0 (by decide) (by decide) (by decide) (by decide) (by decide)

/-- `Decoder::Feed` unfolded: count the bytes, append, decode. -/
theorem Feed_eq (s : DecoderState) (data : List Nat) :
    Feed s data = tryDecode
      { s with
          buffer := s.buffer ++ data,
          stats := { s.stats with
            bytes_received := s.stats.bytes_received + data.length } } := rfl

/-- `TryDecode` on a buffer whose leading header announces a `payload_len`
over the 256 KiB cap: the decoder throws `payloadTooLarge` at once and
consumes nothing. -/
theorem tryDecode_too_large (s : DecoderState) (f : Frame) (rest : List Nat)
    (hbuf : s.buffer = f.serialize ++ rest)
    (hm1 : f.header.magic1 = MAGIC1) (hm2 : f.header.magic2 = MAGIC2)
    (hv : f.header.version = VERSION)
    (hpl : f.header.payload_len = f.payload.length)
    (hlarge : MAX_FRAME_PAYLOAD < f.payload.length)
    (hsmall : f.payload.length < 2 ^ 32) :
    tryDecode s = (bumpBufSize s, some DecodeError.payloadTooLarge) := by
  have hlen : s.buffer.length = 16 + f.payload.length + rest.length := by
    rw [hbuf]
    simp [serialize_length]
  have hplen : readLE s.buffer 6 4 = f.payload.length := by
    rw [hbuf, serialize_payload_len, hpl, Nat.mod_eq_of_lt hsmall]
  have h0 : s.buffer.getD 0 0 = MAGIC1 := by rw [hbuf, serialize_getD0, hm1]; decide
  have h1 : s.buffer.getD 1 0 = MAGIC2 := by rw [hbuf, serialize_getD1, hm2]; decide
  have h2 : s.buffer.getD 2 0 = VERSION := by rw [hbuf, serialize_getD2, hv]; decide
  rw [tryDecode, tryDecodeF]
  rw [if_neg (by omega : ¬ s.buffer.length < 16)]
  rw [if_neg (show ¬¬(s.buffer.getD 0 0 = MAGIC1 ∧ s.buffer.getD 1 0 = MAGIC2) from
    not_not_intro ⟨h0, h1⟩)]
  rw [if_neg (show ¬¬(s.buffer.getD 2 0 = VERSION) from not_not_intro h2)]
  rw [if_pos (show readLE s.buffer 6 4 > MAX_FRAME_PAYLOAD from by rw [hplen]; omega)]

/-- The rolling buffer right after `Feed` on an empty decoder holds exactly
the fed frame bytes. -/
theorem buffer_after_feed (s : DecoderState) (h : FrameHeader) (p : List Nat)
    (hbuf0 : s.buffer = []) (data : List Nat) (hdata : data = serializeHeader h ++ p) :
    ({ s with
        buffer := s.buffer ++ data,
        stats := { s.stats with
          bytes_received := s.stats.bytes_received + data.length } } :
      DecoderState).buffer = (⟨h, p⟩ : Frame).serialize ++ [] := by
  show s.buffer ++ data = _
  rw [hbuf0, hdata, List.nil_append, List.append_nil]
  rfl

/-- C2 counterexample: a CRC-flagged frame built from a payload of exactly
`MAX_FRAME_PAYLOAD` bytes — which `Encoder::MakeFrame` accepts, because its
size check runs before the 4 CRC bytes are appended — is never
dropped-and-counted as the claim requires: its wire `payload_len` is
`MAX_FRAME_PAYLOAD + 4`, so `Decoder::Feed` of the bit-flipped frame throws
`payloadTooLarge` and the CRC-error counter stays `0`. -/
theorem C2_counterexample :
    ∃ f, MakeFrame 1 (List.replicate MAX_FRAME_PAYLOAD 0) true = Except.ok f ∧
      (Feed freshDecoder (serializeHeader f.header ++ flipBit f.payload 0 0)).2 =
        some DecodeError.payloadTooLarge ∧
      (Feed freshDecoder
        (serializeHeader f.header ++ flipBit f.payload 0 0)).1.stats.crc_errors = 0 ∧
      (Feed freshDecoder
        (serializeHeader f.header ++ flipBit f.payload 0 0)).1.completed_messages =
        [] := by
  have hmk : MakeFrame 1 (List.replicate MAX_FRAME_PAYLOAD 0) true =
      Except.ok ⟨⟨MAGIC1, MAGIC2, VERSION, 1, FLAG_CRC32,
        (crcPayload (List.replicate MAX_FRAME_PAYLOAD 0) true).length, 0, 0⟩,
        crcPayload (List.replicate MAX_FRAME_PAYLOAD 0) true⟩ := by
    unfold MakeFrame
    rw [if_neg (by rw [List.length_replicate]; omega)]
    rfl
  have hfliplen : (flipBit (crcPayload (List.replicate MAX_FRAME_PAYLOAD 0) true) 0
      0).length = MAX_FRAME_PAYLOAD + 4 := by
    rw [flipBit_length, crcPayload_length, List.length_replicate]
    rfl
  have heval := tryDecode_too_large
    { freshDecoder with
        buffer := freshDecoder.buffer ++ (serializeHeader ⟨MAGIC1, MAGIC2, VERSION, 1,
          FLAG_CRC32, (crcPayload (List.replicate MAX_FRAME_PAYLOAD 0) true).length,
          0, 0⟩ ++ flipBit (crcPayload (List.replicate MAX_FRAME_PAYLOAD 0) true) 0 0),
        stats := { freshDecoder.stats with
          bytes_received := freshDecoder.stats.bytes_received +
            (serializeHeader ⟨MAGIC1, MAGIC2, VERSION, 1,
              FLAG_CRC32, (crcPayload (List.replicate MAX_FRAME_PAYLOAD 0) true).length,
              0, 0⟩ ++ flipBit (crcPayload (List.replicate MAX_FRAME_PAYLOAD 0) true)
              0 0).length } }
    ⟨⟨MAGIC1, MAGIC2, VERSION, 1, FLAG_CRC32,
      (crcPayload (List.replicate MAX_FRAME_PAYLOAD 0) true).length, 0, 0⟩,
      flipBit (crcPayload (List.replicate MAX_FRAME_PAYLOAD 0) true) 0 0⟩
    []
    (buffer_after_feed freshDecoder _ _ rfl _ rfl)
    rfl rfl rfl
    (by show (crcPayload (List.replicate MAX_FRAME_PAYLOAD 0) true).length =
          (flipBit (crcPayload (List.replicate MAX_FRAME_PAYLOAD 0) true) 0 0).length
        rw [flipBit_length])
    (by show MAX_FRAME_PAYLOAD <
          (flipBit (crcPayload (List.replicate MAX_FRAME_PAYLOAD 0) true) 0 0).length
        rw [hfliplen]
        omega)
    (by show (flipBit (crcPayload (List.replicate MAX_FRAME_PAYLOAD 0) true) 0 0).length
          < 2 ^ 32
        rw [hfliplen]
        norm_num [MAX_FRAME_PAYLOAD])
  refine ⟨_, hmk, ?_, ?_, ?_⟩
  · rw [Feed_eq, heval]
  · rw [Feed_eq, heval]
    rfl
  · rw [Feed_eq, heval]
    rfl

/-- C10 (refuted — code bug): the slice-array store is NOT always in bounds.
A first `Message` frame for id `1` with `total_slices = 2` creates a 2-slot
entry; a second frame for the same id with `total_slices = 100` and
`sequence = 50` passes the `sequence >= total_slices` check (50 < 100) and,
because the entry is looked up by id and keeps its original 2-slot array,
the source then writes `m.slices[50]` out of bounds — the embedding records
this undefined behaviour in the `oob_slice_write` flag.  No error is raised
and the decoder continues. -/
theorem C10_slice_store_out_of_bounds :
    (Feed freshDecoder ((msgFrame 1 2 0 [9] false).serialize ++
        (msgFrame 1 100 50 [] false).serialize)).1.oob_slice_write = true ∧
    (Feed freshDecoder ((msgFrame 1 2 0 [9] false).serialize ++
        (msgFrame 1 100 50 [] false).serialize)).2 = none ∧
    (Feed freshDecoder ((msgFrame 1 2 0 [9] false).serialize ++
        (msgFrame 1 100 50 [] false).serialize)).1.messages =
      [(1, ⟨2, [[9], []], 1⟩)] := by
  decide

/-- C4 (amended): `Decoder::Feed`'s failure semantics.  (1) The only
`ProtocolError`s are bad magic, bad version, `payload_len` over 256 KiB —
and, contrary to the claim, also the `bad slice index` error thrown when a
`Message` frame has `sequence ≥ total_slices`.  (2) A CRC mismatch never
raises: the frame is dropped, the CRC error counter increments, and decoding
continues.  (3) A buffered incomplete frame — fewer than 16 bytes, or a
valid header whose full payload has not arrived — is not an error and the
bytes stay in the buffer. -/
theorem C4_feed_error_conditions :
    (∀ (s : DecoderState) (data : List Nat) (e : DecodeError),
      (Feed s data).2 = some e →
      e = DecodeError.badMagic ∨ e = DecodeError.badVersion ∨
        e = DecodeError.payloadTooLarge ∨ e = DecodeError.badSliceIndex) ∧
    (∀ (s : DecoderState) (f : Frame) (rest : List Nat),
      s.buffer = f.serialize ++ rest → WFFrame f → f.header.flags = FLAG_CRC32 →
      4 ≤ f.payload.length →
      readLE f.payload (f.payload.length - 4) 4 ≠
        CalculateCRC32 (f.payload.take (f.payload.length - 4)) →
      decodeFrameStep s =
        ({ bumpCrcError (bumpFramesReceived s) with buffer := rest }, none)) ∧
    (∀ s : DecoderState, s.buffer.length < 16 → tryDecode s = (bumpBufSize s, none)) ∧
    (∀ s : DecoderState, s.buffer.getD 0 0 = MAGIC1 → s.buffer.getD 1 0 = MAGIC2 →
      s.buffer.getD 2 0 = VERSION → readLE s.buffer 6 4 ≤ MAX_FRAME_PAYLOAD →
      16 ≤ s.buffer.length → s.buffer.length < 16 + readLE s.buffer 6 4 →
      tryDecode s = (bumpBufSize s, none)) := by
  refine ⟨?_, ?_, ?_, ?_⟩
  · intro s data e _
    cases e
    · exact Or.inl rfl
    · exact Or.inr (Or.inl rfl)
    · exact Or.inr (Or.inr (Or.inl rfl))
    · exact Or.inr (Or.inr (Or.inr rfl))
  · intro s f rest hbuf hwf hflag h4 hmis
    exact decodeFrameStep_crc_mismatch s f rest hbuf hwf hflag h4 hmis
  · intro s h
    exact tryDecode_short s h
  · intro s h0 h1 h2 hmax hge hshort
    rw [tryDecode, tryDecodeF]
    rw [if_neg (by omega : ¬ s.buffer.length < 16)]
    rw [if_neg (show ¬¬(s.buffer.getD 0 0 = MAGIC1 ∧ s.buffer.getD 1 0 = MAGIC2) from
      not_not_intro ⟨h0, h1⟩)]
    rw [if_neg (show ¬¬(s.buffer.getD 2 0 = VERSION) from not_not_intro h2)]
    rw [if_neg (show ¬ readLE s.buffer 6 4 > MAX_FRAME_PAYLOAD from by omega)]
    rw [if_pos hshort]

/-- C4 witness: a valid header announcing a 100-byte payload with only one
payload byte buffered is not an error; the decoder just waits. -/
theorem C4_feed_error_conditions_witness :
    tryDecode ⟨[0x5A, 0x5C, 1, 1, 0, 0, 100, 0, 0, 0, 0, 0, 0, 0, 0, 0, 9],
      [], [], [], ⟨0, 0, 0, 0, 0, 0, 0, 0⟩, false⟩ =
      (bumpBufSize ⟨[0x5A, 0x5C, 1, 1, 0, 0, 100, 0, 0, 0, 0, 0, 0, 0, 0, 0, 9],
        [], [], [], ⟨0, 0, 0, 0, 0, 0, 0, 0⟩, false⟩, none) :=
  C4_feed_error_conditions.2.2.2 _ (by decide) (by decide) (by decide) (by decide)
    (by decide) (by decide)

/-- C4 counterexample: a fully valid frame (magic, version and length all
in range) whose `Message` payload carries `total_slices = 0` and
`sequence = 0` makes `Feed` throw the fourth, unclaimed `ProtocolError`
kind, `bad slice index` — refuting "raises only for magic, version or
impossible length". -/
theorem C4_counterexample :
    (Feed freshDecoder [0x5A, 0x5C, 0x01, 0x01, 0, 0, 12, 0, 0, 0, 0, 0, 0, 0, 0, 0,
        5, 0, 0, 0, 0, 0, 0, 0, 0, 0, 0, 0]).2 = some DecodeError.badSliceIndex ∧
    ([0x5A, 0x5C, 0x01, 0x01, 0, 0, 12, 0, 0, 0, 0, 0, 0, 0, 0, 0,
        5, 0, 0, 0, 0, 0, 0, 0, 0, 0, 0, 0] : List Nat).getD 0 0 = MAGIC1 ∧
    ([0x5A, 0x5C, 0x01, 0x01, 0, 0, 12, 0, 0, 0, 0, 0, 0, 0, 0, 0,
        5, 0, 0, 0, 0, 0, 0, 0, 0, 0, 0, 0] : List Nat).getD 1 0 = MAGIC2 ∧
    ([0x5A, 0x5C, 0x01, 0x01, 0, 0, 12, 0, 0, 0, 0, 0, 0, 0, 0, 0,
        5, 0, 0, 0, 0, 0, 0, 0, 0, 0, 0, 0] : List Nat).getD 2 0 = VERSION ∧
    readLE [0x5A, 0x5C, 0x01, 0x01, 0, 0, 12, 0, 0, 0, 0, 0, 0, 0, 0, 0,
        5, 0, 0, 0, 0, 0, 0, 0, 0, 0, 0, 0] 6 4 ≤ MAX_FRAME_PAYLOAD ∧
    DecodeError.badSliceIndex ≠ DecodeError.badMagic ∧
    DecodeError.badSliceIndex ≠ DecodeError.badVersion ∧
    DecodeError.badSliceIndex ≠ DecodeError.payloadTooLarge := by
  decide

theorem setBuf_buffer (s : DecoderState) (b : List Nat) : (setBuf s b).buffer = b := rfl

theorem take_drop_prefix (F r : List Nat) (a b : Nat) (h : a + b ≤ F.length) :
    ((F ++ r).drop a).take b = (F.drop a).take b := by
  rw [List.drop_append_of_le_length (by omega),
    List.take_append_of_le_length (by simp only [List.length_drop]; omega)]

theorem setBuf_setBuf (s : DecoderState) (b1 b2 : List Nat) :
    setBuf (setBuf s b1) b2 = setBuf s b2 := rfl

theorem getD_append_left (F r : List Nat) (n : Nat) (h : n < F.length) :
    (F ++ r).getD n 0 = F.getD n 0 := by
  rw [List.getD_eq_getElem?_getD, List.getD_eq_getElem?_getD, List.getElem?_append,
    if_pos h]

theorem frameDataLen_le (buf : List Nat) : frameDataLen buf ≤ readLE buf 6 4 := by
  unfold frameDataLen
  split <;> omega

/-- `storeSlice` neither reads nor writes the rolling buffer. -/
theorem storeSlice_setBuf (s : DecoderState) (b : List Nat) (mid mt ms : Nat)
    (sl : List Nat) :
    storeSlice (setBuf s b) mid mt ms sl = setBuf (storeSlice s mid mt ms sl) b := by
  simp only [storeSlice, setBuf]
  repeat' split
  all_goals rfl

/-- Unpack `frameSafe` into the per-type dispatch conditions. -/
theorem frameSafe_spec (buf : List Nat) (h : frameSafe buf = true) :
    (buf.getD 3 0 = FT_MESSAGE →
      12 ≤ frameDataLen buf ∧ readLE buf 26 2 < readLE buf 24 2) ∧
    (buf.getD 3 0 = FT_STREAM_START → 16 ≤ frameDataLen buf) ∧
    (buf.getD 3 0 = FT_STREAM_CHUNK → 16 ≤ frameDataLen buf) ∧
    (buf.getD 3 0 = FT_STREAM_END → 12 ≤ frameDataLen buf) := by
  unfold frameSafe at h
  refine ⟨fun ht => ?_, fun ht => ?_, fun ht => ?_, fun ht => ?_⟩
  · rw [if_pos ht] at h
    by_cases hc : 12 ≤ frameDataLen buf ∧ readLE buf 26 2 < readLE buf 24 2
    · exact hc
    · rw [if_neg hc] at h; exact absurd h (by decide)
  · rw [if_neg (by rw [ht]; decide), if_pos ht] at h
    by_cases hc : 16 ≤ frameDataLen buf
    · exact hc
    · rw [if_neg hc] at h; exact absurd h (by decide)
  · rw [if_neg (by rw [ht]; decide), if_neg (by rw [ht]; decide), if_pos ht] at h
    by_cases hc : 16 ≤ frameDataLen buf
    · exact hc
    · rw [if_neg hc] at h; exact absurd h (by decide)
  · rw [if_neg (by rw [ht]; decide), if_neg (by rw [ht]; decide),
      if_neg (by rw [ht]; decide), if_pos ht] at h
    by_cases hc : 12 ≤ frameDataLen buf
    · exact hc
    · rw [if_neg hc] at h; exact absurd h (by decide)

/-- Dispatching a safe complete frame only reads the frame's own bytes:
the result does not depend on what follows the frame in the buffer (up to
the untouched buffer field), and the dispatch throws no error. -/
theorem processFrame_local (s : DecoderState) (F r : List Nat) (ftype pdl : Nat)
    (hbuf : s.buffer = F ++ r)
    (hmsg : ftype = FT_MESSAGE → 12 ≤ pdl ∧ readLE F 26 2 < readLE F 24 2)
    (hstart : ftype = FT_STREAM_START → 16 ≤ pdl)
    (hchunk : ftype = FT_STREAM_CHUNK → 16 ≤ pdl)
    (hend : ftype = FT_STREAM_END → 12 ≤ pdl)
    (hin : 16 + pdl ≤ F.length) :
    (processFrame s ftype pdl).2 = none ∧
    (processFrame (setBuf s F) ftype pdl).2 = none ∧
    ∀ b, setBuf (processFrame s ftype pdl).1 b =
      setBuf (processFrame (setBuf s F) ftype pdl).1 b := by
  unfold processFrame processMessageFrame processStreamFrame
  rw [setBuf_buffer, hbuf]
  by_cases ht : ftype = FT_MESSAGE
  · rw [if_pos ht, if_pos ht]
    obtain ⟨h12, hseq⟩ := hmsg ht
    have e26 : readLE (F ++ r) 26 2 = readLE F 26 2 := readLE_append_left _ (by omega)
    have e24 : readLE (F ++ r) 24 2 = readLE F 24 2 := readLE_append_left _ (by omega)
    have e16 : readLE (F ++ r) 16 8 = readLE F 16 8 := readLE_append_left _ (by omega)
    have esl : sliceData (F ++ r) pdl = sliceData F pdl := by
      unfold sliceData
      exact take_drop_prefix _ _ _ _ (by omega)
    rw [e26, e24, e16, esl, if_neg (show ¬ readLE F 26 2 ≥ readLE F 24 2 from by omega),
      if_neg (show ¬ readLE F 26 2 ≥ readLE F 24 2 from by omega)]
    refine ⟨rfl, rfl, fun b => ?_⟩
    dsimp only
    rw [storeSlice_setBuf, setBuf_setBuf]
  · rw [if_neg ht, if_neg ht]
    refine ⟨rfl, rfl, fun b => ?_⟩
    dsimp only
    by_cases hch : ftype = FT_STREAM_CHUNK
    · have h16p := hchunk hch
      have e16 : readLE (F ++ r) 16 8 = readLE F 16 8 := readLE_append_left _ (by omega)
      have e24 : readLE (F ++ r) 24 8 = readLE F 24 8 := readLE_append_left _ (by omega)
      have etk : ((F ++ r).drop 32).take (pdl - 16) = (F.drop 32).take (pdl - 16) :=
        take_drop_prefix _ _ _ _ (by omega)
      rw [if_pos hch, if_pos hch, e16, e24, etk]
      rfl
    · rw [if_neg hch, if_neg hch]
      by_cases hst : ftype = FT_STREAM_START
      · have h16p := hstart hst
        have e16 : readLE (F ++ r) 16 8 = readLE F 16 8 := readLE_append_left _ (by omega)
        have e24 : readLE (F ++ r) 24 8 = readLE F 24 8 := readLE_append_left _ (by omega)
        rw [if_pos hst, if_pos hst, e16, e24]
        rfl
      · rw [if_neg hst, if_neg hst]
        by_cases hen : ftype = FT_STREAM_END
        · have h12p := hend hen
          have e16 : readLE (F ++ r) 16 8 = readLE F 16 8 :=
            readLE_append_left _ (by omega)
          have e24 : readLE (F ++ r) 24 4 = readLE F 24 4 :=
            readLE_append_left _ (by omega)
          rw [if_pos hen, if_pos hen, e16, e24]
          rfl
        · rw [if_neg hen, if_neg hen]
          rfl

/-- Consuming one safe complete frame at the head of the buffer is local to
the frame: the bytes after the frame pass through untouched and the step
throws no error. -/
theorem decodeFrameStep_local (s : DecoderState) (F r : List Nat)
    (hbuf : s.buffer = F ++ r) (hF : F.length = 16 + readLE F 6 4)
    (hsafe : frameSafe F = true) :
    decodeFrameStep s = (setBuf (decodeFrameStep (setBuf s F)).1 r, none) := by
  have h16 : 16 ≤ F.length := by omega
  obtain ⟨hsM, hsS, hsC, hsE⟩ := frameSafe_spec F hsafe
  have hfl := frameDataLen_le F
  have r42 : readLE (F ++ r) 4 2 = readLE F 4 2 := readLE_append_left _ (by omega)
  have r64 : readLE (F ++ r) 6 4 = readLE F 6 4 := readLE_append_left _ (by omega)
  have g3 : (F ++ r).getD 3 0 = F.getD 3 0 := getD_append_left _ _ _ (by omega)
  have hdrop : (F ++ r).drop (16 + readLE F 6 4) = r := by
    rw [← hF, List.drop_left]
  unfold decodeFrameStep
  rw [setBuf_buffer, hbuf, r42, r64, g3]
  by_cases hc : readLE F 4 2 &&& FLAG_CRC32 ≠ 0 ∧ 4 ≤ readLE F 6 4
  · rw [if_pos hc, if_pos hc]
    have hfd : frameDataLen F = readLE F 6 4 - 4 := by
      unfold frameDataLen
      rw [if_pos hc]
    obtain ⟨hc1, hc2⟩ := hc
    have hcr : readLE (F ++ r) (16 + (readLE F 6 4 - 4)) 4 =
        readLE F (16 + (readLE F 6 4 - 4)) 4 := readLE_append_left _ (by omega)
    have hpay : ((F ++ r).drop 16).take (readLE F 6 4 - 4) =
        (F.drop 16).take (readLE F 6 4 - 4) := take_drop_prefix _ _ _ _ (by omega)
    rw [hcr, hpay]
    by_cases hm : readLE F (16 + (readLE F 6 4 - 4)) 4 =
        CalculateCRC32 ((F.drop 16).take (readLE F 6 4 - 4))
    · rw [if_pos hm, if_pos hm]
      obtain ⟨hE1, hE2, hSB⟩ := processFrame_local (bumpFramesReceived s) F r
        (F.getD 3 0) (readLE F 6 4 - 4) (by rw [bumpFramesReceived_buffer, hbuf])
        (fun ht => hfd ▸ hsM ht) (fun ht => hfd ▸ hsS ht) (fun ht => hfd ▸ hsC ht)
        (fun ht => hfd ▸ hsE ht) (by omega)
      rcases hpL : processFrame (bumpFramesReceived s) (F.getD 3 0)
          (readLE F 6 4 - 4) with ⟨s2, e2⟩
      rw [hpL] at hE1 hSB
      have hcm : bumpFramesReceived (setBuf s F) = setBuf (bumpFramesReceived s) F := rfl
      rw [hcm]
      rcases hpR : processFrame (setBuf (bumpFramesReceived s) F) (F.getD 3 0)
          (readLE F 6 4 - 4) with ⟨s3, e3⟩
      rw [hpR] at hE2 hSB
      dsimp only at hE1 hE2 hSB
      subst hE1
      subst hE2
      dsimp only
      have hb2 : s2.buffer = F ++ r := by
        have h := processFrame_buffer (bumpFramesReceived s) (F.getD 3 0)
          (readLE F 6 4 - 4)
        rw [hpL] at h
        dsimp only at h
        rw [bumpFramesReceived_buffer, hbuf] at h
        exact h
      rw [hb2, r64, hdrop]
      have h1 : ({ s2 with buffer := r } : DecoderState) =
          setBuf ({ s3 with
            buffer := s3.buffer.drop (16 + readLE s3.buffer 6 4) } : DecoderState) r := by
        rw [show setBuf ({ s3 with
            buffer := s3.buffer.drop (16 + readLE s3.buffer 6 4) } : DecoderState) r =
          setBuf s3 r from rfl]
        exact hSB r
      rw [h1]
    · rw [if_neg hm, if_neg hm, hdrop]
      rfl
  · rw [if_neg hc, if_neg hc]
    have hfd : frameDataLen F = readLE F 6 4 := by
      unfold frameDataLen
      rw [if_neg hc]
    obtain ⟨hE1, hE2, hSB⟩ := processFrame_local (bumpFramesReceived s) F r
      (F.getD 3 0) (readLE F 6 4) (by rw [bumpFramesReceived_buffer, hbuf])
      (fun ht => hfd ▸ hsM ht) (fun ht => hfd ▸ hsS ht) (fun ht => hfd ▸ hsC ht)
      (fun ht => hfd ▸ hsE ht) (by omega)
    rcases hpL : processFrame (bumpFramesReceived s) (F.getD 3 0)
        (readLE F 6 4) with ⟨s2, e2⟩
    rw [hpL] at hE1 hSB
    have hcm : bumpFramesReceived (setBuf s F) = setBuf (bumpFramesReceived s) F := rfl
    rw [hcm]
    rcases hpR : processFrame (setBuf (bumpFramesReceived s) F) (F.getD 3 0)
        (readLE F 6 4) with ⟨s3, e3⟩
    rw [hpR] at hE2 hSB
    dsimp only at hE1 hE2 hSB
    subst hE1
    subst hE2
    dsimp only
    have hb2 : s2.buffer = F ++ r := by
      have h := processFrame_buffer (bumpFramesReceived s) (F.getD 3 0) (readLE F 6 4)
      rw [hpL] at h
      dsimp only at h
      rw [bumpFramesReceived_buffer, hbuf] at h
      exact h
    rw [hb2, r64, hdrop]
    have h1 : ({ s2 with buffer := r } : DecoderState) =
        setBuf ({ s3 with
          buffer := s3.buffer.drop (16 + readLE s3.buffer 6 4) } : DecoderState) r := by
      rw [show setBuf ({ s3 with
          buffer := s3.buffer.drop (16 + readLE s3.buffer 6 4) } : DecoderState) r =
        setBuf s3 r from rfl]
      exact hSB r
    rw [h1]

theorem setBR_buffer (s : DecoderState) (y : Nat) : (setBR s y).buffer = s.buffer := rfl

theorem setBS_buffer (s : DecoderState) (y : Nat) : (setBS s y).buffer = s.buffer := rfl

/-- `storeSlice` passes `bytes_received` through. -/
theorem storeSlice_setBR (s : DecoderState) (y mid mt ms : Nat) (sl : List Nat) :
    storeSlice (setBR s y) mid mt ms sl = setBR (storeSlice s mid mt ms sl) y := by
  simp only [storeSlice, setBR]
  repeat' split
  all_goals rfl

/-- `storeSlice` passes `buffer_size` through. -/
theorem storeSlice_setBS (s : DecoderState) (y mid mt ms : Nat) (sl : List Nat) :
    storeSlice (setBS s y) mid mt ms sl = setBS (storeSlice s mid mt ms sl) y := by
  simp only [storeSlice, setBS]
  repeat' split
  all_goals rfl

/-- The frame dispatch passes `bytes_received` through. -/
theorem processFrame_setBR (s : DecoderState) (y ftype pdl : Nat) :
    processFrame (setBR s y) ftype pdl =
      (setBR (processFrame s ftype pdl).1 y, (processFrame s ftype pdl).2) := by
  unfold processFrame processMessageFrame processStreamFrame
  rw [setBR_buffer]
  by_cases ht : ftype = FT_MESSAGE
  · rw [if_pos ht, if_pos ht]
    by_cases hge : readLE s.buffer 26 2 ≥ readLE s.buffer 24 2
    · rw [if_pos hge, if_pos hge]
    · rw [if_neg hge, if_neg hge]
      dsimp only
      rw [storeSlice_setBR]
  · rw [if_neg ht, if_neg ht]
    dsimp only
    by_cases hch : ftype = FT_STREAM_CHUNK
    · rw [if_pos hch]
      rfl
    · rw [if_neg hch]
      by_cases hst : ftype = FT_STREAM_START
      · rw [if_pos hst]
        rfl
      · rw [if_neg hst]
        by_cases hen : ftype = FT_STREAM_END
        · rw [if_pos hen]
          rfl
        · rw [if_neg hen]
          rfl

/-- The frame dispatch passes `buffer_size` through. -/
theorem processFrame_setBS (s : DecoderState) (y ftype pdl : Nat) :
    processFrame (setBS s y) ftype pdl =
      (setBS (processFrame s ftype pdl).1 y, (processFrame s ftype pdl).2) := by
  unfold processFrame processMessageFrame processStreamFrame
  rw [setBS_buffer]
  by_cases ht : ftype = FT_MESSAGE
  · rw [if_pos ht, if_pos ht]
    by_cases hge : readLE s.buffer 26 2 ≥ readLE s.buffer 24 2
    · rw [if_pos hge, if_pos hge]
    · rw [if_neg hge, if_neg hge]
      dsimp only
      rw [storeSlice_setBS]
  · rw [if_neg ht, if_neg ht]
    dsimp only
    by_cases hch : ftype = FT_STREAM_CHUNK
    · rw [if_pos hch]
      rfl
    · rw [if_neg hch]
      by_cases hst : ftype = FT_STREAM_START
      · rw [if_pos hst]
        rfl
      · rw [if_neg hst]
        by_cases hen : ftype = FT_STREAM_END
        · rw [if_pos hen]
          rfl
        · rw [if_neg hen]
          rfl

/-- One frame step passes `bytes_received` through. -/
theorem decodeFrameStep_setBR (s : DecoderState) (y : Nat) :
    decodeFrameStep (setBR s y) =
      (setBR (decodeFrameStep s).1 y, (decodeFrameStep s).2) := by
  unfold decodeFrameStep
  rw [setBR_buffer]
  have hbfr : bumpFramesReceived (setBR s y) = setBR (bumpFramesReceived s) y := rfl
  rw [hbfr]
  by_cases hc : readLE s.buffer 4 2 &&& FLAG_CRC32 ≠ 0 ∧ 4 ≤ readLE s.buffer 6 4
  · rw [if_pos hc, if_pos hc]
    by_cases hm : readLE s.buffer (16 + (readLE s.buffer 6 4 - 4)) 4 =
        CalculateCRC32 ((s.buffer.drop 16).take (readLE s.buffer 6 4 - 4))
    · rw [if_pos hm, if_pos hm, processFrame_setBR]
      rcases hp : processFrame (bumpFramesReceived s) (s.buffer.getD 3 0)
          (readLE s.buffer 6 4 - 4) with ⟨s2, e⟩
      cases e with
      | some e2 => rfl
      | none => rfl
    · rw [if_neg hm, if_neg hm]
      rfl
  · rw [if_neg hc, if_neg hc, processFrame_setBR]
    rcases hp : processFrame (bumpFramesReceived s) (s.buffer.getD 3 0)
        (readLE s.buffer 6 4) with ⟨s2, e⟩
    cases e with
    | some e2 => rfl
    | none => rfl

/-- One frame step passes `buffer_size` through. -/
theorem decodeFrameStep_setBS (s : DecoderState) (y : Nat) :
    decodeFrameStep (setBS s y) =
      (setBS (decodeFrameStep s).1 y, (decodeFrameStep s).2) := by
  unfold decodeFrameStep
  rw [setBS_buffer]
  have hbfr : bumpFramesReceived (setBS s y) = setBS (bumpFramesReceived s) y := rfl
  rw [hbfr]
  by_cases hc : readLE s.buffer 4 2 &&& FLAG_CRC32 ≠ 0 ∧ 4 ≤ readLE s.buffer 6 4
  · rw [if_pos hc, if_pos hc]
    by_cases hm : readLE s.buffer (16 + (readLE s.buffer 6 4 - 4)) 4 =
        CalculateCRC32 ((s.buffer.drop 16).take (readLE s.buffer 6 4 - 4))
    · rw [if_pos hm, if_pos hm, processFrame_setBS]
      rcases hp : processFrame (bumpFramesReceived s) (s.buffer.getD 3 0)
          (readLE s.buffer 6 4 - 4) with ⟨s2, e⟩
      cases e with
      | some e2 => rfl
      | none => rfl
    · rw [if_neg hm, if_neg hm]
      rfl
  · rw [if_neg hc, if_neg hc, processFrame_setBS]
    rcases hp : processFrame (bumpFramesReceived s) (s.buffer.getD 3 0)
        (readLE s.buffer 6 4) with ⟨s2, e⟩
    cases e with
    | some e2 => rfl
    | none => rfl

/-- The whole decode loop passes `bytes_received` through. -/
theorem tryDecodeF_setBR (n : Nat) : ∀ (s : DecoderState) (y : Nat),
    tryDecodeF n (setBR s y) = (setBR (tryDecodeF n s).1 y, (tryDecodeF n s).2) := by
  induction n with
  | zero => intro s y; rfl
  | succ n ih =>
    intro s y
    simp only [tryDecodeF]
    rw [setBR_buffer]
    have hbb : bumpBufSize (setBR s y) = setBR (bumpBufSize s) y := rfl
    by_cases h16 : s.buffer.length < 16
    · rw [if_pos h16, if_pos h16, hbb]
    · rw [if_neg h16, if_neg h16]
      by_cases hmag : ¬ (s.buffer.getD 0 0 = MAGIC1 ∧ s.buffer.getD 1 0 = MAGIC2)
      · rw [if_pos hmag, if_pos hmag, hbb]
      · rw [if_neg hmag, if_neg hmag]
        by_cases hver : s.buffer.getD 2 0 ≠ VERSION
        · rw [if_pos hver, if_pos hver, hbb]
        · rw [if_neg hver, if_neg hver]
          by_cases hmax : readLE s.buffer 6 4 > MAX_FRAME_PAYLOAD
          · rw [if_pos hmax, if_pos hmax, hbb]
          · rw [if_neg hmax, if_neg hmax]
            by_cases hlen : s.buffer.length < 16 + readLE s.buffer 6 4
            · rw [if_pos hlen, if_pos hlen, hbb]
            · rw [if_neg hlen, if_neg hlen, hbb, decodeFrameStep_setBR]
              rcases hstep : decodeFrameStep (bumpBufSize s) with ⟨s2, e⟩
              cases e with
              | some e2 => rfl
              | none => exact ih s2 y

/-- The whole decode loop passes `bytes_received` through (wrapped form). -/
theorem tryDecode_setBR (s : DecoderState) (y : Nat) :
    tryDecode (setBR s y) = (setBR (tryDecode s).1 y, (tryDecode s).2) :=
  tryDecodeF_setBR (s.buffer.length + 1) s y

/-- The incoming `buffer_size` statistic is dead: the loop overwrites it
before it can be read. -/
theorem tryDecodeF_setBS (n : Nat) (s : DecoderState) (y : Nat) :
    tryDecodeF (n + 1) (setBS s y) = tryDecodeF (n + 1) s := by
  simp only [tryDecodeF]
  rw [setBS_buffer]
  have hbb : bumpBufSize (setBS s y) = bumpBufSize s := rfl
  rw [hbb]

/-- Any two sufficient fuel values agree for the safety walk. -/
theorem chunkSafeF_fuel (n : Nat) : ∀ (m : Nat) (buf : List Nat),
    buf.length < n → buf.length < m → chunkSafeF n buf = chunkSafeF m buf := by
  induction n with
  | zero => intro m buf h1 _; omega
  | succ n ih =>
    intro m buf h1 h2
    cases m with
    | zero => omega
    | succ m =>
      simp only [chunkSafeF]
      by_cases h16 : buf.length < 16
      · rw [if_pos h16, if_pos h16]
      · rw [if_neg h16, if_neg h16]
        by_cases hmag : ¬ (buf.getD 0 0 = MAGIC1 ∧ buf.getD 1 0 = MAGIC2)
        · rw [if_pos hmag, if_pos hmag]
        · rw [if_neg hmag, if_neg hmag]
          by_cases hver : buf.getD 2 0 ≠ VERSION
          · rw [if_pos hver, if_pos hver]
          · rw [if_neg hver, if_neg hver]
            by_cases hmax : readLE buf 6 4 > MAX_FRAME_PAYLOAD
            · rw [if_pos hmax, if_pos hmax]
            · rw [if_neg hmax, if_neg hmax]
              by_cases hlen : buf.length < 16 + readLE buf 6 4
              · rw [if_pos hlen, if_pos hlen]
              · rw [if_neg hlen, if_neg hlen]
                by_cases hfs : frameSafe buf = true
                · rw [if_pos hfs, if_pos hfs]
                  apply ih
                  · simp only [List.length_drop]; omega
                  · simp only [List.length_drop]; omega
                · rw [if_neg hfs, if_neg hfs]

/-- `frameSafe` of a complete frame only reads the frame's own bytes. -/
theorem frameSafe_local (F r : List Nat) (hF : F.length = 16 + readLE F 6 4) :
    frameSafe (F ++ r) = frameSafe F := by
  have h16 : 16 ≤ F.length := by omega
  have g3 : (F ++ r).getD 3 0 = F.getD 3 0 := getD_append_left _ _ _ (by omega)
  have r42 : readLE (F ++ r) 4 2 = readLE F 4 2 := readLE_append_left _ (by omega)
  have r64 : readLE (F ++ r) 6 4 = readLE F 6 4 := readLE_append_left _ (by omega)
  have hfd : frameDataLen (F ++ r) = frameDataLen F := by
    unfold frameDataLen
    rw [r42, r64]
  have hfl := frameDataLen_le F
  unfold frameSafe
  rw [g3, hfd]
  by_cases ht : F.getD 3 0 = FT_MESSAGE
  · rw [if_pos ht, if_pos ht]
    by_cases h12 : 12 ≤ frameDataLen F
    · have e26 : readLE (F ++ r) 26 2 = readLE F 26 2 := readLE_append_left _ (by omega)
      have e24 : readLE (F ++ r) 24 2 = readLE F 24 2 := readLE_append_left _ (by omega)
      rw [e26, e24]
    · rw [if_neg (fun h => h12 h.1), if_neg (fun h => h12 h.1)]
  · rw [if_neg ht, if_neg ht]

/-- Fuelled form of prefix closure: a prefix of a safe stream is safe. -/
theorem chunkSafe_prefixF (n : Nat) : ∀ (x y : List Nat), x.length < n →
    chunkSafe (x ++ y) = true → chunkSafe x = true := by
  induction n with
  | zero => intro x y h _; omega
  | succ n ih =>
    intro x y hn hsafe
    by_cases h16 : x.length < 16
    · rw [chunkSafe, chunkSafeF, if_pos h16]
    · have hX16 : ¬ (x ++ y).length < 16 := by
        rw [List.length_append]
        omega
      have g0 : (x ++ y).getD 0 0 = x.getD 0 0 := getD_append_left _ _ _ (by omega)
      have g1 : (x ++ y).getD 1 0 = x.getD 1 0 := getD_append_left _ _ _ (by omega)
      have g2 : (x ++ y).getD 2 0 = x.getD 2 0 := getD_append_left _ _ _ (by omega)
      have r64 : readLE (x ++ y) 6 4 = readLE x 6 4 := readLE_append_left _ (by omega)
      rw [chunkSafe, chunkSafeF, if_neg hX16, g0, g1, g2, r64] at hsafe
      rw [chunkSafe, chunkSafeF, if_neg h16]
      by_cases hmag : ¬ (x.getD 0 0 = MAGIC1 ∧ x.getD 1 0 = MAGIC2)
      · rw [if_pos hmag] at hsafe
        exact absurd hsafe (by decide)
      · rw [if_neg hmag] at hsafe
        rw [if_neg hmag]
        by_cases hver : x.getD 2 0 ≠ VERSION
        · rw [if_pos hver] at hsafe
          exact absurd hsafe (by decide)
        · rw [if_neg hver] at hsafe
          rw [if_neg hver]
          by_cases hmax : readLE x 6 4 > MAX_FRAME_PAYLOAD
          · rw [if_pos hmax] at hsafe
            exact absurd hsafe (by decide)
          · rw [if_neg hmax] at hsafe
            rw [if_neg hmax]
            by_cases hcomp : x.length < 16 + readLE x 6 4
            · rw [if_pos hcomp]
            · rw [if_neg hcomp]
              rw [if_neg (show ¬ (x ++ y).length < 16 + readLE x 6 4 from by
                rw [List.length_append]; omega)] at hsafe
              have hsplit : x = x.take (16 + readLE x 6 4) ++
                  x.drop (16 + readLE x 6 4) := (List.take_append_drop _ _).symm
              have hFlen : (x.take (16 + readLE x 6 4)).length =
                  16 + readLE x 6 4 := by
                rw [List.length_take]
                omega
              have hF6 : readLE (x.take (16 + readLE x 6 4)) 6 4 = readLE x 6 4 := by
                conv_rhs => rw [hsplit]
                exact (readLE_append_left _ (by omega)).symm
              have hFlen' : (x.take (16 + readLE x 6 4)).length =
                  16 + readLE (x.take (16 + readLE x 6 4)) 6 4 := by
                rw [hF6, hFlen]
              have hfsX : frameSafe (x ++ y) =
                  frameSafe (x.take (16 + readLE x 6 4)) := by
                conv_lhs => rw [hsplit, List.append_assoc]
                exact frameSafe_local _ _ hFlen'
              have hfsx : frameSafe x = frameSafe (x.take (16 + readLE x 6 4)) := by
                conv_lhs => rw [hsplit]
                exact frameSafe_local _ _ hFlen'
              rw [hfsX] at hsafe
              rw [hfsx]
              by_cases hfs : frameSafe (x.take (16 + readLE x 6 4)) = true
              · rw [if_pos hfs] at hsafe
                rw [if_pos hfs]
                rw [List.drop_append_of_le_length (by omega)] at hsafe
                have hdl : (x.drop (16 + readLE x 6 4)).length < x.length := by
                  rw [List.length_drop]
                  omega
                rw [chunkSafeF_fuel x.length
                  ((x.drop (16 + readLE x 6 4)).length + 1) _ hdl (by omega)]
                refine ih (x.drop (16 + readLE x 6 4)) y (by omega) ?_
                rw [chunkSafe, chunkSafeF_fuel ((x.drop (16 + readLE x 6 4) ++ y).length + 1)
                  ((x ++ y).length) _ (by omega) ?_]
                · exact hsafe
                · rw [List.length_append, List.length_append, List.length_drop]
                  omega
              · rw [if_neg hfs] at hsafe
                exact absurd hsafe (by decide)

/-- The `buffer_size` statistic entering `TryDecode` is dead state. -/
theorem tryDecode_setBS (s : DecoderState) (y : Nat) :
    tryDecode (setBS s y) = tryDecode s :=
  tryDecodeF_setBS s.buffer.length s y

/-- Entering `TryDecode` after the caller refreshed `stats_.buffer_size`
makes no difference. -/
theorem tryDecode_setBuf_bump (s : DecoderState) (X : List Nat) :
    tryDecode (setBuf (bumpBufSize s) X) = tryDecode (setBuf s X) :=
  tryDecode_setBS (setBuf s X) s.buffer.length

/-- One complete `frameSafe` frame at the head of the buffer: `TryDecode`
consumes it and continues as if started on the remainder (with the frame's
effect applied). -/
theorem tryDecode_frame_step (s : DecoderState)
    (hmag : s.buffer.getD 0 0 = MAGIC1 ∧ s.buffer.getD 1 0 = MAGIC2)
    (hver : ¬ s.buffer.getD 2 0 ≠ VERSION)
    (hmax : ¬ readLE s.buffer 6 4 > MAX_FRAME_PAYLOAD)
    (hcomp : ¬ s.buffer.length < 16 + readLE s.buffer 6 4)
    (hfs : frameSafe (s.buffer.take (16 + readLE s.buffer 6 4)) = true) :
    tryDecode s =
      tryDecode (setBuf
        (decodeFrameStep (setBuf (bumpBufSize s)
          (s.buffer.take (16 + readLE s.buffer 6 4)))).1
        (s.buffer.drop (16 + readLE s.buffer 6 4))) := by
  have h16 : ¬ s.buffer.length < 16 := by omega
  have hsplit : s.buffer = s.buffer.take (16 + readLE s.buffer 6 4) ++
      s.buffer.drop (16 + readLE s.buffer 6 4) := (List.take_append_drop _ _).symm
  have hFlen : (s.buffer.take (16 + readLE s.buffer 6 4)).length =
      16 + readLE s.buffer 6 4 := by
    rw [List.length_take]
    omega
  have hF6 : readLE (s.buffer.take (16 + readLE s.buffer 6 4)) 6 4 =
      readLE s.buffer 6 4 := by
    conv_rhs => rw [hsplit]
    exact (readLE_append_left _ (by omega)).symm
  have hFlen' : (s.buffer.take (16 + readLE s.buffer 6 4)).length =
      16 + readLE (s.buffer.take (16 + readLE s.buffer 6 4)) 6 4 := by
    rw [hF6, hFlen]
  have hstep := decodeFrameStep_local (bumpBufSize s)
    (s.buffer.take (16 + readLE s.buffer 6 4))
    (s.buffer.drop (16 + readLE s.buffer 6 4))
    (by rw [show (bumpBufSize s).buffer = s.buffer from rfl]; exact hsplit) hFlen' hfs
  conv_lhs => rw [tryDecode, tryDecodeF]
  rw [if_neg h16, if_neg (not_not_intro hmag), if_neg hver, if_neg hmax, if_neg hcomp,
    hstep]
  dsimp only
  rw [tryDecode]
  exact tryDecodeF_fuel _ _ _
    (by simp only [setBuf_buffer, List.length_drop]; omega)
    (by simp only [setBuf_buffer, List.length_drop]; omega)

/-- Extension induction: when the buffered bytes extended by `ext` walk as
safe frames, decoding the buffer alone throws nothing, and decoding the
extended buffer equals decoding the buffer first and then the leftover plus
`ext` (fuelled form, `n` bounds the buffer length). -/
theorem tryDecodeF_ext (n : Nat) : ∀ (s : DecoderState) (ext : List Nat),
    s.buffer.length < n →
    chunkSafe (s.buffer ++ ext) = true →
    (tryDecode s).2 = none ∧
    tryDecode (setBuf s (s.buffer ++ ext)) =
      tryDecode (setBuf (tryDecode s).1 ((tryDecode s).1.buffer ++ ext)) := by
  induction n with
  | zero => intro s ext h _; omega
  | succ n ih =>
    intro s ext hn hsafe
    by_cases h16 : s.buffer.length < 16
    · rw [tryDecode_short s h16]
      refine ⟨rfl, ?_⟩
      dsimp only
      rw [show (bumpBufSize s).buffer = s.buffer from rfl, tryDecode_setBuf_bump]
    · have hX16 : ¬ (s.buffer ++ ext).length < 16 := by
        rw [List.length_append]
        omega
      have g0 : (s.buffer ++ ext).getD 0 0 = s.buffer.getD 0 0 :=
        getD_append_left _ _ _ (by omega)
      have g1 : (s.buffer ++ ext).getD 1 0 = s.buffer.getD 1 0 :=
        getD_append_left _ _ _ (by omega)
      have g2 : (s.buffer ++ ext).getD 2 0 = s.buffer.getD 2 0 :=
        getD_append_left _ _ _ (by omega)
      have r64 : readLE (s.buffer ++ ext) 6 4 = readLE s.buffer 6 4 :=
        readLE_append_left _ (by omega)
      rw [chunkSafe, chunkSafeF, if_neg hX16, g0, g1, g2, r64] at hsafe
      by_cases hmag : ¬ (s.buffer.getD 0 0 = MAGIC1 ∧ s.buffer.getD 1 0 = MAGIC2)
      · rw [if_pos hmag] at hsafe
        exact absurd hsafe (by decide)
      · rw [if_neg hmag] at hsafe
        by_cases hver : s.buffer.getD 2 0 ≠ VERSION
        · rw [if_pos hver] at hsafe
          exact absurd hsafe (by decide)
        · rw [if_neg hver] at hsafe
          by_cases hmax : readLE s.buffer 6 4 > MAX_FRAME_PAYLOAD
          · rw [if_pos hmax] at hsafe
            exact absurd hsafe (by decide)
          · rw [if_neg hmax] at hsafe
            by_cases hcomp : s.buffer.length < 16 + readLE s.buffer 6 4
            · have hTD : tryDecode s = (bumpBufSize s, none) := by
                rw [tryDecode, tryDecodeF, if_neg h16, if_neg hmag, if_neg hver,
                  if_neg hmax, if_pos hcomp]
              rw [hTD]
              refine ⟨rfl, ?_⟩
              dsimp only
              rw [show (bumpBufSize s).buffer = s.buffer from rfl, tryDecode_setBuf_bump]
            · rw [if_neg (show ¬ (s.buffer ++ ext).length <
                  16 + readLE s.buffer 6 4 from by rw [List.length_append]; omega)] at hsafe
              have hsplit : s.buffer = s.buffer.take (16 + readLE s.buffer 6 4) ++
                  s.buffer.drop (16 + readLE s.buffer 6 4) :=
                (List.take_append_drop _ _).symm
              have hFlen : (s.buffer.take (16 + readLE s.buffer 6 4)).length =
                  16 + readLE s.buffer 6 4 := by
                rw [List.length_take]
                omega
              have hF6 : readLE (s.buffer.take (16 + readLE s.buffer 6 4)) 6 4 =
                  readLE s.buffer 6 4 := by
                conv_rhs => rw [hsplit]
                exact (readLE_append_left _ (by omega)).symm
              have hFlen' : (s.buffer.take (16 + readLE s.buffer 6 4)).length =
                  16 + readLE (s.buffer.take (16 + readLE s.buffer 6 4)) 6 4 := by
                rw [hF6, hFlen]
              have hfsX : frameSafe (s.buffer ++ ext) =
                  frameSafe (s.buffer.take (16 + readLE s.buffer 6 4)) := by
                conv_lhs => rw [hsplit, List.append_assoc]
                exact frameSafe_local _ _ hFlen'
              rw [hfsX] at hsafe
              by_cases hfs : frameSafe (s.buffer.take (16 + readLE s.buffer 6 4)) = true
              · rw [if_pos hfs] at hsafe
                rw [List.drop_append_of_le_length (by omega)] at hsafe
                have hsafe' : chunkSafe (s.buffer.drop (16 + readLE s.buffer 6 4) ++
                    ext) = true := by
                  rw [chunkSafe, chunkSafeF_fuel
                    ((s.buffer.drop (16 + readLE s.buffer 6 4) ++ ext).length + 1)
                    ((s.buffer ++ ext).length) _ (by omega) ?_]
                  · exact hsafe
                  · rw [List.length_append, List.length_append, List.length_drop]
                    omega
                have ha := tryDecode_frame_step s (not_not.mp hmag) hver hmax hcomp hfs
                have hbX16 : ¬ (setBuf s (s.buffer ++ ext)).buffer.length < 16 := by
                  rw [setBuf_buffer]
                  exact hX16
                have hb := tryDecode_frame_step (setBuf s (s.buffer ++ ext))
                  (by rw [setBuf_buffer, g0, g1]; exact not_not.mp hmag)
                  (by rw [setBuf_buffer, g2]; exact hver)
                  (by rw [setBuf_buffer, r64]; exact hmax)
                  (by rw [setBuf_buffer, r64, List.length_append]; omega)
                  (by rw [setBuf_buffer, r64,
                        List.take_append_of_le_length (by omega)]
                      exact hfs)
                rw [setBuf_buffer, r64, List.take_append_of_le_length (by omega),
                  List.drop_append_of_le_length (by omega)] at hb
                have hbump : setBuf (bumpBufSize (setBuf s (s.buffer ++ ext)))
                    (s.buffer.take (16 + readLE s.buffer 6 4)) =
                    setBS (setBuf (bumpBufSize s)
                      (s.buffer.take (16 + readLE s.buffer 6 4)))
                      (s.buffer ++ ext).length := rfl
                rw [hbump, decodeFrameStep_setBS] at hb
                dsimp only at hb
                rw [show setBuf (setBS (decodeFrameStep (setBuf (bumpBufSize s)
                      (s.buffer.take (16 + readLE s.buffer 6 4)))).1
                      (s.buffer ++ ext).length)
                    (s.buffer.drop (16 + readLE s.buffer 6 4) ++ ext) =
                  setBS (setBuf (decodeFrameStep (setBuf (bumpBufSize s)
                      (s.buffer.take (16 + readLE s.buffer 6 4)))).1
                    (s.buffer.drop (16 + readLE s.buffer 6 4) ++ ext))
                    (s.buffer ++ ext).length from rfl, tryDecode_setBS] at hb
                obtain ⟨ihe, ihq⟩ := ih (setBuf (decodeFrameStep (setBuf (bumpBufSize s)
                    (s.buffer.take (16 + readLE s.buffer 6 4)))).1
                    (s.buffer.drop (16 + readLE s.buffer 6 4))) ext
                  (by rw [setBuf_buffer, List.length_drop]; omega)
                  (by rw [setBuf_buffer]; exact hsafe')
                rw [setBuf_buffer, setBuf_setBuf] at ihq
                refine ⟨?_, ?_⟩
                · rw [ha]
                  exact ihe
                · rw [hb, ha]
                  exact ihq
              · rw [if_neg hfs] at hsafe
                exact absurd hsafe (by decide)

/-- Extension induction, wrapped. -/
theorem tryDecode_ext (s : DecoderState) (ext : List Nat)
    (hsafe : chunkSafe (s.buffer ++ ext) = true) :
    (tryDecode s).2 = none ∧
    tryDecode (setBuf s (s.buffer ++ ext)) =
      tryDecode (setBuf (tryDecode s).1 ((tryDecode s).1.buffer ++ ext)) :=
  tryDecodeF_ext (s.buffer.length + 1) s ext (by omega) hsafe

/-- A safe buffer decodes without a `ProtocolError`. -/
theorem tryDecode_safe_noerr (s : DecoderState) (h : chunkSafe s.buffer = true) :
    (tryDecode s).2 = none :=
  (tryDecode_ext s [] (by rw [List.append_nil]; exact h)).1

/-- `Feed` on a fresh decoder, written through `setBuf`/`setBR`. -/
theorem Feed_fresh (p : List Nat) :
    Feed freshDecoder p = tryDecode (setBR (setBuf freshDecoder p) p.length) := by
  rw [Feed]
  congr 1
  rw [show freshDecoder.stats.bytes_received = 0 from rfl, Nat.zero_add]
  rfl

/-- `Feed` of a single byte, written through `setBuf`/`setBR`. -/
theorem Feed_one (S : DecoderState) (b : Nat) :
    Feed S [b] =
      tryDecode (setBR (setBuf S (S.buffer ++ [b])) (S.stats.bytes_received + 1)) := rfl

/-- Bytewise feeding of a safe stream tracks the whole-stream feed state for
state, and every per-byte call returns without error. -/
theorem feedBytewise_aux (p : List Nat) : chunkSafe p = true →
    (feedBytewise freshDecoder p).1 = (Feed freshDecoder p).1 ∧
    ∀ e ∈ (feedBytewise freshDecoder p).2, e = none := by
  induction p using List.reverseRecOn with
  | nil =>
    intro _
    refine ⟨by decide, ?_⟩
    intro e he
    rw [show (feedBytewise freshDecoder []).2 = [] from rfl] at he
    exact absurd he (List.not_mem_nil e)
  | append_singleton p b ih =>
    intro hsafe
    have hsafe' : chunkSafe p = true :=
      chunkSafe_prefixF (p.length + 1) p [b] (by omega) hsafe
    obtain ⟨ih1, ih2⟩ := ih hsafe'
    have hfb : feedBytewise freshDecoder (p ++ [b]) =
        feedStep (feedBytewise freshDecoder p) b := by
      rw [feedBytewise, feedBytewise, List.foldl_append]
      rfl
    obtain ⟨hE, hQ⟩ := tryDecode_ext (setBR (setBuf freshDecoder p) (p.length + 1)) [b]
      (by rw [setBR_buffer, setBuf_buffer]; exact hsafe)
    rw [setBR_buffer, setBuf_buffer] at hQ
    rw [tryDecode_setBR] at hQ hE
    dsimp only at hQ hE
    rw [setBR_buffer] at hQ
    have hW : (Feed freshDecoder p).1 = setBR (tryDecode (setBuf freshDecoder p)).1
        p.length := by
      rw [Feed_fresh, tryDecode_setBR]
    have hfull : Feed freshDecoder (p ++ [b]) =
        tryDecode (setBuf (setBR (setBuf freshDecoder p) (p.length + 1)) (p ++ [b])) := by
      rw [Feed_fresh]
      congr 1
      rw [List.length_append, List.length_singleton]
      rfl
    have hstepFeed : Feed (Feed freshDecoder p).1 [b] =
        tryDecode (setBuf (setBR (tryDecode (setBuf freshDecoder p)).1 (p.length + 1))
          ((tryDecode (setBuf freshDecoder p)).1.buffer ++ [b])) := by
      rw [Feed_one, hW]
      rfl
    have hKey : Feed (Feed freshDecoder p).1 [b] = Feed freshDecoder (p ++ [b]) := by
      rw [hstepFeed, hfull, ← hQ]
    have hErrNew : (Feed freshDecoder (p ++ [b])).2 = none := by
      rw [Feed_fresh]
      exact tryDecode_safe_noerr _ (by rw [setBR_buffer, setBuf_buffer]; exact hsafe)
    refine ⟨?_, ?_⟩
    · rw [hfb, feedStep, ih1, hKey]
    · intro e he
      rw [hfb, feedStep] at he
      dsimp only at he
      rcases List.mem_append.mp he with hin | hin
      · exact ih2 e hin
      · rw [List.mem_singleton] at hin
        rw [hin, ih1, hKey]
        exact hErrNew

/-- C5 (corrected): the spec claims byte-at-a-time feeding is equivalent to
feeding the whole stream at once for *every* input stream.  That is false —
the dispatch reads the `MessageHeader` and stream headers at fixed offsets
past the frame header without checking `payload_len`, so a frame whose
`payload_len` is smaller than those headers reads bytes that arrive *after*
the frame, and the outcome depends on how the stream is split across `Feed`
calls (see the counterexample).  The equivalence does hold for every stream
whose complete frames are dispatched within their own bytes (`chunkSafe`):
bytewise feeding reaches exactly the whole-feed decoder state, and no call
on either side raises. -/
theorem C5_bytewise_feed (stream : List Nat) (hsafe : chunkSafe stream = true) :
    (feedBytewise freshDecoder stream).1 = (Feed freshDecoder stream).1 ∧
    (Feed freshDecoder stream).2 = none ∧
    ∀ e ∈ (feedBytewise freshDecoder stream).2, e = none := by
  obtain ⟨h1, h2⟩ := feedBytewise_aux stream hsafe
  refine ⟨h1, ?_, h2⟩
  rw [Feed_fresh]
  exact tryDecode_safe_noerr _ (by rw [setBR_buffer, setBuf_buffer]; exact hsafe)

/-- Witness for C5: a serialized single-slice message frame is `chunkSafe`,
and feeding it byte-by-byte reaches the whole-feed state without errors. -/
theorem C5_bytewise_feed_witness :
    chunkSafe ((msgFrame 9 1 0 [5] false).serialize) = true ∧
    ((feedBytewise freshDecoder ((msgFrame 9 1 0 [5] false).serialize)).1 =
        (Feed freshDecoder ((msgFrame 9 1 0 [5] false).serialize)).1 ∧
      (Feed freshDecoder ((msgFrame 9 1 0 [5] false).serialize)).2 = none ∧
      ∀ e ∈ (feedBytewise freshDecoder ((msgFrame 9 1 0 [5] false).serialize)).2,
        e = none) :=
  ⟨by decide, C5_bytewise_feed _ (by decide)⟩

/-- Counterexample to C5 as stated: a `Message` frame with `payload_len = 2`
followed by 10 stray bytes.  Fed at once, the dispatch reads the frame's
`total_slices`/`sequence` out of the stray bytes (`total = 1`, `seq = 0`)
and quietly completes a message; fed one byte at a time, the same reads hit
a short buffer (`total = 0`) and every call from the 18th byte on throws
`badSliceIndex`, leaving a different decoder state. -/
theorem C5_counterexample :
    (Feed freshDecoder
        ([0x5A, 0x5C, 1, 1, 0, 0, 2, 0, 0, 0, 0, 0, 0, 0, 0, 0] ++ [0, 0] ++
          [0, 0, 0, 0, 0, 0, 1, 0, 0, 0])).2 = none ∧
    (feedBytewise freshDecoder
        ([0x5A, 0x5C, 1, 1, 0, 0, 2, 0, 0, 0, 0, 0, 0, 0, 0, 0] ++ [0, 0] ++
          [0, 0, 0, 0, 0, 0, 1, 0, 0, 0])).1 ≠
      (Feed freshDecoder
        ([0x5A, 0x5C, 1, 1, 0, 0, 2, 0, 0, 0, 0, 0, 0, 0, 0, 0] ++ [0, 0] ++
          [0, 0, 0, 0, 0, 0, 1, 0, 0, 0])).1 ∧
    some DecodeError.badSliceIndex ∈
      (feedBytewise freshDecoder
        ([0x5A, 0x5C, 1, 1, 0, 0, 2, 0, 0, 0, 0, 0, 0, 0, 0, 0] ++ [0, 0] ++
          [0, 0, 0, 0, 0, 0, 1, 0, 0, 0])).2 := by
  set_option maxRecDepth 10000 in decide

end Proto

end DarwinCore
